import Mathlib

/-!
The salt templates of `gensalt.c`, the generator of salts for crypt().

A shallow embedding of `gensalt.c` (the lexer `gettok` with its one-token
pushback `ungettok`, and the parser/generator loop of `gensalt`) together
with the properties of the template language that its specification states.

Conventions of the embedding:

* A C `char` is represented by the `int` value it promotes to.  Whether plain
  `char` is signed is the platform's choice, so it is a parameter `sg : Bool`
  of the embedding: the `char` values are `-128..127` when `sg = true` and
  `0..255` when `sg = false`.  Storing an `int` into a buffer converts it to
  `char` (`toChar`, reduction modulo 256 into that interval).
* A template is the list of its `char` values up to, not including, the
  terminating NUL.  Reading at or past the end of the list reads the NUL.
* An `int` has 32 bits.  The one `int` that a template can drive out of range
  is `count`: `count * 10 + tok.val - '0'` is reduced modulo 2^32 into
  `-2^31 .. 2^31 - 1` (`toInt`, two's complement wrap-around, which is what
  the compiled program computes where C leaves the overflow undefined).  Token
  values and range endpoints stay within `-128 .. 255`, and buffer lengths are
  natural numbers (list lengths).
* The static variables of `gensalt.c` are the fields of `Globals`.  The
  selector `int (*pick)(int)` is a function with explicit state; `calls` is a
  log of the bounds the selector has been called with during the render.
* The calls of `malloc` and `realloc` are assumed to succeed, so `append`
  always stores the character and the "out of memory" returns do not occur.
* The two `for (;;)` loops are bounded by a step count (`gettokLoop`,
  `gensaltLoop`); `none` means the count ran out.  `gensalt_terminates` shows
  that the counts given by `gettok` and `gensalt` never run out.

Layout:

The definitions translated from the source come first.  They are followed by
the definitions the proofs use: `scanTok`, the lexer as a function of the
unread input, and `vstep`, the parser loop on what it can still observe of
its variables (`View`).  `gettok_eq_scan` and `body_view` show that the
source's `gettok` and loop body compute exactly these, so every claim about
`gensalt` is proved by running the loop on views.
-/

namespace Gensalt

/-! ## Data model -/

/-- Lexer and parser states (the first anonymous `enum` of `gensalt.c`). -/
inductive State where
  | STATE_START
  | STATE_IN_GENERATOR
  | STATE_SAW_FIRST
  | STATE_SAW_THROUGH
  | STATE_SAW_GENERATOR
  | STATE_IN_COUNT
  | STATE_SAW_COUNT
  | STATE_SAW_ESCAPE
  | STATE_IN_OCTAL
  | STATE_EOF
  deriving DecidableEq, Repr

/-- Token types returned by the lexer (the second anonymous `enum`). -/
inductive TokType where
  | TOK_ERR
  | TOK_EOF
  | TOK_GEN_START
  | TOK_GEN_END
  | TOK_THROUGH
  | TOK_COUNT_START
  | TOK_COUNT_END
  | TOK_LITERAL
  | TOK_EMPTY
  deriving DecidableEq, Repr

open State TokType

/-- The lexer's output, `struct token`. -/
structure token where
  type : TokType
  val : Int
  deriving DecidableEq, Repr

/-- The file-scope variables of `gensalt.c`.  `input` and `ptr` are the
template and the read position in it; `range` and `salt` hold the logical
contents (`len` characters) of the two dynamic strings; `rng` is the state
of the selector and `calls` logs the arguments it was called with. -/
structure Globals (σ : Type) where
  pushback : token
  input : List Int
  ptr : Nat
  msg : String
  range : List Int
  salt : List Int
  rng : σ
  calls : List Int

/-- The local variables of `gensalt` that live across loop iterations. -/
structure Locals where
  tok : token
  state : State
  first : Int
  last : Int
  count : Int

/-- What `gensalt` hands back: the returned pointer (`none` for `NULL`,
otherwise the contents of `salt.buf` including the terminating NUL) and the
file-scope variables as the call leaves them. -/
structure Outcome (σ : Type) where
  result : Option (List Int)
  g : Globals σ

/-- Result of one iteration of the parser loop: go round again, or return. -/
inductive Iter (σ : Type) where
  | again (l : Locals) (g : Globals σ)
  | done (out : Outcome σ)

/-! ## Characters -/

/-- Conversion of an `int` to `char`: the value congruent modulo 256 that
lies in `-128..127` (signed `char`) or in `0..255` (unsigned `char`). -/
def toChar (sg : Bool) (c : Int) : Int :=
  if sg then (c + 128) % 256 - 128 else c % 256

/-- The values a `char` can hold. -/
def isChar (sg : Bool) (c : Int) : Prop :=
  if sg then -128 ≤ c ∧ c ≤ 127 else 0 ≤ c ∧ c ≤ 255

instance (sg : Bool) (c : Int) : Decidable (isChar sg c) := by
  unfold isChar; infer_instance

/-- A template as `gensalt` can receive it: `char` values, none of them NUL. -/
def isTemplate (sg : Bool) (t : List Int) : Prop :=
  ∀ c ∈ t, isChar sg c ∧ c ≠ 0

instance (sg : Bool) (t : List Int) : Decidable (isTemplate sg t) := by
  unfold isTemplate; infer_instance

/-- The value of an `int` expression whose exact value is `x`: the value
congruent modulo 2^32 that lies in `-2^31 .. 2^31 - 1`. -/
def toInt (x : Int) : Int :=
  (x + 2147483648) % 4294967296 - 2147483648

/-- The function `isoct`: true if `c` is an octal digit. -/
def isoct (c : Int) : Bool :=
  c = 48 || c = 49 || c = 50 || c = 51 || c = 52 || c = 53 || c = 54 || c = 55

/-- The `isdigit` of `<ctype.h>` in the C locale. -/
def isdigit (c : Int) : Bool :=
  decide (48 ≤ c ∧ c ≤ 57)

/-! ## Dynamic strings -/

/-- The function `strclear`: set the length to zero. -/
def strclear (_sp : List Int) : List Int := []

/-- The function `append`: store `c`, converted to `char`, at the end of the
string.  Allocation is assumed to succeed, so the call always returns 1. -/
def append (sg : Bool) (sp : List Int) (c : Int) : List Int :=
  sp ++ [toChar sg c]

/-! ## Lexer -/

/-- The function `getnext`: the character at `ptr`; `ptr` advances unless it
is the NUL. -/
def getnext {σ : Type} (g : Globals σ) : Int × Globals σ :=
  if g.input.getD g.ptr 0 = 0 then (0, g)
  else (g.input.getD g.ptr 0, { g with ptr := g.ptr + 1 })

/-- The function `unget`: move the input pointer back one character. -/
def unget {σ : Type} (g : Globals σ) : Bool × Globals σ :=
  if g.ptr = 0 then (false, { g with msg := "too many chars pushed back" })
  else (true, { g with ptr := g.ptr - 1 })

/-- The `for (;;)` loop of `gettok`, at most `n` iterations.  The arguments
are the lexer state, `digits_seen`, the token `*t` and the globals; the
result is the returned type, `*t` and the globals. -/
def gettokLoop {σ : Type} :
    Nat → State → Nat → token → Globals σ → Option (TokType × token × Globals σ)
  | 0, _, _, _, _ => none
  | n + 1, state, digits_seen, t, g0 =>
    let c := (getnext g0).1
    let g := (getnext g0).2
    match state with
    | STATE_START =>
      if c = 0 then some (TOK_EOF, { t with type := TOK_EOF }, g)
      else if c = 92 then gettokLoop n STATE_SAW_ESCAPE digits_seen t g
      else if c = 91 then some (TOK_GEN_START, ⟨TOK_GEN_START, 91⟩, g)
      else if c = 45 then some (TOK_THROUGH, ⟨TOK_THROUGH, 45⟩, g)
      else if c = 93 then some (TOK_GEN_END, ⟨TOK_GEN_END, 93⟩, g)
      else if c = 123 then some (TOK_COUNT_START, ⟨TOK_COUNT_START, 123⟩, g)
      else if c = 125 then some (TOK_COUNT_END, ⟨TOK_COUNT_END, 125⟩, g)
      else some (TOK_LITERAL, ⟨TOK_LITERAL, c⟩, g)
    | STATE_SAW_ESCAPE =>
      if c = 0 then some (TOK_LITERAL, ⟨TOK_LITERAL, 92⟩, g)
      else if c = 48 ∨ c = 49 ∨ c = 50 ∨ c = 51 then
        gettokLoop n STATE_IN_OCTAL 1 { t with val := c - 48 } g
      else some (TOK_LITERAL, ⟨TOK_LITERAL, c⟩, g)
    | STATE_IN_OCTAL =>
      if c = 0 then some (TOK_LITERAL, { t with type := TOK_LITERAL }, g)
      else if isoct c = false then
        if (unget g).1 = false then some (TOK_ERR, { t with type := TOK_ERR }, (unget g).2)
        else some (TOK_LITERAL, { t with type := TOK_LITERAL }, (unget g).2)
      else if digits_seen = 3 then
        if (unget g).1 = false then some (TOK_ERR, { t with type := TOK_ERR }, (unget g).2)
        else some (TOK_LITERAL, { t with type := TOK_LITERAL }, (unget g).2)
      else gettokLoop n STATE_IN_OCTAL (digits_seen + 1) { t with val := t.val * 8 + c - 48 } g
    | _ => some (TOK_ERR, t, { g with msg := "gettok: can't happen" })

/-- The function `gettok`: read the next token from the pushback slot or from
the input.
Five iterations of the loop are the most it can make (a backslash, three
octal digits and the character after them). -/
def gettok {σ : Type} (t : token) (g : Globals σ) : Option (TokType × token × Globals σ) :=
  if g.pushback.type ≠ TOK_EMPTY then
    some (g.pushback.type, ⟨g.pushback.type, g.pushback.val⟩,
      { g with pushback := { g.pushback with type := TOK_EMPTY } })
  else gettokLoop 5 STATE_START 0 t g

/-- The function `ungettok`: push a token back on the input stream. -/
def ungettok {σ : Type} (t : token) (g : Globals σ) : Bool × Globals σ :=
  if g.pushback.type ≠ TOK_EMPTY then (false, { g with msg := "too many tokens pushed back" })
  else (true, { g with pushback := ⟨t.type, t.val⟩ })

/-! ## Selector -/

/-- The default selector `pick_default`, used when `pick_f` is `NULL`, over a
source `rand` of non-negative pseudo-random numbers with state `σ`:
`rand() % n` (the C remainder, which truncates). -/
def pick_default {σ : Type} (rand : σ → Int × σ) (s : σ) (n : Int) : Int × σ :=
  (Int.tmod (rand s).1 n, (rand s).2)

/-- The selector of the test suite, `genchar`, whose state is the counter
`seq` (set to 0 by `reset` and only counted up from there, so a natural
number): `if (seq >= n) seq = 0; return seq++;`. -/
def genchar (seq : Nat) (n : Int) : Int × Nat :=
  if (seq : Int) ≥ n then (0, 1) else ((seq : Int), seq + 1)

/-! ## Parser and generator -/

/-- The loop `for (i = first; i <= last; ++i) append(&range, i)`. -/
def appendRange (sg : Bool) (range : List Int) (first last : Int) : List Int :=
  (List.range (last - first + 1).toNat).foldl
    (fun r (i : Nat) => append sg r (first + (i : Int))) range

/-- The loop `for (i = 0; i < count; ++i) append(&salt, range.buf[pick(range.len)])`,
`n` iterations, on the variables it changes: `salt`, the selector state and
the log of selector calls.  An index outside the buffer's logical contents
reads as 0. -/
def emit {σ : Type} (sg : Bool) (pick : σ → Int → Int × σ) (range : List Int) :
    Nat → List Int × σ × List Int → List Int × σ × List Int
  | 0, x => x
  | n + 1, (salt, rng, calls) =>
    let k := (pick rng range.length).1
    emit sg pick range n
      (append sg salt (if 0 ≤ k then range.getD k.toNat 0 else 0),
       (pick rng range.length).2,
       calls ++ [(range.length : Int)])

/-- One iteration of the `for (;;)` loop of `gensalt`: `gettok`, then the
`switch (state)`.  `none` only if the lexer's loop count ran out. -/
def gensaltBody {σ : Type} (sg : Bool) (pick : σ → Int → Int × σ)
    (l : Locals) (g0 : Globals σ) : Option (Iter σ) :=
  match gettok l.tok g0 with
  | none => none
  | some (ty, tok, g) =>
    if ty = TOK_ERR then some (.done ⟨none, g⟩)
    else
    let l := { l with tok := tok }
    match l.state with
    | STATE_START =>
      if tok.type = TOK_EOF then
        some (.done ⟨some (append sg g.salt 0), { g with salt := append sg g.salt 0 }⟩)
      else if tok.type = TOK_LITERAL ∨ tok.type = TOK_COUNT_START ∨ tok.type = TOK_COUNT_END
          ∨ tok.type = TOK_GEN_END ∨ tok.type = TOK_THROUGH then
        some (.again l { g with salt := append sg g.salt tok.val })
      else if tok.type = TOK_GEN_START then
        some (.again { l with state := STATE_IN_GENERATOR } { g with range := strclear g.range })
      else some (.done ⟨none, { g with msg := "expected literal or '['" }⟩)
    | STATE_IN_GENERATOR =>
      if tok.type = TOK_GEN_END then some (.again { l with state := STATE_SAW_GENERATOR } g)
      else if tok.type = TOK_LITERAL ∨ tok.type = TOK_GEN_START ∨ tok.type = TOK_THROUGH
          ∨ tok.type = TOK_COUNT_START ∨ tok.type = TOK_COUNT_END then
        some (.again { l with first := tok.val, state := STATE_SAW_FIRST } g)
      else some (.done ⟨none, { g with msg := "expected literal or ']'" }⟩)
    | STATE_SAW_FIRST =>
      if tok.type = TOK_THROUGH then some (.again { l with state := STATE_SAW_THROUGH } g)
      else if (ungettok tok g).1 = false then some (.done ⟨none, (ungettok tok g).2⟩)
      else
        some (.again { l with state := STATE_IN_GENERATOR }
          { (ungettok tok g).2 with range := append sg (ungettok tok g).2.range l.first })
    | STATE_SAW_THROUGH =>
      if tok.type = TOK_EOF ∨ tok.type = TOK_GEN_END then
        some (.done ⟨none, { g with msg := "expected end of range" }⟩)
      else if tok.val < l.first then
        some (.done ⟨none, { g with msg := "backwards range" }⟩)
      else
        some (.again { l with last := tok.val, state := STATE_IN_GENERATOR }
          { g with range := appendRange sg g.range l.first tok.val })
    | STATE_SAW_GENERATOR =>
      if tok.type = TOK_COUNT_START then
        some (.again { l with count := 0, state := STATE_IN_COUNT } g)
      else if (ungettok tok g).1 = false then some (.done ⟨none, (ungettok tok g).2⟩)
      else some (.again { l with count := 1, state := STATE_SAW_COUNT } (ungettok tok g).2)
    | STATE_IN_COUNT =>
      if tok.type = TOK_COUNT_END then some (.again { l with state := STATE_SAW_COUNT } g)
      else if tok.type = TOK_LITERAL ∧ isdigit tok.val = true then
        some (.again { l with count := toInt (l.count * 10 + tok.val - 48) } g)
      else some (.done ⟨none, { g with msg := "expected digit or '\x7d'" }⟩)
    | STATE_SAW_COUNT =>
      if (ungettok tok g).1 = false then some (.done ⟨none, (ungettok tok g).2⟩)
      else if (ungettok tok g).2.range.length > 0 then
        let g1 := (ungettok tok g).2
        let e := emit sg pick g1.range l.count.toNat (g1.salt, g1.rng, g1.calls)
        some (.again { l with state := STATE_START }
          { g1 with salt := e.1, rng := e.2.1, calls := e.2.2 })
      else some (.again { l with state := STATE_START } (ungettok tok g).2)
    | _ => some (.done ⟨none, { g with msg := "can't happen" }⟩)

/-- The `for (;;)` loop of `gensalt`, at most `n` iterations. -/
def gensaltLoop {σ : Type} (sg : Bool) (pick : σ → Int → Int × σ) :
    Nat → Locals → Globals σ → Option (Outcome σ)
  | 0, _, _ => none
  | n + 1, l, g =>
    match gensaltBody sg pick l g with
    | none => none
    | some (.done out) => some out
    | some (.again l1 g1) => gensaltLoop sg pick n l1 g1

/-- The template used when `gensalt` is given `NULL`: `"[A-Za-z0-9./]{2}"`. -/
def defaultTemplate : List Int :=
  [91, 65, 45, 90, 97, 45, 122, 48, 45, 57, 46, 47, 93, 123, 50, 125]

/-- The initialisation at the top of `gensalt`.  `template = none` is the
`NULL` pointer; `g` holds the file-scope variables as the previous call (or
program start) left them. -/
def gensaltInit {σ : Type} (template : Option (List Int)) (g : Globals σ) : Globals σ :=
  { pushback := ⟨TOK_EMPTY, 0⟩
    input := match template with
      | none => defaultTemplate
      | some t => t
    ptr := 0
    msg := ""
    range := strclear g.range
    salt := strclear g.salt
    rng := g.rng
    calls := [] }

/-- The locals of `gensalt` at loop entry (`tok` is uninitialised in C; it is
written by `gettok` before it is read). -/
def locals0 : Locals :=
  { tok := ⟨TOK_EMPTY, 0⟩, state := STATE_START, first := 0, last := 0, count := 0 }

/-- The call `gensalt(template, pick_f)`, run from the file-scope variables
`g`.  The
parser loop makes at most three iterations per input character, plus those
for the end of input. -/
def gensalt {σ : Type} (sg : Bool) (pick : σ → Int → Int × σ)
    (template : Option (List Int)) (g : Globals σ) : Option (Outcome σ) :=
  gensaltLoop sg pick (3 * (gensaltInit template g).input.length + 4) locals0
    (gensaltInit template g)

/-- The function `gensalt_msg`: return the error message. -/
def gensalt_msg {σ : Type} (g : Globals σ) : String := g.msg

/-- The file-scope variables at program start, with selector state `s`. -/
def globals0 {σ : Type} (s : σ) : Globals σ :=
  { pushback := ⟨TOK_EMPTY, 0⟩, input := [], ptr := 0, msg := "", range := [], salt := [],
    rng := s, calls := [] }

/-! ## The lexer as a function of the unread input -/

/-- Value and length of the run of octal digits at the head of the input,
at most `n` of them, continuing the value `v`. -/
def scanOctal : Nat → Int → List Int → Int × Nat
  | 0, v, _ => (v, 0)
  | _ + 1, v, [] => (v, 0)
  | n + 1, v, c :: r =>
    if isoct c = true then
      ((scanOctal n (v * 8 + c - 48) r).1, (scanOctal n (v * 8 + c - 48) r).2 + 1)
    else (v, 0)

/-- The token at the head of the unread input and the number of characters
it occupies (what `gettok` does when the pushback slot is empty). The value
of the end-of-input token is given as 0. -/
def scanTok : List Int → token × Nat
  | [] => (⟨TOK_EOF, 0⟩, 0)
  | c :: r =>
    if c = 0 then (⟨TOK_EOF, 0⟩, 0)
    else if c = 92 then
      match r with
      | [] => (⟨TOK_LITERAL, 92⟩, 1)
      | d :: r2 =>
        if d = 0 then (⟨TOK_LITERAL, 92⟩, 1)
        else if d = 48 ∨ d = 49 ∨ d = 50 ∨ d = 51 then
          (⟨TOK_LITERAL, (scanOctal 2 (d - 48) r2).1⟩, (scanOctal 2 (d - 48) r2).2 + 2)
        else (⟨TOK_LITERAL, d⟩, 2)
    else if c = 91 then (⟨TOK_GEN_START, 91⟩, 1)
    else if c = 45 then (⟨TOK_THROUGH, 45⟩, 1)
    else if c = 93 then (⟨TOK_GEN_END, 93⟩, 1)
    else if c = 123 then (⟨TOK_COUNT_START, 123⟩, 1)
    else if c = 125 then (⟨TOK_COUNT_END, 125⟩, 1)
    else (⟨TOK_LITERAL, c⟩, 1)

/-- The token `gettok` stores in `*t`: the scanned one, except that at end
of input only the type is written and the old value stays. -/
def storedTok (t : token) (rest : List Int) : token :=
  if (scanTok rest).1.type = TOK_EOF then { t with type := TOK_EOF } else (scanTok rest).1

/-! ## The parser seen through the unread input -/

/-- What the parser loop can still observe of its variables: the state,
`first`, `count` and the range buffer where they are still read (0 and empty
elsewhere), the pushed-back token (if any), the unread input, the output
buffer, the message and the selector. -/
structure View (σ : Type) where
  state : State
  first : Int
  count : Int
  pend : Option token
  rest : List Int
  msg : String
  range : List Int
  salt : List Int
  rng : σ
  calls : List Int

/-- What a caller observes of a finished call. -/
structure Obs (σ : Type) where
  result : Option (List Int)
  msg : String
  rng : σ
  calls : List Int

/-- Result of one iteration on views. -/
inductive VIter (σ : Type) where
  | again (v : View σ)
  | done (o : Obs σ)

/-- The pushback slot as the parser can observe it. -/
def normTok (t : token) : Option token :=
  if t.type = TOK_EMPTY then none
  else if t.type = TOK_EOF then some ⟨TOK_EOF, 0⟩ else some t

/-- The value of `first` where the parser can still read it (it is written
in `STATE_IN_GENERATOR` before `STATE_SAW_FIRST` and `STATE_SAW_THROUGH` read it). -/
def liveFirst : State → Int → Int
  | STATE_SAW_FIRST, f => f
  | STATE_SAW_THROUGH, f => f
  | _, _ => 0

/-- The value of `count` where the parser can still read it (it is written
in `STATE_SAW_GENERATOR` before `STATE_IN_COUNT` and `STATE_SAW_COUNT` read it). -/
def liveCount : State → Int → Int
  | STATE_IN_COUNT, c => c
  | STATE_SAW_COUNT, c => c
  | _, _ => 0

/-- The range buffer where the parser can still read it (`STATE_START`
clears it before anything is read from it). -/
def liveRange : State → List Int → List Int
  | STATE_START, _ => []
  | _, r => r

/-- The view of a configuration of `gensalt`. -/
def view {σ : Type} (l : Locals) (g : Globals σ) : View σ :=
  { state := l.state, first := liveFirst l.state l.first, count := liveCount l.state l.count,
    pend := normTok g.pushback, rest := g.input.drop g.ptr, msg := g.msg,
    range := liveRange l.state g.range, salt := g.salt, rng := g.rng, calls := g.calls }

/-- The observation of an outcome of `gensalt`. -/
def obs {σ : Type} (out : Outcome σ) : Obs σ :=
  { result := out.result, msg := gensalt_msg out.g, rng := out.g.rng, calls := out.g.calls }

/-- The view of the result of an iteration. -/
def iterView {σ : Type} : Iter σ → VIter σ
  | .again l g => .again (view l g)
  | .done out => .done (obs out)

/-- The next token on views: the pushed-back one, or the one scanned from the
unread input. -/
def vnext {σ : Type} (v : View σ) : token × View σ :=
  match v.pend with
  | some t => (t, { v with pend := none })
  | none => ((scanTok v.rest).1, { v with rest := v.rest.drop (scanTok v.rest).2 })

/-- One iteration of the parser loop on views. -/
def vstep {σ : Type} (sg : Bool) (pick : σ → Int → Int × σ) (v0 : View σ) : VIter σ :=
  let tok := (vnext v0).1
  let v := (vnext v0).2
  if tok.type = TOK_ERR then .done ⟨none, v.msg, v.rng, v.calls⟩
  else
  match v.state with
  | STATE_START =>
    if tok.type = TOK_EOF then .done ⟨some (append sg v.salt 0), v.msg, v.rng, v.calls⟩
    else if tok.type = TOK_LITERAL ∨ tok.type = TOK_COUNT_START ∨ tok.type = TOK_COUNT_END
        ∨ tok.type = TOK_GEN_END ∨ tok.type = TOK_THROUGH then
      .again { v with first := 0, count := 0, range := [], salt := append sg v.salt tok.val }
    else if tok.type = TOK_GEN_START then
      .again { v with state := STATE_IN_GENERATOR, first := 0, count := 0, range := [] }
    else .done ⟨none, "expected literal or '['", v.rng, v.calls⟩
  | STATE_IN_GENERATOR =>
    if tok.type = TOK_GEN_END then
      .again { v with state := STATE_SAW_GENERATOR, first := 0, count := 0 }
    else if tok.type = TOK_LITERAL ∨ tok.type = TOK_GEN_START ∨ tok.type = TOK_THROUGH
        ∨ tok.type = TOK_COUNT_START ∨ tok.type = TOK_COUNT_END then
      .again { v with state := STATE_SAW_FIRST, first := tok.val, count := 0 }
    else .done ⟨none, "expected literal or ']'", v.rng, v.calls⟩
  | STATE_SAW_FIRST =>
    if tok.type = TOK_THROUGH then .again { v with state := STATE_SAW_THROUGH, count := 0 }
    else
      .again { v with state := STATE_IN_GENERATOR, first := 0, count := 0, pend := normTok tok,
                      range := append sg v.range v.first }
  | STATE_SAW_THROUGH =>
    if tok.type = TOK_EOF ∨ tok.type = TOK_GEN_END then
      .done ⟨none, "expected end of range", v.rng, v.calls⟩
    else if tok.val < v.first then .done ⟨none, "backwards range", v.rng, v.calls⟩
    else
      .again { v with state := STATE_IN_GENERATOR, first := 0, count := 0,
                      range := appendRange sg v.range v.first tok.val }
  | STATE_SAW_GENERATOR =>
    if tok.type = TOK_COUNT_START then
      .again { v with state := STATE_IN_COUNT, first := 0, count := 0 }
    else .again { v with state := STATE_SAW_COUNT, first := 0, count := 1, pend := normTok tok }
  | STATE_IN_COUNT =>
    if tok.type = TOK_COUNT_END then .again { v with state := STATE_SAW_COUNT, first := 0 }
    else if tok.type = TOK_LITERAL ∧ isdigit tok.val = true then
      .again { v with first := 0, count := toInt (v.count * 10 + tok.val - 48) }
    else .done ⟨none, "expected digit or '\x7d'", v.rng, v.calls⟩
  | STATE_SAW_COUNT =>
    if v.range.length > 0 then
      let e := emit sg pick v.range v.count.toNat (v.salt, v.rng, v.calls)
      .again { v with state := STATE_START, first := 0, count := 0, pend := normTok tok,
                      range := [], salt := e.1, rng := e.2.1, calls := e.2.2 }
    else
      .again { v with state := STATE_START, first := 0, count := 0, pend := normTok tok,
                      range := [] }
  | _ => .done ⟨none, "can't happen", v.rng, v.calls⟩

/-- The parser loop on views, at most `n` iterations. -/
def vrun {σ : Type} (sg : Bool) (pick : σ → Int → Int × σ) : Nat → View σ → Option (Obs σ)
  | 0, _ => none
  | n + 1, v =>
    match vstep sg pick v with
    | .done o => some o
    | .again v1 => vrun sg pick n v1

/-- The view at loop entry of a call on template `t` with selector state `s`. -/
def startView {σ : Type} (t : List Int) (s : σ) : View σ :=
  { state := STATE_START, first := 0, count := 0, pend := none, rest := t, msg := "",
    range := [], salt := [], rng := s, calls := [] }

/-- Iterations a pushed-back token can still take before it is consumed. -/
def pendWeight : State → Nat
  | STATE_SAW_FIRST => 2
  | STATE_SAW_GENERATOR => 3
  | STATE_SAW_COUNT => 2
  | _ => 1

/-- A bound on the iterations the parser loop can still make from a view. -/
def pot {σ : Type} (v : View σ) : Nat :=
  match v.pend with
  | none => 3 * (v.rest.length + 1)
  | some t =>
    (if t.type = TOK_EOF then 0 else 3 * (v.rest.length + 1)) + pendWeight v.state

/-- A view with `S` already in `salt` and `C` already in the call log. -/
def frameView {σ : Type} (S C : List Int) (v : View σ) : View σ :=
  { v with salt := S ++ v.salt, calls := C ++ v.calls }

/-- An observation with `S` put before the result and `C` before the call log. -/
def frameObs {σ : Type} (S C : List Int) (o : Obs σ) : Obs σ :=
  { o with result := o.result.map (fun r => S ++ r), calls := C ++ o.calls }

/-- The view machine, started at `v`, finishes with observation `o`. -/
def Renders {σ : Type} (sg : Bool) (pick : σ → Int → Int × σ) (v : View σ) (o : Obs σ) : Prop :=
  ∃ n, vrun sg pick n v = some o

/-! ## Vocabulary of the claims -/

/-- A plain character: not NUL and none of `[`, `]`, `-`, `{`, `}`, backslash. -/
def isPlain (c : Int) : Prop :=
  c ≠ 0 ∧ c ≠ 91 ∧ c ≠ 93 ∧ c ≠ 45 ∧ c ≠ 123 ∧ c ≠ 125 ∧ c ≠ 92

instance (c : Int) : Decidable (isPlain c) := by
  unfold isPlain; infer_instance

/-- The selector keeps its contract: asked with a positive bound `n` it
answers in `[0, n)`, whatever its state. -/
def inRange {σ : Type} (pick : σ → Int → Int × σ) : Prop :=
  ∀ (s : σ) (n : Int), 0 < n → 0 ≤ (pick s n).1 ∧ (pick s n).1 < n

/-- The results of `n` successive calls of the selector with bound `b`,
starting from selector state `s`. -/
def picks {σ : Type} (pick : σ → Int → Int × σ) (b : Int) : Nat → σ → List Int
  | 0, _ => []
  | n + 1, s => (pick s b).1 :: picks pick b n (pick s b).2

/-- The selector state after `n` successive calls with bound `b`. -/
def rngAfter {σ : Type} (pick : σ → Int → Int × σ) (b : Int) : Nat → σ → σ
  | 0, s => s
  | n + 1, s => rngAfter pick b n (pick s b).2

/-- The number a string of ASCII digits denotes, continuing from `acc`. -/
def decVal (acc : Int) (ds : List Int) : Int :=
  ds.foldl (fun a d => a * 10 + d - 48) acc

/-- The value `count` has after `STATE_IN_COUNT` has taken the digits `ds`,
starting from `acc`: every step is computed in `int`. -/
def countVal (acc : Int) (ds : List Int) : Int :=
  ds.foldl (fun a d => toInt (a * 10 + d - 48)) acc

/-- The decimal numeral of `n` as ASCII digits, most significant first
(`"0"` for zero). -/
def decimal (n : Nat) : List Int :=
  if n = 0 then [48] else (Nat.digits 10 n).reverse.map (fun (d : Nat) => (d : Int) + 48)

/-- Token types that `STATE_IN_GENERATOR` takes as the first character of a
set member or range. -/
def isFirstTok (ty : TokType) : Prop :=
  ty = TOK_LITERAL ∨ ty = TOK_GEN_START ∨ ty = TOK_THROUGH ∨ ty = TOK_COUNT_START
    ∨ ty = TOK_COUNT_END

/-- Escaping: a backslash is put before every `[`, `]`, `-`, `{`, `}` and
backslash of `s`. -/
def esc : List Int → List Int
  | [] => []
  | c :: s =>
    if c = 91 ∨ c = 93 ∨ c = 45 ∨ c = 123 ∨ c = 125 ∨ c = 92 then 92 :: c :: esc s
    else c :: esc s

/-- Template `T` renders as the character `x` followed by the rendering of
template `t`: both calls return, `T` fails exactly when `t` does and with the
same diagnostic, a result of `T` is `x` put before the result of `t`, and the
selector is used in the same way. -/
def RendersAfter {σ : Type} (sg : Bool) (pick : σ → Int → Int × σ) (g : Globals σ)
    (T : List Int) (x : Int) (t : List Int) : Prop :=
  ∃ ot o, gensalt sg pick (some t) g = some ot ∧ gensalt sg pick (some T) g = some o
    ∧ o.result = ot.result.map (fun r => x :: r) ∧ gensalt_msg o.g = gensalt_msg ot.g
    ∧ o.g.calls = ot.g.calls ∧ o.g.rng = ot.g.rng

/-- The 64 characters `A..Z`, `a..z`, `0..9`, `.`, `/`, in that order. -/
def saltAlphabet : List Int :=
  (List.range 26).map (fun (i : Nat) => 65 + (i : Int))
    ++ (List.range 26).map (fun (i : Nat) => 97 + (i : Int))
    ++ (List.range 10).map (fun (i : Nat) => 48 + (i : Int))
    ++ [46, 47]

/-- None of the first `n` tokens of the input `r` has the value 0: no octal
escape among them denotes NUL (`\0`, `\00`, `\000`). -/
def noNulToken : Nat → List Int → Prop
  | 0, _ => True
  | n + 1, r =>
    (scanTok r).1.type = TOK_EOF
      ∨ ((scanTok r).1.val ≠ 0 ∧ noNulToken n (r.drop (scanTok r).2))

instance (n : Nat) (r : List Int) : Decidable (noNulToken n r) := by
  induction n generalizing r with
  | zero => unfold noNulToken; infer_instance
  | succ n ih => unfold noNulToken; infer_instance

/-- What the NUL-freedom proof keeps true of a view: the unread input holds
positive `char` values and no zero-valued token, a pushed-back token is not an
error and (unless it is the end of input) has a value in `1..255`, so has
`first` in the states that read it, and no character in the two buffers is
a multiple of 256. -/
def NulFreeInv {σ : Type} (v : View σ) : Prop :=
  (∀ c ∈ v.rest, 0 < c ∧ c ≤ 255)
    ∧ noNulToken v.rest.length v.rest
    ∧ (∀ t, v.pend = some t →
        t.type ≠ TOK_ERR ∧ (t.type ≠ TOK_EOF → 0 < t.val ∧ t.val ≤ 255))
    ∧ (∀ c ∈ v.salt, c % 256 ≠ 0)
    ∧ (∀ c ∈ v.range, c % 256 ≠ 0)
    ∧ ((v.state = STATE_SAW_FIRST ∨ v.state = STATE_SAW_THROUGH) →
        0 < v.first ∧ v.first ≤ 255)

/-- The text `r` after an opening `[` runs to the end of input as at most `n`
complete items: each item is a set member (a token other than `]` that is not
followed by `-`) or a complete ascending range (a token, `-`, and a token
that is neither `]` nor the end of input and is not below the first).  No
unescaped `]` closes the set. -/
def openBody : Nat → List Int → Prop
  | 0, _ => False
  | n + 1, r =>
    (scanTok r).1.type = TOK_EOF
      ∨ (isFirstTok (scanTok r).1.type
          ∧ (if (scanTok (r.drop (scanTok r).2)).1.type = TOK_THROUGH then
              (scanTok ((r.drop (scanTok r).2).drop 1)).1.type ≠ TOK_EOF
                ∧ (scanTok ((r.drop (scanTok r).2).drop 1)).1.type ≠ TOK_GEN_END
                ∧ (scanTok r).1.val ≤ (scanTok ((r.drop (scanTok r).2).drop 1)).1.val
                ∧ openBody n (((r.drop (scanTok r).2).drop 1).drop
                    (scanTok ((r.drop (scanTok r).2).drop 1)).2)
            else openBody n (r.drop (scanTok r).2)))

instance (ty : TokType) : Decidable (isFirstTok ty) := by
  unfold isFirstTok; infer_instance

instance (n : Nat) (r : List Int) : Decidable (openBody n r) := by
  induction n generalizing r with
  | zero => unfold openBody; infer_instance
  | succ n ih => unfold openBody; infer_instance

/-- A character that, written unescaped, is the first character of a set
member or range and not a `-`: not NUL, backslash, `]` or `-` (so a plain
character or one of `[`, `{`, `}`). -/
def isEndpoint (a : Int) : Prop :=
  a ≠ 0 ∧ a ≠ 92 ∧ a ≠ 93 ∧ a ≠ 45

instance (a : Int) : Decidable (isEndpoint a) := by
  unfold isEndpoint; infer_instance

/-- The next token of the input `r` is neither `}` nor a literal that is an
ASCII decimal digit: it is the end of input, another literal (an escaped `}`
included) or one of the unescaped `[`, `]`, `-`, `{`. -/
def badCountTok (r : List Int) : Prop :=
  (scanTok r).1.type ≠ TOK_COUNT_END
    ∧ ¬ ((scanTok r).1.type = TOK_LITERAL ∧ isdigit (scanTok r).1.val = true)

instance (r : List Int) : Decidable (badCountTok r) := by
  unfold badCountTok; infer_instance

/-- The three-digit octal escape of the character code `d` below 64: a
backslash, `0`, and the two octal digits of `d`. -/
def octDigit (d : Int) : List Int := [92, 48, 48 + d / 8, 48 + d % 8]

/-- A way of writing a digit string in a count: each digit with a flag, as an
octal escape when the flag is set, plainly otherwise. -/
def writeDigits : List (Int × Bool) → List Int
  | [] => []
  | (d, true) :: w => octDigit d ++ writeDigits w
  | (d, false) :: w => d :: writeDigits w

/-- The seven states of the parser loop of `gensalt` (the other three values
of the `enum` are states of the lexer only). -/
def parserState (s : State) : Prop :=
  s = STATE_START ∨ s = STATE_IN_GENERATOR ∨ s = STATE_SAW_FIRST ∨ s = STATE_SAW_THROUGH
    ∨ s = STATE_SAW_GENERATOR ∨ s = STATE_IN_COUNT ∨ s = STATE_SAW_COUNT

instance (s : State) : Decidable (parserState s) := by
  unfold parserState; infer_instance

/-- The diagnostics of template syntax errors that `gensalt` can return. -/
def syntaxDiag (m : String) : Prop :=
  m = "expected literal or ']'" ∨ m = "expected end of range" ∨ m = "backwards range"
    ∨ m = "expected digit or '\x7d'"

instance (m : String) : Decidable (syntaxDiag m) := by
  unfold syntaxDiag; infer_instance

/-- The diagnostics of the internal-error returns of `gensalt.c`. -/
def internalDiag (m : String) : Prop :=
  m = "too many tokens pushed back" ∨ m = "too many chars pushed back"
    ∨ m = "gettok: can't happen" ∨ m = "can't happen"

instance (m : String) : Decidable (internalDiag m) := by
  unfold internalDiag; infer_instance

/-- The configuration at the top of the parser loop after `n` more
iterations from `(l, g)`; `none` if the loop has returned before. -/
def gensaltIter {σ : Type} (sg : Bool) (pick : σ → Int → Int × σ) :
    Nat → Locals → Globals σ → Option (Locals × Globals σ)
  | 0, l, g => some (l, g)
  | n + 1, l, g =>
    match gensaltBody sg pick l g with
    | some (.again l1 g1) => gensaltIter sg pick n l1 g1
    | _ => none

/-- The number of times the first `n` iterations from `(l, g)` take the
branch of `STATE_START` that appends the token to `salt` (the only branch
that stays in `STATE_START`): the top-level literals copied to the output. -/
def topLiterals {σ : Type} (sg : Bool) (pick : σ → Int → Int × σ) :
    Nat → Locals → Globals σ → Nat
  | 0, _, _ => 0
  | n + 1, l, g =>
    match gensaltBody sg pick l g with
    | some (.again l1 g1) =>
      (if l.state = STATE_START ∧ l1.state = STATE_START then 1 else 0)
        + topLiterals sg pick n l1 g1
    | _ => 0

/-- The conditions under which the parser loop runs: no message set, one of
the seven parser states, and no error or empty token as pushed-back token. -/
def Sane {σ : Type} (v : View σ) : Prop :=
  v.msg = "" ∧ parserState v.state
    ∧ ∀ t, v.pend = some t → t.type ≠ TOK_ERR ∧ t.type ≠ TOK_EMPTY

/-- The number of selector calls an iteration of the parser loop makes:
`count` of them in `STATE_SAW_COUNT` when the range buffer is not empty, none
otherwise. -/
def emitCount (st : State) (range : List Int) (count : Int) : Nat :=
  if st = STATE_SAW_COUNT ∧ range ≠ [] then count.toNat else 0

/-- The `[` that opens a bracket construct: after `n` iterations of the
parser loop of `gensalt(template, pick)` the loop is still running, it is in
`STATE_START`, and the token that `gettok` hands it is an unescaped `[` with
`body` as the unread input after it. -/
def opensAt {σ : Type} (sg : Bool) (pick : σ → Int → Int × σ) (template : Option (List Int))
    (g0 : Globals σ) (n : Nat) (body : List Int) : Prop :=
  match gensaltIter sg pick n locals0 (gensaltInit template g0) with
  | none => False
  | some (l, g) =>
    l.state = STATE_START ∧
      match gettok l.tok g with
      | none => False
      | some (_, tok, g1) => tok.type = TOK_GEN_START ∧ g1.input.drop g1.ptr = body

instance {σ : Type} (sg : Bool) (pick : σ → Int → Int × σ) (template : Option (List Int))
    (g0 : Globals σ) (n : Nat) (body : List Int) :
    Decidable (opensAt sg pick template g0 n body) := by
  unfold opensAt
  cases gensaltIter sg pick n locals0 (gensaltInit template g0) with
  | none => exact instDecidableFalse
  | some c =>
    obtain ⟨l, g⟩ := c
    cases hg : gettok l.tok g with
    | none =>
      simp only [hg]
      infer_instance
    | some r =>
      obtain ⟨ty, tok, g1⟩ := r
      simp only [hg]
      infer_instance

/-! ## The lexer and the parser loop on the unread input -/

theorem getD_eq_headD_drop (l : List Int) (n : Nat) : l.getD n 0 = (l.drop n).headD 0 := by
  induction l generalizing n with
  | nil => simp
  | cons a l ih =>
    cases n with
    | zero => simp
    | succ n => simp [ih n]

theorem getnext_eq {σ : Type} (g : Globals σ) :
    getnext g = if (g.input.drop g.ptr).headD 0 = 0 then (0, g)
      else ((g.input.drop g.ptr).headD 0, { g with ptr := g.ptr + 1 }) := by
  unfold getnext
  rw [getD_eq_headD_drop]

theorem drop_succ_of_drop_cons {l : List Int} {n : Nat} {c : Int} {r : List Int}
    (h : l.drop n = c :: r) : l.drop (n + 1) = r := by
  induction l generalizing n with
  | nil => simp at h
  | cons a l ih =>
    cases n with
    | zero => simp at h; simp [h.2]
    | succ n => simp at h; simpa using ih h

theorem getnext_nil {σ : Type} (g : Globals σ) (h : g.input.drop g.ptr = []) :
    getnext g = (0, g) := by
  simp [getnext_eq, h]

theorem getnext_zero {σ : Type} (g : Globals σ) (r : List Int) (h : g.input.drop g.ptr = 0 :: r) :
    getnext g = (0, g) := by
  simp [getnext_eq, h]

theorem getnext_cons {σ : Type} (g : Globals σ) (c : Int) (r : List Int)
    (h : g.input.drop g.ptr = c :: r) (hc : c ≠ 0) :
    getnext g = (c, { g with ptr := g.ptr + 1 }) := by
  simp [getnext_eq, h, hc]

theorem gettokLoop_octal {σ : Type} (k : Nat) :
    ∀ (ds : Nat) (t : token) (g : Globals σ), ds + k = 3 →
      gettokLoop (k + 1) STATE_IN_OCTAL ds t g =
        some (TOK_LITERAL, ⟨TOK_LITERAL, (scanOctal k t.val (g.input.drop g.ptr)).1⟩,
          { g with ptr := g.ptr + (scanOctal k t.val (g.input.drop g.ptr)).2 }) := by
  induction k with
  | zero =>
    intro ds t g hds
    have hds3 : ds = 3 := by omega
    cases h : g.input.drop g.ptr with
    | nil => simp [gettokLoop, getnext_nil g h, scanOctal]
    | cons c r =>
      by_cases hc : c = 0
      · subst hc; simp [gettokLoop, getnext_zero g r h, scanOctal]
      · simp [gettokLoop, getnext_cons g c r h hc, scanOctal, hc, unget, hds3]
  | succ k ih =>
    intro ds t g hds
    cases h : g.input.drop g.ptr with
    | nil => simp [gettokLoop, getnext_nil g h, scanOctal]
    | cons c r =>
      by_cases hc : c = 0
      · subst hc; simp [gettokLoop, getnext_zero g r h, scanOctal, isoct]
      · by_cases ho : isoct c = true
        · have hds3 : ds ≠ 3 := by omega
          have hr : ({ g with ptr := g.ptr + 1 } : Globals σ).input.drop
              ({ g with ptr := g.ptr + 1 } : Globals σ).ptr = r := drop_succ_of_drop_cons h
          rw [gettokLoop]
          simp only [getnext_cons g c r h hc, hc, ho, hds3, if_false, Bool.true_eq_false]
          rw [ih (ds + 1) _ _ (by omega), hr]
          simp [scanOctal, ho]; omega
        · simp [gettokLoop, getnext_cons g c r h hc, scanOctal, hc, unget, ho]

theorem gettok_eq_scan {σ : Type} (t : token) (g : Globals σ)
    (hp : g.pushback.type = TOK_EMPTY) :
    gettok t g = some ((scanTok (g.input.drop g.ptr)).1.type, storedTok t (g.input.drop g.ptr),
      { g with ptr := g.ptr + (scanTok (g.input.drop g.ptr)).2 }) := by
  unfold gettok storedTok
  simp only [hp, ne_eq, not_true_eq_false, if_false]
  cases h : g.input.drop g.ptr with
  | nil => simp [gettokLoop, getnext_nil g h, scanTok]
  | cons c r =>
    by_cases hc : c = 0
    · subst hc; simp [gettokLoop, getnext_zero g r h, scanTok]
    · have hr : ({ g with ptr := g.ptr + 1 } : Globals σ).input.drop
          ({ g with ptr := g.ptr + 1 } : Globals σ).ptr = r := drop_succ_of_drop_cons h
      by_cases h92 : c = 92
      · subst h92
        rw [gettokLoop]
        simp only [getnext_cons g 92 r h hc]
        cases r with
        | nil => simp [gettokLoop, getnext_nil _ hr, scanTok]
        | cons d r2 =>
          by_cases hd : d = 0
          · subst hd; simp [gettokLoop, getnext_zero _ _ hr, scanTok]
          · have hr2 : ({ g with ptr := g.ptr + 1 + 1 } : Globals σ).input.drop
                ({ g with ptr := g.ptr + 1 + 1 } : Globals σ).ptr = r2 :=
              drop_succ_of_drop_cons hr
            by_cases hq : d = 48 ∨ d = 49 ∨ d = 50 ∨ d = 51
            · rw [gettokLoop]
              simp only [getnext_cons _ d r2 hr hd, hd, hq, if_true, if_false,
                 show (92 : Int) ≠ 0 by decide]
              rw [gettokLoop_octal 2 1 _ _ (by rfl)]
              simp only [hr2, scanTok, hd, hq, if_true, if_false, show (92 : Int) ≠ 0 by decide]
              simp
              omega
            · simp [gettokLoop, getnext_cons _ d r2 hr hd, scanTok, hd, hq]
      · simp only [gettokLoop, getnext_cons g c r h hc, scanTok, hc, h92, if_false]
        split_ifs <;> simp_all

theorem scanOctal_le (n : Nat) : ∀ (v : Int) (r : List Int), (scanOctal n v r).2 ≤ r.length := by
  induction n with
  | zero => intro v r; simp [scanOctal]
  | succ n ih =>
    intro v r
    cases r with
    | nil => simp [scanOctal]
    | cons c r =>
      by_cases ho : isoct c = true
      · simpa [scanOctal, ho] using ih _ r
      · simp [scanOctal, ho]

theorem scanTok_spec (r : List Int) :
    (scanTok r).1.type ≠ TOK_EMPTY ∧ (scanTok r).1.type ≠ TOK_ERR
      ∧ ((scanTok r).1.type = TOK_EOF → scanTok r = (⟨TOK_EOF, 0⟩, 0))
      ∧ ((scanTok r).1.type ≠ TOK_EOF → 1 ≤ (scanTok r).2)
      ∧ (scanTok r).2 ≤ r.length := by
  rcases r with _ | ⟨c, _ | ⟨d, r2⟩⟩
  · simp [scanTok]
  · simp only [scanTok]; split_ifs <;> simp
  · simp only [scanTok]
    have := scanOctal_le 2 (d - 48) r2
    split_ifs <;> simp
    omega

theorem drop_add_drop (l : List Int) (p k : Nat) : (l.drop p).drop k = l.drop (p + k) := by
  rw [List.drop_drop, Nat.add_comm]

theorem body_view {σ : Type} (sg : Bool) (pick : σ → Int → Int × σ) (l : Locals)
    (g : Globals σ) :
    (gensaltBody sg pick l g).map iterView = some (vstep sg pick (view l g)) := by
  by_cases hp : g.pushback.type = TOK_EMPTY
  · obtain ⟨h1, h2, h3, -, -⟩ := scanTok_spec (g.input.drop g.ptr)
    unfold gensaltBody
    rw [gettok_eq_scan _ _ hp]
    by_cases he : (scanTok (g.input.drop g.ptr)).1.type = TOK_EOF
    · have he2 := h3 he
      rcases l with ⟨tok, state, first, last, count⟩
      cases state <;>
        simp [storedTok, he2, vstep, vnext, view, normTok, hp, iterView, obs, gensalt_msg,
          ungettok, liveFirst, liveCount, liveRange]
      split_ifs <;> simp
    · rcases l with ⟨tok, state, first, last, count⟩
      generalize hs : scanTok (g.input.drop g.ptr) = sc at h1 h2 he
      rcases sc with ⟨⟨ty, val⟩, k⟩
      simp only at h1 h2 he
      cases state <;> cases ty <;>
        simp [storedTok, hs, vstep, vnext, view, normTok, hp, iterView, obs, gensalt_msg,
          ungettok, drop_add_drop, strclear, liveFirst, liveCount, liveRange] at h1 h2 he ⊢
      all_goals (split_ifs <;> simp [hp, liveFirst, liveCount, liveRange])
  · rcases l with ⟨tok, state, first, last, count⟩
    rcases g with ⟨⟨pty, pval⟩, input, ptr, msg, range, salt, rng, calls⟩
    simp only at hp
    unfold gensaltBody
    cases state <;> cases pty <;>
      simp [gettok, vstep, vnext, view, normTok, iterView, obs, gensalt_msg,
        ungettok, strclear, liveFirst, liveCount, liveRange] at hp ⊢
    all_goals (split_ifs <;> simp [liveFirst, liveCount, liveRange])

theorem loop_view {σ : Type} (sg : Bool) (pick : σ → Int → Int × σ) (n : Nat) :
    ∀ (l : Locals) (g : Globals σ),
      (gensaltLoop sg pick n l g).map obs = vrun sg pick n (view l g) := by
  induction n with
  | zero => intro l g; rfl
  | succ n ih =>
    intro l g
    have hb := body_view sg pick l g
    rw [gensaltLoop, vrun]
    cases hc : gensaltBody sg pick l g with
    | none => simp [hc] at hb
    | some it =>
      cases it with
      | again l1 g1 =>
        simp only [hc, Option.map_some', iterView, Option.some.injEq] at hb
        simp only [← hb]
        exact ih l1 g1
      | done out =>
        simp only [hc, Option.map_some', iterView, Option.some.injEq] at hb
        simp only [← hb, Option.map_some']

theorem view_init {σ : Type} (template : Option (List Int)) (g : Globals σ) :
    view locals0 (gensaltInit template g) = startView (template.getD defaultTemplate) g.rng := by
  cases template <;>
    simp [view, locals0, gensaltInit, startView, normTok, strclear, liveFirst, liveCount,
      liveRange]

theorem gensalt_view {σ : Type} (sg : Bool) (pick : σ → Int → Int × σ)
    (template : Option (List Int)) (g : Globals σ) :
    (gensalt sg pick template g).map obs =
      vrun sg pick (3 * (template.getD defaultTemplate).length + 4)
        (startView (template.getD defaultTemplate) g.rng) := by
  unfold gensalt
  rw [loop_view, view_init]
  cases template <;> simp [gensaltInit]

theorem vrun_mono {σ : Type} (sg : Bool) (pick : σ → Int → Int × σ) (n : Nat) :
    ∀ (m : Nat) (v : View σ) (o : Obs σ), n ≤ m → vrun sg pick n v = some o →
      vrun sg pick m v = some o := by
  induction n with
  | zero => intro m v o _ h; simp [vrun] at h
  | succ n ih =>
    intro m v o hm h
    obtain ⟨m, rfl⟩ : ∃ k, m = k + 1 := ⟨m - 1, by omega⟩
    rw [vrun] at h ⊢
    cases hs : vstep sg pick v with
    | done o1 => simpa [hs] using h
    | again v1 =>
      simp only [hs] at h ⊢
      exact ih m v1 o (by omega) h

theorem vstep_pot {σ : Type} (sg : Bool) (pick : σ → Int → Int × σ) (v : View σ) :
    match vstep sg pick v with
    | .again v1 => pot v1 < pot v
    | .done _ => True := by
  rcases v with ⟨state, first, count, pend, rest, msg, range, salt, rng, calls⟩
  cases pend with
  | none =>
    obtain ⟨h1, h2, h3, h4, h5⟩ := scanTok_spec rest
    generalize hs : scanTok rest = sc at h1 h2 h3 h4 h5
    rcases sc with ⟨⟨ty, val⟩, k⟩
    simp only at h1 h2 h3 h4 h5
    cases state <;> cases ty <;>
      simp [vstep, vnext, hs, normTok, pot, pendWeight] at h1 h2 h3 h4 ⊢
    all_goals first
      | omega
      | (split_ifs <;> simp [pot, pendWeight] <;> omega)
  | some t =>
    rcases t with ⟨ty, val⟩
    cases state <;> cases ty <;>
      simp [vstep, vnext, normTok, pot, pendWeight]
    all_goals first
      | omega
      | (split_ifs <;> simp [pot, pendWeight])

theorem vrun_of_pot {σ : Type} (sg : Bool) (pick : σ → Int → Int × σ) (n : Nat) :
    ∀ (v : View σ), pot v < n → ∃ o, vrun sg pick n v = some o := by
  induction n with
  | zero => intro v h; omega
  | succ n ih =>
    intro v h
    have hp := vstep_pot sg pick v
    rw [vrun]
    cases hs : vstep sg pick v with
    | done o => exact ⟨o, rfl⟩
    | again v1 =>
      simp only [hs] at hp ⊢
      exact ih v1 (by omega)

theorem vrun_start {σ : Type} (sg : Bool) (pick : σ → Int → Int × σ) (t : List Int) (s : σ) :
    ∃ o, vrun sg pick (3 * t.length + 4) (startView t s) = some o :=
  vrun_of_pot sg pick _ _ (by simp [pot, startView]; omega)

/-- The step counts never run out: `gensalt` returns on every template. -/
theorem gensalt_terminates {σ : Type} (sg : Bool) (pick : σ → Int → Int × σ)
    (template : Option (List Int)) (g : Globals σ) :
    ∃ out, gensalt sg pick template g = some out := by
  obtain ⟨o, ho⟩ := vrun_start sg pick (template.getD defaultTemplate) g.rng
  have h := gensalt_view sg pick template g
  rw [ho] at h
  cases hg : gensalt sg pick template g with
  | none => simp [hg] at h
  | some out => exact ⟨out, rfl⟩

theorem emit_frame {σ : Type} (sg : Bool) (pick : σ → Int → Int × σ) (range S C : List Int)
    (n : Nat) : ∀ (salt : List Int) (rng : σ) (calls : List Int),
      emit sg pick range n (S ++ salt, rng, C ++ calls) =
        (S ++ (emit sg pick range n (salt, rng, calls)).1,
         (emit sg pick range n (salt, rng, calls)).2.1,
         C ++ (emit sg pick range n (salt, rng, calls)).2.2) := by
  induction n with
  | zero => intro salt rng calls; rfl
  | succ n ih =>
    intro salt rng calls
    simp only [emit, append, List.append_assoc]
    exact ih _ _ _

theorem vstep_frame {σ : Type} (sg : Bool) (pick : σ → Int → Int × σ) (S C : List Int)
    (v : View σ) :
    vstep sg pick (frameView S C v) =
      match vstep sg pick v with
      | .again v1 => .again (frameView S C v1)
      | .done o => .done (frameObs S C o) := by
  rcases v with ⟨state, first, count, pend, rest, msg, range, salt, rng, calls⟩
  cases pend with
  | none =>
    generalize hs : scanTok rest = sc
    rcases sc with ⟨⟨ty, val⟩, k⟩
    cases state <;> cases ty <;>
      simp [vstep, vnext, hs, normTok, frameView, frameObs, append, emit_frame]
    all_goals (split_ifs <;> simp [frameView, frameObs])
  | some t =>
    rcases t with ⟨ty, val⟩
    cases state <;> cases ty <;>
      simp [vstep, vnext, normTok, frameView, frameObs, append, emit_frame]
    all_goals (split_ifs <;> simp [frameView, frameObs])

theorem vrun_frame {σ : Type} (sg : Bool) (pick : σ → Int → Int × σ) (S C : List Int)
    (n : Nat) : ∀ (v : View σ),
      vrun sg pick n (frameView S C v) = (vrun sg pick n v).map (frameObs S C) := by
  induction n with
  | zero => intro v; rfl
  | succ n ih =>
    intro v
    rw [vrun, vrun, vstep_frame]
    cases hs : vstep sg pick v with
    | done o => simp
    | again v1 => simpa using ih v1

theorem vrun_unique {σ : Type} (sg : Bool) (pick : σ → Int → Int × σ) (n m : Nat)
    (v : View σ) (o1 o2 : Obs σ) (h1 : vrun sg pick n v = some o1)
    (h2 : vrun sg pick m v = some o2) : o1 = o2 := by
  have a := vrun_mono sg pick n (max n m) v o1 (le_max_left _ _) h1
  have b := vrun_mono sg pick m (max n m) v o2 (le_max_right _ _) h2
  rw [a] at b
  exact Option.some.inj b

/-- A run of the view machine from the start view, with any step count, is
what `gensalt` returns. -/
theorem gensalt_of_vrun {σ : Type} (sg : Bool) (pick : σ → Int → Int × σ) (t : List Int)
    (g : Globals σ) (n : Nat) (o : Obs σ) (h : vrun sg pick n (startView t g.rng) = some o) :
    ∃ out, gensalt sg pick (some t) g = some out ∧ obs out = o := by
  obtain ⟨out, hout⟩ := gensalt_terminates sg pick (some t) g
  have hv := gensalt_view sg pick (some t) g
  rw [hout] at hv
  simp only [Option.map_some', Option.getD_some] at hv
  exact ⟨out, hout, vrun_unique sg pick _ _ _ _ _ hv.symm h⟩

theorem renders_step {σ : Type} {sg : Bool} {pick : σ → Int → Int × σ} {v v1 : View σ}
    {o : Obs σ} (hs : vstep sg pick v = .again v1) (h : Renders sg pick v1 o) :
    Renders sg pick v o := by
  obtain ⟨n, hn⟩ := h
  exact ⟨n + 1, by rw [vrun, hs]; exact hn⟩

theorem renders_done {σ : Type} {sg : Bool} {pick : σ → Int → Int × σ} {v : View σ}
    {o : Obs σ} (hs : vstep sg pick v = .done o) : Renders sg pick v o :=
  ⟨1, by rw [vrun, hs]⟩

theorem renders_frame {σ : Type} {sg : Bool} {pick : σ → Int → Int × σ} {v : View σ}
    {o : Obs σ} (S C : List Int) (h : Renders sg pick v o) :
    Renders sg pick (frameView S C v) (frameObs S C o) := by
  obtain ⟨n, hn⟩ := h
  exact ⟨n, by rw [vrun_frame, hn]; rfl⟩

theorem renders_unique {σ : Type} {sg : Bool} {pick : σ → Int → Int × σ} {v : View σ}
    {o1 o2 : Obs σ} (h1 : Renders sg pick v o1) (h2 : Renders sg pick v o2) : o1 = o2 := by
  obtain ⟨n, hn⟩ := h1
  obtain ⟨m, hm⟩ := h2
  exact vrun_unique sg pick n m v o1 o2 hn hm

theorem gensalt_of_renders {σ : Type} {sg : Bool} {pick : σ → Int → Int × σ} {t : List Int}
    {g : Globals σ} {o : Obs σ} (h : Renders sg pick (startView t g.rng) o) :
    ∃ out, gensalt sg pick (some t) g = some out ∧ out.result = o.result
      ∧ gensalt_msg out.g = o.msg ∧ out.g.calls = o.calls ∧ out.g.rng = o.rng := by
  obtain ⟨n, hn⟩ := h
  obtain ⟨out, hout, ho⟩ := gensalt_of_vrun sg pick t g n o hn
  subst ho
  exact ⟨out, hout, rfl, rfl, rfl, rfl⟩

theorem renders_of_gensalt {σ : Type} {sg : Bool} {pick : σ → Int → Int × σ} {t : List Int}
    {g : Globals σ} {out : Outcome σ} (h : gensalt sg pick (some t) g = some out) :
    Renders sg pick (startView t g.rng) (obs out) := by
  have hv := gensalt_view sg pick (some t) g
  rw [h] at hv
  exact ⟨_, hv.symm⟩

theorem toChar_of_isChar {sg : Bool} {c : Int} (h : isChar sg c) : toChar sg c = c := by
  cases sg <;> simp [isChar] at h <;> simp [toChar] <;> omega

theorem toChar_zero (sg : Bool) : toChar sg 0 = 0 := by
  cases sg <;> simp [toChar]

/-- A token that `STATE_START` copies to the output, at the head of the
template: the rest renders as it does alone, after that character. -/
theorem renders_prefix {σ : Type} (sg : Bool) (pick : σ → Int → Int × σ) (X t : List Int)
    (tk : token) (s : σ) (hscan : scanTok (X ++ t) = (tk, X.length))
    (hty : tk.type = TOK_LITERAL ∨ tk.type = TOK_COUNT_START ∨ tk.type = TOK_COUNT_END
      ∨ tk.type = TOK_GEN_END ∨ tk.type = TOK_THROUGH)
    {o : Obs σ} (h : Renders sg pick (startView t s) o) :
    Renders sg pick (startView (X ++ t) s) (frameObs [toChar sg tk.val] [] o) := by
  refine renders_step ?_ (renders_frame [toChar sg tk.val] [] h)
  rcases tk with ⟨ty, val⟩
  simp only at hty
  rcases hty with h | h | h | h | h <;> subst h <;>
    simp [vstep, vnext, startView, hscan, frameView, append]

theorem renders_nil {σ : Type} (sg : Bool) (pick : σ → Int → Int × σ) (s : σ) :
    Renders sg pick (startView [] s) ⟨some [0], "", s, []⟩ := by
  apply renders_done
  simp [vstep, vnext, startView, scanTok, append, toChar_zero]

theorem scanTok_plain (c : Int) (r : List Int) (h0 : c ≠ 0) (h1 : c ≠ 91) (h2 : c ≠ 92) :
    ∃ tk, scanTok (c :: r) = (tk, 1) ∧ tk.val = c ∧
      (tk.type = TOK_LITERAL ∨ tk.type = TOK_COUNT_START ∨ tk.type = TOK_COUNT_END
        ∨ tk.type = TOK_GEN_END ∨ tk.type = TOK_THROUGH) := by
  simp only [scanTok, h0, h1, h2, if_false]
  split_ifs <;> simp_all

theorem renders_plain {σ : Type} (sg : Bool) (pick : σ → Int → Int × σ) (s : σ) (t : List Int)
    (ht : isTemplate sg t) (hb : (91 : Int) ∉ t) (hs : (92 : Int) ∉ t) :
    Renders sg pick (startView t s) ⟨some (t ++ [0]), "", s, []⟩ := by
  induction t with
  | nil => exact renders_nil sg pick s
  | cons c r ih =>
    have hc := ht c (by simp)
    obtain ⟨tk, hscan, hval, hty⟩ := scanTok_plain c r hc.2
      (fun h => hb (by simp [h])) (fun h => hs (by simp [h]))
    have hr := ih (fun x hx => ht x (by simp [hx])) (fun h => hb (by simp [h]))
      (fun h => hs (by simp [h]))
    have := renders_prefix sg pick [c] r tk s (by simpa using hscan) hty hr
    simpa [frameObs, hval, toChar_of_isChar hc.1] using this

theorem normTok_scanTok (r : List Int) : normTok (scanTok r).1 = some (scanTok r).1 := by
  obtain ⟨h1, -, h3, -, -⟩ := scanTok_spec r
  by_cases he : (scanTok r).1.type = TOK_EOF
  · simp [normTok, h3 he]
  · simp [normTok, h1, he]

/-- A token that was scanned and pushed back is scanned again. -/
theorem vstep_unscan {σ : Type} (sg : Bool) (pick : σ → Int → Int × σ) (st : State)
    (f c : Int) (r : List Int) (m : String) (R S : List Int) (s : σ) (C : List Int) :
    vstep sg pick ⟨st, f, c, normTok (scanTok r).1, r.drop (scanTok r).2, m, R, S, s, C⟩ =
      vstep sg pick ⟨st, f, c, none, r, m, R, S, s, C⟩ := by
  rw [normTok_scanTok]
  simp [vstep, vnext]

theorem renders_congr {σ : Type} {sg : Bool} {pick : σ → Int → Int × σ} {v1 v2 : View σ}
    {o : Obs σ} (h : vstep sg pick v1 = vstep sg pick v2) (hr : Renders sg pick v2 o) :
    Renders sg pick v1 o := by
  obtain ⟨n, hn⟩ := hr
  cases n with
  | zero => simp [vrun] at hn
  | succ n => exact ⟨n + 1, by rw [vrun, h, ← hn, vrun]⟩

/-- An opening `[` at top level starts a set. -/
theorem renders_open {σ : Type} {sg : Bool} {pick : σ → Int → Int × σ} (r : List Int)
    (m : String) (S : List Int) (s : σ) (C : List Int) {o : Obs σ}
    (h : Renders sg pick ⟨STATE_IN_GENERATOR, 0, 0, none, r, m, [], S, s, C⟩ o) :
    Renders sg pick ⟨STATE_START, 0, 0, none, 91 :: r, m, [], S, s, C⟩ o := by
  refine renders_step ?_ h
  simp [vstep, vnext, scanTok]

/-- A single set member: a token that is not followed by `-`. -/
theorem renders_item_one {σ : Type} {sg : Bool} {pick : σ → Int → Int × σ} (X r : List Int)
    (tk : token) (m : String) (R S : List Int) (s : σ) (C : List Int) {o : Obs σ}
    (hscan : scanTok (X ++ r) = (tk, X.length)) (hty : isFirstTok tk.type)
    (hnext : (scanTok r).1.type ≠ TOK_THROUGH)
    (h : Renders sg pick
      ⟨STATE_IN_GENERATOR, 0, 0, none, r, m, R ++ [toChar sg tk.val], S, s, C⟩ o) :
    Renders sg pick ⟨STATE_IN_GENERATOR, 0, 0, none, X ++ r, m, R, S, s, C⟩ o := by
  have h2 := renders_congr (vstep_unscan sg pick STATE_IN_GENERATOR 0 0 r m
    (R ++ [toChar sg tk.val]) S s C) h
  have h1 : Renders sg pick ⟨STATE_SAW_FIRST, tk.val, 0, none, r, m, R, S, s, C⟩ o := by
    refine renders_step ?_ h2
    simp [vstep, vnext, hnext, append, (scanTok_spec r).2.1]
  refine renders_step ?_ h1
  rcases tk with ⟨ty, val⟩
  simp only [isFirstTok] at hty
  rcases hty with e | e | e | e | e <;> subst e <;> simp [vstep, vnext, hscan]

/-- A range: a token, `-`, and a token that is neither `]` nor the end. -/
theorem renders_item_range {σ : Type} {sg : Bool} {pick : σ → Int → Int × σ}
    (X Y r : List Int) (tk1 tk2 : token) (m : String) (R S : List Int) (s : σ) (C : List Int)
    {o : Obs σ} (hscan1 : scanTok (X ++ 45 :: (Y ++ r)) = (tk1, X.length))
    (hty1 : isFirstTok tk1.type) (hscan2 : scanTok (Y ++ r) = (tk2, Y.length))
    (hty2 : tk2.type ≠ TOK_EOF ∧ tk2.type ≠ TOK_GEN_END) (hle : tk1.val ≤ tk2.val)
    (h : Renders sg pick
      ⟨STATE_IN_GENERATOR, 0, 0, none, r, m, appendRange sg R tk1.val tk2.val, S, s, C⟩ o) :
    Renders sg pick ⟨STATE_IN_GENERATOR, 0, 0, none, X ++ 45 :: (Y ++ r), m, R, S, s, C⟩ o := by
  have h2 : Renders sg pick ⟨STATE_SAW_THROUGH, tk1.val, 0, none, Y ++ r, m, R, S, s, C⟩ o := by
    refine renders_step ?_ h
    have := (scanTok_spec (Y ++ r)).2.1
    rw [hscan2] at this
    simp [vstep, vnext, hscan2, hty2, not_lt.mpr hle, this]
  have h1 : Renders sg pick
      ⟨STATE_SAW_FIRST, tk1.val, 0, none, 45 :: (Y ++ r), m, R, S, s, C⟩ o := by
    refine renders_step ?_ h2
    simp [vstep, vnext, scanTok]
  refine renders_step ?_ h1
  rcases tk1 with ⟨ty, val⟩
  simp only [isFirstTok] at hty1
  rcases hty1 with e | e | e | e | e <;> subst e <;> simp [vstep, vnext, hscan1]

/-- A closing `]` ends the set. -/
theorem renders_close {σ : Type} {sg : Bool} {pick : σ → Int → Int × σ} (r : List Int)
    (m : String) (R S : List Int) (s : σ) (C : List Int) {o : Obs σ}
    (h : Renders sg pick ⟨STATE_SAW_GENERATOR, 0, 0, none, r, m, R, S, s, C⟩ o) :
    Renders sg pick ⟨STATE_IN_GENERATOR, 0, 0, none, 93 :: r, m, R, S, s, C⟩ o := by
  refine renders_step ?_ h
  simp [vstep, vnext, scanTok]

theorem startView_frame {σ : Type} (r S : List Int) (s : σ) (C : List Int) :
    (⟨STATE_START, 0, 0, none, r, "", [], S, s, C⟩ : View σ) = frameView S C (startView r s) := by
  simp [frameView, startView]

/-- No `{` after the set: the count is 1. -/
theorem renders_nocount {σ : Type} {sg : Bool} {pick : σ → Int → Int × σ} (r : List Int)
    (m : String) (R S : List Int) (s : σ) (C : List Int) {o : Obs σ}
    (hnext : (scanTok r).1.type ≠ TOK_COUNT_START)
    (h : Renders sg pick ⟨STATE_SAW_COUNT, 0, 1, none, r, m, R, S, s, C⟩ o) :
    Renders sg pick ⟨STATE_SAW_GENERATOR, 0, 0, none, r, m, R, S, s, C⟩ o := by
  refine renders_step ?_ (renders_congr (vstep_unscan sg pick STATE_SAW_COUNT 0 1 r m R S s C) h)
  simp [vstep, vnext, hnext, (scanTok_spec r).2.1]

/-- An opening `{` after the set starts the count at 0. -/
theorem renders_count_open {σ : Type} {sg : Bool} {pick : σ → Int → Int × σ} (r : List Int)
    (m : String) (R S : List Int) (s : σ) (C : List Int) {o : Obs σ}
    (h : Renders sg pick ⟨STATE_IN_COUNT, 0, 0, none, r, m, R, S, s, C⟩ o) :
    Renders sg pick ⟨STATE_SAW_GENERATOR, 0, 0, none, 123 :: r, m, R, S, s, C⟩ o := by
  refine renders_step ?_ h
  simp [vstep, vnext, scanTok]

/-- A literal token that is an ASCII digit extends the count. -/
theorem renders_count_digit {σ : Type} {sg : Bool} {pick : σ → Int → Int × σ}
    (X r : List Int) (d c : Int) (m : String) (R S : List Int) (s : σ) (C : List Int)
    {o : Obs σ} (hscan : scanTok (X ++ r) = (⟨TOK_LITERAL, d⟩, X.length))
    (hd : 48 ≤ d ∧ d ≤ 57)
    (h : Renders sg pick ⟨STATE_IN_COUNT, 0, toInt (c * 10 + d - 48), none, r, m, R, S, s, C⟩ o) :
    Renders sg pick ⟨STATE_IN_COUNT, 0, c, none, X ++ r, m, R, S, s, C⟩ o := by
  refine renders_step ?_ h
  simp [vstep, vnext, hscan, isdigit, hd]

theorem scanTok_digit (d : Int) (r : List Int) (hd : 48 ≤ d ∧ d ≤ 57) :
    scanTok (d :: r) = (⟨TOK_LITERAL, d⟩, 1) := by
  have h1 : d ≠ 0 := by omega
  have h2 : d ≠ 92 := by omega
  have h3 : d ≠ 91 := by omega
  have h4 : d ≠ 45 := by omega
  have h5 : d ≠ 93 := by omega
  have h6 : d ≠ 123 := by omega
  have h7 : d ≠ 125 := by omega
  simp [scanTok, h1, h2, h3, h4, h5, h6, h7]

/-- A run of plain ASCII digits in the count. -/
theorem renders_digits {σ : Type} {sg : Bool} {pick : σ → Int → Int × σ} (ds : List Int) :
    ∀ (c : Int) (r : List Int) (m : String) (R S : List Int) (s : σ) (C : List Int)
      (o : Obs σ), (∀ d ∈ ds, 48 ≤ d ∧ d ≤ 57) →
      Renders sg pick ⟨STATE_IN_COUNT, 0, countVal c ds, none, r, m, R, S, s, C⟩ o →
      Renders sg pick ⟨STATE_IN_COUNT, 0, c, none, ds ++ r, m, R, S, s, C⟩ o := by
  induction ds with
  | nil => intro c r m R S s C o _ h; simpa [countVal] using h
  | cons d ds ih =>
    intro c r m R S s C o hds h
    have hd := hds d (by simp)
    have h1 := ih (toInt (c * 10 + d - 48)) r m R S s C o (fun x hx => hds x (by simp [hx]))
      (by simpa [countVal] using h)
    exact renders_count_digit [d] (ds ++ r) d c m R S s C
      (by simpa using scanTok_digit d (ds ++ r) hd) hd h1

/-- A closing `}` ends the count. -/
theorem renders_count_close {σ : Type} {sg : Bool} {pick : σ → Int → Int × σ} (r : List Int)
    (c : Int) (m : String) (R S : List Int) (s : σ) (C : List Int) {o : Obs σ}
    (h : Renders sg pick ⟨STATE_SAW_COUNT, 0, c, none, r, m, R, S, s, C⟩ o) :
    Renders sg pick ⟨STATE_IN_COUNT, 0, c, none, 125 :: r, m, R, S, s, C⟩ o := by
  refine renders_step ?_ h
  simp [vstep, vnext, scanTok]

theorem emit_eq {σ : Type} (sg : Bool) (pick : σ → Int → Int × σ) (R : List Int) (n : Nat) :
    ∀ (salt : List Int) (rng : σ) (calls : List Int),
      emit sg pick R n (salt, rng, calls) =
        (salt ++ (picks pick R.length n rng).map
            (fun k => toChar sg (if 0 ≤ k then R.getD k.toNat 0 else 0)),
         rngAfter pick R.length n rng,
         calls ++ List.replicate n (R.length : Int)) := by
  induction n with
  | zero => intro salt rng calls; simp [emit, picks, rngAfter]
  | succ n ih =>
    intro salt rng calls
    rw [emit, ih]
    simp [picks, rngAfter, append, List.replicate_succ]

/-- The emission of `STATE_SAW_COUNT` from a non-empty set: `c` characters
picked by the selector, then the rest of the template from the top level. -/
theorem renders_emit {σ : Type} {sg : Bool} {pick : σ → Int → Int × σ} (r : List Int)
    (c : Int) (R S : List Int) (s : σ) (C : List Int) {o : Obs σ} (hR : R ≠ [])
    (h : Renders sg pick (startView r (rngAfter pick R.length c.toNat s)) o) :
    Renders sg pick ⟨STATE_SAW_COUNT, 0, c, none, r, "", R, S, s, C⟩
      (frameObs
        (S ++ (picks pick R.length c.toNat s).map
          (fun k => toChar sg (if 0 ≤ k then R.getD k.toNat 0 else 0)))
        (C ++ List.replicate c.toNat (R.length : Int)) o) := by
  have h1 := renders_frame
    (S ++ (picks pick R.length c.toNat s).map
      (fun k => toChar sg (if 0 ≤ k then R.getD k.toNat 0 else 0)))
    (C ++ List.replicate c.toNat (R.length : Int)) h
  rw [← startView_frame] at h1
  refine renders_step ?_ (renders_congr (vstep_unscan sg pick STATE_START 0 0 r "" [] _ _ _) h1)
  have hlen : 0 < R.length := List.length_pos.mpr hR
  simp [vstep, vnext, (scanTok_spec r).2.1, hlen, emit_eq]

/-- The emission of `STATE_SAW_COUNT` from an empty set: nothing. -/
theorem renders_emit_nil {σ : Type} {sg : Bool} {pick : σ → Int → Int × σ} (r : List Int)
    (c : Int) (S : List Int) (s : σ) (C : List Int) {o : Obs σ}
    (h : Renders sg pick (startView r s) o) :
    Renders sg pick ⟨STATE_SAW_COUNT, 0, c, none, r, "", [], S, s, C⟩ (frameObs S C o) := by
  have h1 := renders_frame S C h
  rw [← startView_frame] at h1
  refine renders_step ?_ (renders_congr (vstep_unscan sg pick STATE_START 0 0 r "" [] _ _ _) h1)
  simp [vstep, vnext, (scanTok_spec r).2.1]

theorem decimal_digits (n : Nat) : ∀ d ∈ decimal n, 48 ≤ d ∧ d ≤ 57 := by
  intro d hd
  unfold decimal at hd
  split_ifs at hd with h0
  · simp at hd; omega
  · simp only [List.mem_map, List.mem_reverse] at hd
    obtain ⟨k, hk, rfl⟩ := hd
    have := Nat.digits_lt_base (by norm_num : 1 < 10) hk
    omega

theorem decVal_digits (L : List Nat) :
    decVal 0 (L.reverse.map (fun (d : Nat) => (d : Int) + 48)) = ((Nat.ofDigits 10 L : Nat) : Int) := by
  induction L with
  | nil => simp [decVal]
  | cons d L ih =>
    unfold decVal at ih ⊢
    simp only [List.reverse_cons, List.map_append, List.map_cons, List.map_nil,
      List.foldl_append, List.foldl_cons, List.foldl_nil, ih, Nat.ofDigits_cons]
    push_cast
    ring

theorem decVal_decimal (n : Nat) : decVal 0 (decimal n) = (n : Int) := by
  unfold decimal
  split_ifs with h0
  · simp [decVal, h0]
  · rw [decVal_digits, Nat.ofDigits_digits]

theorem toInt_of_range (x : Int) (h0 : -2147483648 ≤ x) (h1 : x < 2147483648) : toInt x = x := by
  unfold toInt
  omega

theorem toInt_step (x d : Int) : toInt (toInt x * 10 + d - 48) = toInt (x * 10 + d - 48) := by
  unfold toInt
  omega

theorem countVal_toInt (ds : List Int) :
    ∀ c : Int, countVal (toInt c) ds = toInt (decVal c ds) := by
  induction ds with
  | nil => intro c; rfl
  | cons d ds ih =>
    intro c
    have e2 : countVal (toInt c) (d :: ds) = countVal (toInt (toInt c * 10 + d - 48)) ds := rfl
    have e3 : decVal c (d :: ds) = decVal (c * 10 + d - 48) ds := rfl
    rw [e2, e3, toInt_step, ih (c * 10 + d - 48)]

/-- The count accumulated from a numeral is its value reduced to an `int`. -/
theorem countVal_eq (ds : List Int) : countVal 0 ds = toInt (decVal 0 ds) := by
  have := countVal_toInt ds 0
  rwa [show toInt 0 = 0 by decide] at this

/-- The count accumulated from the decimal numeral of `n` below 2^31 is `n`. -/
theorem countVal_decimal (n : Nat) (hn : (n : Int) < 2147483648) :
    countVal 0 (decimal n) = (n : Int) := by
  rw [countVal_eq, decVal_decimal]
  exact toInt_of_range _ (by omega) hn

theorem scanTok_isPlain (c : Int) (r : List Int) (h : isPlain c) :
    scanTok (c :: r) = (⟨TOK_LITERAL, c⟩, 1) := by
  obtain ⟨h0, h1, h2, h3, h4, h5, h6⟩ := h
  simp [scanTok, h0, h1, h2, h3, h4, h5, h6]

theorem scanTok_members_next (s r : List Int) (hs : ∀ x ∈ s, isPlain x) :
    (scanTok (s ++ 93 :: r)).1.type ≠ TOK_THROUGH := by
  cases s with
  | nil => simp [scanTok]
  | cons x s => simp [scanTok_isPlain x _ (hs x (by simp))]

/-- A run of plain characters up to the closing `]`: each is a set member. -/
theorem renders_members_plain {σ : Type} {sg : Bool} {pick : σ → Int → Int × σ}
    (s : List Int) : ∀ (r : List Int) (m : String) (R S : List Int) (sel : σ) (C : List Int)
      (o : Obs σ), (∀ x ∈ s, isPlain x) →
      Renders sg pick
        ⟨STATE_SAW_GENERATOR, 0, 0, none, r, m, R ++ s.map (toChar sg), S, sel, C⟩ o →
      Renders sg pick ⟨STATE_IN_GENERATOR, 0, 0, none, s ++ 93 :: r, m, R, S, sel, C⟩ o := by
  induction s with
  | nil => intro r m R S sel C o _ h; exact renders_close r m R S sel C (by simpa using h)
  | cons c s ih =>
    intro r m R S sel C o hs h
    have hc := hs c (by simp)
    have hs1 : ∀ x ∈ s, isPlain x := fun x hx => hs x (by simp [hx])
    have h1 := ih r m (R ++ [toChar sg c]) S sel C o hs1 (by simpa using h)
    exact renders_item_one [c] (s ++ 93 :: r) ⟨TOK_LITERAL, c⟩ m R S sel C
      (by simpa using scanTok_isPlain c _ hc) (Or.inl rfl) (scanTok_members_next s r hs1) h1

theorem map_toChar_chars {sg : Bool} (s : List Int) (hs : ∀ c ∈ s, isChar sg c) :
    s.map (toChar sg) = s := by
  induction s with
  | nil => rfl
  | cons c s ih =>
    simp [toChar_of_isChar (hs c (by simp)), ih (fun x hx => hs x (by simp [hx]))]

theorem picks_length {σ : Type} (pick : σ → Int → Int × σ) (b : Int) (n : Nat) :
    ∀ s : σ, (picks pick b n s).length = n := by
  induction n with
  | zero => intro s; rfl
  | succ n ih => intro s; simp [picks, ih]

theorem picks_inRange {σ : Type} {pick : σ → Int → Int × σ} (hp : inRange pick) (b : Int)
    (hb : 0 < b) (n : Nat) : ∀ s : σ, ∀ k ∈ picks pick b n s, 0 ≤ k ∧ k < b := by
  induction n with
  | zero => intro s k hk; simp [picks] at hk
  | succ n ih =>
    intro s k hk
    simp only [picks, List.mem_cons] at hk
    rcases hk with rfl | hk
    · exact hp s b hb
    · exact ih _ k hk

theorem getD_isChar {sg : Bool} (R : List Int) (hR : ∀ c ∈ R, isChar sg c) (i : Nat)
    (hi : i < R.length) : isChar sg (R.getD i 0) := by
  rw [List.getD_eq_getElem _ _ hi]
  exact hR _ (List.getElem_mem _)

theorem map_picked {sg : Bool} (R ks : List Int) (hR : ∀ c ∈ R, isChar sg c)
    (hk : ∀ k ∈ ks, 0 ≤ k ∧ k < (R.length : Int)) :
    ks.map (fun k => toChar sg (if 0 ≤ k then R.getD k.toNat 0 else 0)) =
      ks.map (fun k => R.getD k.toNat 0) := by
  apply List.map_congr_left
  intro k hkm
  obtain ⟨h0, h1⟩ := hk k hkm
  simp only [h0, if_true]
  exact toChar_of_isChar (getD_isChar R hR k.toNat (by omega))

/-- The template `[s]{ds}` for plain characters `s` and ASCII digits `ds`,
followed by `r`. -/
theorem renders_set_count {σ : Type} (sg : Bool) (pick : σ → Int → Int × σ)
    (s ds r : List Int) (sel : σ) {o : Obs σ} (hs : ∀ x ∈ s, isPlain x) (hne : s ≠ [])
    (hds : ∀ d ∈ ds, 48 ≤ d ∧ d ≤ 57)
    (h : Renders sg pick
      (startView r (rngAfter pick (s.map (toChar sg)).length (countVal 0 ds).toNat sel)) o) :
    Renders sg pick (startView (91 :: (s ++ 93 :: 123 :: (ds ++ 125 :: r))) sel)
      (frameObs
        ((picks pick (s.map (toChar sg)).length (countVal 0 ds).toNat sel).map
          (fun k => toChar sg (if 0 ≤ k then (s.map (toChar sg)).getD k.toNat 0 else 0)))
        (List.replicate (countVal 0 ds).toNat ((s.map (toChar sg)).length : Int)) o) := by
  have hR : s.map (toChar sg) ≠ [] := by simpa using hne
  have h1 := renders_emit r (countVal 0 ds) (s.map (toChar sg)) [] sel [] hR h
  simp only [List.nil_append] at h1
  exact renders_open _ "" [] sel [] (renders_members_plain s _ "" [] [] sel [] _ hs
    (renders_count_open _ "" _ [] sel [] (renders_digits ds 0 _ "" _ [] sel [] _ hds
      (renders_count_close r _ "" _ [] sel [] h1))))

/-- The template `[s]` for plain characters `s`, followed by `r` that does not
start with `{`. -/
theorem renders_set_nocount {σ : Type} (sg : Bool) (pick : σ → Int → Int × σ)
    (s r : List Int) (sel : σ) {o : Obs σ} (hs : ∀ x ∈ s, isPlain x) (hne : s ≠ [])
    (hr : (scanTok r).1.type ≠ TOK_COUNT_START)
    (h : Renders sg pick (startView r (rngAfter pick (s.map (toChar sg)).length 1 sel)) o) :
    Renders sg pick (startView (91 :: (s ++ 93 :: r)) sel)
      (frameObs
        ((picks pick (s.map (toChar sg)).length 1 sel).map
          (fun k => toChar sg (if 0 ≤ k then (s.map (toChar sg)).getD k.toNat 0 else 0)))
        (List.replicate 1 ((s.map (toChar sg)).length : Int)) o) := by
  have hR : s.map (toChar sg) ≠ [] := by simpa using hne
  have h1 := renders_emit r 1 (s.map (toChar sg)) [] sel [] hR h
  simp only [List.nil_append] at h1
  exact renders_open _ "" [] sel [] (renders_members_plain s _ "" [] [] sel [] _ hs
    (renders_nocount r "" _ [] sel [] hr h1))

theorem genchar_inRange : inRange genchar := by
  intro s n hn
  unfold genchar
  split_ifs with h
  · exact ⟨le_refl _, hn⟩
  · simp only
    omega

theorem foldl_append_eq (sg : Bool) (f : Nat → Int) (l : List Nat) :
    ∀ R : List Int, l.foldl (fun r i => append sg r (f i)) R = R ++ l.map (fun i => toChar sg (f i)) := by
  induction l with
  | nil => intro R; simp
  | cons x l ih => intro R; simp [ih]; simp [append]

theorem appendRange_eq (sg : Bool) (R : List Int) (a b : Int) :
    appendRange sg R a b =
      R ++ (List.range (b - a + 1).toNat).map (fun (i : Nat) => toChar sg (a + (i : Int))) := by
  unfold appendRange
  exact foldl_append_eq sg (fun (i : Nat) => a + (i : Int)) _ R

theorem isChar_between {sg : Bool} {a b c : Int} (ha : isChar sg a) (hb : isChar sg b)
    (h1 : a ≤ c) (h2 : c ≤ b) : isChar sg c := by
  cases sg <;> simp [isChar] at ha hb ⊢ <;> omega

/-- The set built by the range `a-b` between two `char` values. -/
theorem appendRange_chars {sg : Bool} {a b : Int} (ha : isChar sg a) (hb : isChar sg b) :
    appendRange sg [] a b = (List.range (b - a + 1).toNat).map (fun (i : Nat) => a + (i : Int)) := by
  rw [appendRange_eq, List.nil_append]
  apply List.map_congr_left
  intro i hi
  have := List.mem_range.mp hi
  exact toChar_of_isChar (isChar_between ha hb (by omega) (by omega))

theorem range_getD (a : Int) (n : Nat) (k : Int) (h0 : 0 ≤ k) (h1 : k < n) :
    ((List.range n).map (fun (i : Nat) => a + (i : Int))).getD k.toNat 0 = a + k := by
  have hk : k.toNat < n := by omega
  rw [List.getD_eq_getElem _ _ (by simpa using hk)]
  simp
  omega

/-- The template `[x-y]{ds}` for tokens `x`, `y` given by the characters `X`,
`Y`, followed by `r`. -/
theorem renders_range_count {σ : Type} (sg : Bool) (pick : σ → Int → Int × σ)
    (X Y ds r : List Int) (tk1 tk2 : token) (sel : σ) {o : Obs σ}
    (hscan1 : ∀ t, scanTok (X ++ 45 :: (Y ++ t)) = (tk1, X.length))
    (hty1 : isFirstTok tk1.type) (hscan2 : ∀ t, scanTok (Y ++ t) = (tk2, Y.length))
    (hty2 : tk2.type ≠ TOK_EOF ∧ tk2.type ≠ TOK_GEN_END) (hle : tk1.val ≤ tk2.val)
    (hds : ∀ d ∈ ds, 48 ≤ d ∧ d ≤ 57)
    (h : Renders sg pick
      (startView r (rngAfter pick (appendRange sg [] tk1.val tk2.val).length
        (countVal 0 ds).toNat sel)) o) :
    Renders sg pick (startView (91 :: (X ++ 45 :: (Y ++ 93 :: 123 :: (ds ++ 125 :: r)))) sel)
      (frameObs
        ((picks pick (appendRange sg [] tk1.val tk2.val).length (countVal 0 ds).toNat sel).map
          (fun k => toChar sg
            (if 0 ≤ k then (appendRange sg [] tk1.val tk2.val).getD k.toNat 0 else 0)))
        (List.replicate (countVal 0 ds).toNat ((appendRange sg [] tk1.val tk2.val).length : Int))
        o) := by
  have hR : appendRange sg [] tk1.val tk2.val ≠ [] := by
    rw [appendRange_eq]
    have : (tk2.val - tk1.val + 1).toNat = (tk2.val - tk1.val).toNat + 1 := by omega
    simp [this, List.range_succ]
  have h1 := renders_emit r (countVal 0 ds) _ [] sel [] hR h
  simp only [List.nil_append] at h1
  exact renders_open _ "" [] sel [] (renders_item_range X Y _ tk1 tk2 "" [] [] sel []
    (hscan1 _) hty1 (hscan2 _) hty2 hle
    (renders_close _ "" _ [] sel [] (renders_count_open _ "" _ [] sel []
      (renders_digits ds 0 _ "" _ [] sel [] _ hds (renders_count_close r _ "" _ [] sel [] h1)))))

theorem picks_genchar (b : Int) (n : Nat) :
    ∀ seq : Nat, (seq : Int) + n ≤ b →
      picks genchar b n seq = (List.range n).map (fun i => ((seq + i : Nat) : Int)) := by
  induction n with
  | zero => intro seq _; rfl
  | succ n ih =>
    intro seq h
    have hlt : ¬ ((seq : Int) ≥ b) := by omega
    rw [picks, List.range_succ_eq_map]
    simp only [genchar, hlt, if_false, List.map_cons, List.map_map]
    rw [ih (seq + 1) (by push_cast; omega)]
    simp only [List.cons.injEq, Nat.add_zero, true_and]
    apply List.map_congr_left
    intro i _
    simp only [Function.comp]
    congr 1
    omega

/-- A range whose last character is below its first is rejected. -/
theorem renders_backwards {σ : Type} (sg : Bool) (pick : σ → Int → Int × σ) (a b : Int)
    (t : List Int) (sel : σ) (ha : isPlain a) (hb : isPlain b) (hlt : b < a) :
    Renders sg pick (startView (91 :: a :: 45 :: b :: t) sel)
      ⟨none, "backwards range", sel, []⟩ := by
  have h3 : Renders sg pick ⟨STATE_SAW_THROUGH, a, 0, none, b :: t, "", [], [], sel, []⟩
      ⟨none, "backwards range", sel, []⟩ :=
    renders_done (by simp [vstep, vnext, scanTok_isPlain b _ hb, hlt])
  have h2 : Renders sg pick ⟨STATE_SAW_FIRST, a, 0, none, 45 :: b :: t, "", [], [], sel, []⟩
      ⟨none, "backwards range", sel, []⟩ :=
    renders_step (by simp [vstep, vnext, scanTok]) h3
  exact renders_open _ "" [] sel [] (renders_step (by simp [vstep, vnext, scanTok_isPlain a _ ha]) h2)

/-- The template `[x-y]` for tokens `x`, `y` given by the characters `X`, `Y`,
followed by `r`
that does not start with `{`. -/
theorem renders_range_nocount {σ : Type} (sg : Bool) (pick : σ → Int → Int × σ)
    (X Y r : List Int) (tk1 tk2 : token) (sel : σ) {o : Obs σ}
    (hscan1 : ∀ t, scanTok (X ++ 45 :: (Y ++ t)) = (tk1, X.length))
    (hty1 : isFirstTok tk1.type) (hscan2 : ∀ t, scanTok (Y ++ t) = (tk2, Y.length))
    (hty2 : tk2.type ≠ TOK_EOF ∧ tk2.type ≠ TOK_GEN_END) (hle : tk1.val ≤ tk2.val)
    (hr : (scanTok r).1.type ≠ TOK_COUNT_START)
    (h : Renders sg pick
      (startView r (rngAfter pick (appendRange sg [] tk1.val tk2.val).length 1 sel)) o) :
    Renders sg pick (startView (91 :: (X ++ 45 :: (Y ++ 93 :: r))) sel)
      (frameObs
        ((picks pick (appendRange sg [] tk1.val tk2.val).length 1 sel).map
          (fun k => toChar sg
            (if 0 ≤ k then (appendRange sg [] tk1.val tk2.val).getD k.toNat 0 else 0)))
        (List.replicate 1 ((appendRange sg [] tk1.val tk2.val).length : Int))
        o) := by
  have hR : appendRange sg [] tk1.val tk2.val ≠ [] := by
    rw [appendRange_eq]
    have : (tk2.val - tk1.val + 1).toNat = (tk2.val - tk1.val).toNat + 1 := by omega
    simp [this, List.range_succ]
  have h1 := renders_emit r 1 _ [] sel [] hR h
  simp only [List.nil_append] at h1
  exact renders_open _ "" [] sel [] (renders_item_range X Y _ tk1 tk2 "" [] [] sel []
    (hscan1 _) hty1 (hscan2 _) hty2 hle
    (renders_close _ "" _ [] sel [] (renders_nocount r "" _ [] sel [] hr h1)))

theorem scanTok_escaped (c : Int) (r : List Int) (h0 : c ≠ 0)
    (hc : ¬ (c = 48 ∨ c = 49 ∨ c = 50 ∨ c = 51)) :
    scanTok (92 :: c :: r) = (⟨TOK_LITERAL, c⟩, 2) := by
  simp [scanTok, h0, hc]

theorem renders_esc {σ : Type} (sg : Bool) (pick : σ → Int → Int × σ) (sel : σ) (s : List Int)
    (hs : isTemplate sg s) :
    Renders sg pick (startView (esc s) sel) ⟨some (s ++ [0]), "", sel, []⟩ := by
  induction s with
  | nil => exact renders_nil sg pick sel
  | cons c s ih =>
    have hc := hs c (by simp)
    have hr := ih (fun x hx => hs x (by simp [hx]))
    by_cases hsp : c = 91 ∨ c = 93 ∨ c = 45 ∨ c = 123 ∨ c = 125 ∨ c = 92
    · have hscan : scanTok ([92, c] ++ esc s) = (⟨TOK_LITERAL, c⟩, 2) :=
        scanTok_escaped c _ hc.2 (by omega)
      have := renders_prefix sg pick [92, c] (esc s) ⟨TOK_LITERAL, c⟩ sel hscan (Or.inl rfl) hr
      simpa [esc, hsp, frameObs, toChar_of_isChar hc.1] using this
    · obtain ⟨tk, hscan, hval, hty⟩ := scanTok_plain c (esc s) hc.2
        (fun h => hsp (by simp [h])) (fun h => hsp (by simp [h]))
      have := renders_prefix sg pick [c] (esc s) tk sel (by simpa using hscan) hty hr
      simpa [esc, hsp, frameObs, hval, toChar_of_isChar hc.1] using this

theorem isoct_iff (c : Int) : isoct c = true ↔ 48 ≤ c ∧ c ≤ 55 := by
  simp only [isoct, Bool.or_eq_true, decide_eq_true_eq]
  omega

/-- A template that starts with a token which `STATE_START` copies to the
output renders as that character followed by the rendering of the rest. -/
theorem rendersAfter_of_scan {σ : Type} (sg : Bool) (pick : σ → Int → Int × σ)
    (g : Globals σ) (X t : List Int) (tk : token)
    (hscan : scanTok (X ++ t) = (tk, X.length))
    (hty : tk.type = TOK_LITERAL ∨ tk.type = TOK_COUNT_START ∨ tk.type = TOK_COUNT_END
      ∨ tk.type = TOK_GEN_END ∨ tk.type = TOK_THROUGH) :
    RendersAfter sg pick g (X ++ t) (toChar sg tk.val) t := by
  obtain ⟨ot, hot⟩ := gensalt_terminates sg pick (some t) g
  have hr := renders_prefix sg pick X t tk g.rng hscan hty (renders_of_gensalt hot)
  obtain ⟨o, ho, h1, h2, h3, h4⟩ := gensalt_of_renders hr
  refine ⟨ot, o, hot, ho, ?_, ?_, ?_, ?_⟩
  · rw [h1]; simp [frameObs, obs]
  · rw [h2]; simp [frameObs, obs]
  · rw [h3]; simp [frameObs, obs]
  · rw [h4]; simp [frameObs, obs]

theorem scanTok_octal3 (d1 d2 d3 : Int) (t : List Int) (h1 : 0 ≤ d1 ∧ d1 ≤ 3)
    (h2 : 0 ≤ d2 ∧ d2 ≤ 7) (h3 : 0 ≤ d3 ∧ d3 ≤ 7) :
    scanTok ([92, 48 + d1, 48 + d2, 48 + d3] ++ t) =
      (⟨TOK_LITERAL, 64 * d1 + 8 * d2 + d3⟩, 4) := by
  have e1 : 48 + d1 ≠ 0 := by omega
  have e2 : 48 + d1 = 48 ∨ 48 + d1 = 49 ∨ 48 + d1 = 50 ∨ 48 + d1 = 51 := by omega
  have o2 : isoct (48 + d2) = true := (isoct_iff _).mpr (by omega)
  have o3 : isoct (48 + d3) = true := (isoct_iff _).mpr (by omega)
  simp only [List.cons_append, List.nil_append, scanTok, e1, e2, scanOctal, o2, o3, if_true,
    if_false, show (92 : Int) ≠ 0 by decide]
  simp
  omega

theorem scanOctal_stop (n : Nat) (v : Int) (t : List Int)
    (ht : t = [] ∨ ∃ c r, t = c :: r ∧ isoct c = false) : scanOctal n v t = (v, 0) := by
  cases n with
  | zero => simp [scanOctal]
  | succ n =>
    rcases ht with rfl | ⟨c, r, rfl, hc⟩
    · simp [scanOctal]
    · simp [scanOctal, hc]

theorem scanTok_octal2 (d1 d2 : Int) (t : List Int) (h1 : 0 ≤ d1 ∧ d1 ≤ 3)
    (h2 : 0 ≤ d2 ∧ d2 ≤ 7) (ht : t = [] ∨ ∃ c r, t = c :: r ∧ isoct c = false) :
    scanTok ([92, 48 + d1, 48 + d2] ++ t) = (⟨TOK_LITERAL, 8 * d1 + d2⟩, 3) := by
  have e1 : 48 + d1 ≠ 0 := by omega
  have e2 : 48 + d1 = 48 ∨ 48 + d1 = 49 ∨ 48 + d1 = 50 ∨ 48 + d1 = 51 := by omega
  have o2 : isoct (48 + d2) = true := (isoct_iff _).mpr (by omega)
  simp only [List.cons_append, List.nil_append, scanTok, e1, e2, scanOctal, o2, if_true,
    if_false, show (92 : Int) ≠ 0 by decide, scanOctal_stop 1 _ t ht]
  simp
  omega

theorem scanTok_octal1 (d1 : Int) (t : List Int) (h1 : 0 ≤ d1 ∧ d1 ≤ 3)
    (ht : t = [] ∨ ∃ c r, t = c :: r ∧ isoct c = false) :
    scanTok ([92, 48 + d1] ++ t) = (⟨TOK_LITERAL, d1⟩, 2) := by
  have e1 : 48 + d1 ≠ 0 := by omega
  have e2 : 48 + d1 = 48 ∨ 48 + d1 = 49 ∨ 48 + d1 = 50 ∨ 48 + d1 = 51 := by omega
  simp only [List.cons_append, List.nil_append, scanTok, e1, e2, if_true,
    if_false, show (92 : Int) ≠ 0 by decide, scanOctal_stop 2 _ t ht]
  simp

/-- Invariants of the parser loop: a property of views kept by every
iteration gives, at the return, what each returning iteration gives. -/
theorem vrun_invariant {σ : Type} (sg : Bool) (pick : σ → Int → Int × σ)
    (I : View σ → Prop) (P : Obs σ → Prop)
    (hstep : ∀ v, I v → match vstep sg pick v with
      | .again v1 => I v1
      | .done o => P o) (n : Nat) :
    ∀ (v : View σ) (o : Obs σ), I v → vrun sg pick n v = some o → P o := by
  induction n with
  | zero => intro v o _ h; simp [vrun] at h
  | succ n ih =>
    intro v o hI h
    have hs := hstep v hI
    rw [vrun] at h
    cases hv : vstep sg pick v with
    | done o1 =>
      simp only [hv, Option.some.injEq] at h hs
      exact h ▸ hs
    | again v1 =>
      simp only [hv] at h hs
      exact ih v1 o hs h

/-- The parser loop keeps the message empty, and never holds an error token
in the pushback slot, until it returns; it returns `NULL` exactly with a
message. -/
theorem vstep_msg {σ : Type} (sg : Bool) (pick : σ → Int → Int × σ) (v : View σ)
    (hI : v.msg = "" ∧ ∀ t, v.pend = some t → t.type ≠ TOK_ERR) :
    match vstep sg pick v with
    | .again v1 => v1.msg = "" ∧ ∀ t, v1.pend = some t → t.type ≠ TOK_ERR
    | .done o => (o.msg = "" ↔ o.result ≠ none) := by
  rcases v with ⟨state, first, count, pend, rest, msg, range, salt, rng, calls⟩
  obtain ⟨hm, hp⟩ := hI
  simp only at hm hp
  subst hm
  cases pend with
  | none =>
    obtain ⟨h1, h2, -, -, -⟩ := scanTok_spec rest
    generalize hs : scanTok rest = sc at h1 h2
    rcases sc with ⟨⟨ty, val⟩, k⟩
    simp only at h1 h2
    cases state <;> cases ty <;>
      simp [vstep, vnext, hs, normTok] at h1 h2 ⊢
    all_goals (split_ifs <;> simp)
  | some t =>
    rcases t with ⟨ty, val⟩
    have := hp _ rfl
    simp only at this
    cases state <;> cases ty <;>
      simp [vstep, vnext, normTok] at this ⊢
    all_goals (split_ifs <;> simp)

theorem defaultSet_eq (sg : Bool) :
    appendRange sg (appendRange sg (appendRange sg [] 65 90) 97 122) 48 57
      ++ [toChar sg 46] ++ [toChar sg 47] = saltAlphabet := by
  cases sg <;> decide

/-- The default template `[A-Za-z0-9./]{2}`: two characters of the 64. -/
theorem renders_default {σ : Type} (sg : Bool) (pick : σ → Int → Int × σ) (sel : σ) :
    Renders sg pick (startView defaultTemplate sel)
      (frameObs
        ((picks pick 64 2 sel).map
          (fun k => toChar sg (if 0 ≤ k then saltAlphabet.getD k.toNat 0 else 0)))
        [64, 64] ⟨some [0], "", rngAfter pick 64 2 sel, []⟩) := by
  have hlen : ((saltAlphabet.length : Nat) : Int) = 64 := by decide
  have h1 := @renders_emit σ sg pick [] 2
    (appendRange sg (appendRange sg (appendRange sg [] 65 90) 97 122) 48 57
      ++ [toChar sg 46] ++ [toChar sg 47]) [] sel [] _ (by simp) (renders_nil sg pick _)
  have h2 := renders_count_digit [50] [125] 50 0 "" _ [] sel [] (by decide) (by decide)
    (renders_count_close [] _ "" _ [] sel [] h1)
  have h3 := renders_item_one [46] _ ⟨TOK_LITERAL, 46⟩ "" _ [] sel [] (by decide) (Or.inl rfl)
    (by decide)
    (renders_item_one [47] _ ⟨TOK_LITERAL, 47⟩ "" _ [] sel [] (by decide) (Or.inl rfl)
      (by decide) (renders_close _ "" _ [] sel [] (renders_count_open _ "" _ [] sel [] h2)))
  have h4 := renders_item_range [65] [90] _ ⟨TOK_LITERAL, 65⟩ ⟨TOK_LITERAL, 90⟩ "" [] [] sel []
    (by decide) (Or.inl rfl) (by decide) (by decide) (by decide)
    (renders_item_range [97] [122] _ ⟨TOK_LITERAL, 97⟩ ⟨TOK_LITERAL, 122⟩ "" _ [] sel []
      (by decide) (Or.inl rfl) (by decide) (by decide) (by decide)
      (renders_item_range [48] [57] _ ⟨TOK_LITERAL, 48⟩ ⟨TOK_LITERAL, 57⟩ "" _ [] sel []
        (by decide) (Or.inl rfl) (by decide) (by decide) (by decide) h3))
  have h5 := renders_open _ "" [] sel [] h4
  rw [defaultSet_eq sg] at h5
  simpa [hlen, defaultTemplate] using h5

theorem saltAlphabet_chars (sg : Bool) : ∀ c ∈ saltAlphabet, isChar sg c := by
  cases sg <;> decide

theorem scanOctal2_bounds (v : Int) (r : List Int) (hv : 0 ≤ v ∧ v ≤ 3) :
    0 ≤ (scanOctal 2 v r).1 ∧ (scanOctal 2 v r).1 ≤ 255 := by
  rcases r with _ | ⟨c, _ | ⟨d, r⟩⟩
  · simp [scanOctal]; omega
  · by_cases hc : isoct c = true
    · have := (isoct_iff c).mp hc
      simp [scanOctal, hc]; omega
    · simp [scanOctal, hc]; omega
  · by_cases hc : isoct c = true
    · have h1 := (isoct_iff c).mp hc
      by_cases hd : isoct d = true
      · have h2 := (isoct_iff d).mp hd
        simp [scanOctal, hc, hd]; omega
      · simp [scanOctal, hc, hd]; omega
    · simp [scanOctal, hc]; omega

theorem scanTok_val_bounds (r : List Int) (hr : ∀ c ∈ r, 0 < c ∧ c ≤ 255) :
    0 ≤ (scanTok r).1.val ∧ (scanTok r).1.val ≤ 255 := by
  rcases r with _ | ⟨c, _ | ⟨d, r2⟩⟩
  · simp [scanTok]
  · have := hr c (by simp)
    simp only [scanTok]
    split_ifs <;> simp
    omega
  · have hc := hr c (by simp)
    have hd := hr d (by simp)
    simp only [scanTok]
    split_ifs with h1 h2 h3 h4
    all_goals first
      | (simp; done)
      | (simp; omega)
      | exact scanOctal2_bounds (d - 48) r2 (by omega)

theorem noNulToken_mono (n : Nat) : ∀ (m : Nat) (r : List Int), m ≤ n → noNulToken n r →
    noNulToken m r := by
  induction n with
  | zero => intro m r hm h; have : m = 0 := by omega
            subst this; exact h
  | succ n ih =>
    intro m r hm h
    cases m with
    | zero => simp [noNulToken]
    | succ m =>
      simp only [noNulToken] at h ⊢
      rcases h with h | ⟨h1, h2⟩
      · exact Or.inl h
      · exact Or.inr ⟨h1, ih m _ (by omega) h2⟩

theorem noNulToken_step (r : List Int) (h : noNulToken r.length r)
    (he : (scanTok r).1.type ≠ TOK_EOF) :
    (scanTok r).1.val ≠ 0
      ∧ noNulToken (r.drop (scanTok r).2).length (r.drop (scanTok r).2) := by
  obtain ⟨-, -, -, h4, h5⟩ := scanTok_spec r
  have hk := h4 he
  cases hr : r.length with
  | zero => omega
  | succ n =>
    rw [hr] at h
    simp only [noNulToken] at h
    rcases h with h | ⟨h1, h2⟩
    · exact absurd h he
    · exact ⟨h1, noNulToken_mono n _ _ (by simp; omega) h2⟩

theorem toChar_mod (sg : Bool) (c : Int) : toChar sg c % 256 = c % 256 := by
  cases sg <;> simp [toChar]
  omega

theorem appendRange_nz (sg : Bool) (R : List Int) (a b : Int) (hR : ∀ c ∈ R, c % 256 ≠ 0)
    (ha : 0 < a) (hb : b ≤ 255) : ∀ c ∈ appendRange sg R a b, c % 256 ≠ 0 := by
  intro c hc
  rw [appendRange_eq, List.mem_append] at hc
  rcases hc with hc | hc
  · exact hR c hc
  · simp only [List.mem_map, List.mem_range] at hc
    obtain ⟨i, hi, rfl⟩ := hc
    rw [toChar_mod]
    omega

theorem emit_nz {σ : Type} (sg : Bool) (pick : σ → Int → Int × σ) (hp : inRange pick)
    (R : List Int) (hne : 0 < R.length) (hR : ∀ c ∈ R, c % 256 ≠ 0) (n : Nat)
    (salt : List Int) (rng : σ) (calls : List Int) (hs : ∀ c ∈ salt, c % 256 ≠ 0) :
    ∀ c ∈ (emit sg pick R n (salt, rng, calls)).1, c % 256 ≠ 0 := by
  intro c hc
  rw [emit_eq] at hc
  simp only [List.mem_append, List.mem_map] at hc
  rcases hc with hc | ⟨k, hk, rfl⟩
  · exact hs c hc
  · obtain ⟨k0, k1⟩ := picks_inRange hp R.length (by omega) n rng k hk
    rw [toChar_mod]
    simp only [k0, if_true]
    have hlt : k.toNat < R.length := by omega
    rw [List.getD_eq_getElem _ _ hlt]
    exact hR _ (List.getElem_mem _)

theorem normTok_ok (tok : token) (h1 : tok.type ≠ TOK_ERR)
    (h2 : tok.type ≠ TOK_EOF → 0 < tok.val ∧ tok.val ≤ 255) :
    ∀ t, normTok tok = some t →
      t.type ≠ TOK_ERR ∧ (t.type ≠ TOK_EOF → 0 < t.val ∧ t.val ≤ 255) := by
  intro t ht
  unfold normTok at ht
  split_ifs at ht with a b
  · simp at ht
    subst ht
    simp
  · simp at ht
    subst ht
    exact ⟨h1, h2⟩

/-- Reading the next token keeps the invariant, and the token read is not an
error and, unless it is the end of input, has a value in `1..255`. -/
theorem vnext_nulfree {σ : Type} (v : View σ) (hI : NulFreeInv v) :
    (vnext v).1.type ≠ TOK_ERR
      ∧ ((vnext v).1.type ≠ TOK_EOF → 0 < (vnext v).1.val ∧ (vnext v).1.val ≤ 255)
      ∧ NulFreeInv (vnext v).2 ∧ (vnext v).2.pend = none
      ∧ (vnext v).2.state = v.state := by
  rcases v with ⟨state, first, count, pend, rest, msg, range, salt, rng, calls⟩
  obtain ⟨i1, i2, i3, i4, i5, i6⟩ := hI
  simp only at i1 i2 i3 i4 i5 i6
  cases pend with
  | some t =>
    obtain ⟨a, b⟩ := i3 t rfl
    refine ⟨a, b, ⟨i1, i2, by simp [vnext], i4, i5, i6⟩, rfl, rfl⟩
  | none =>
    obtain ⟨-, h2, h3, -, -⟩ := scanTok_spec rest
    have hb := scanTok_val_bounds rest i1
    refine ⟨h2, ?_, ⟨?_, ?_, by simp [vnext], i4, i5, i6⟩, rfl, rfl⟩
    · intro he
      have := (noNulToken_step rest i2 he).1
      simp only [vnext]
      omega
    · intro c hc
      exact i1 c (List.mem_of_mem_drop hc)
    · by_cases he : (scanTok rest).1.type = TOK_EOF
      · simpa [vnext, h3 he] using i2
      · exact (noNulToken_step rest i2 he).2

theorem append_nz (sg : Bool) (S : List Int) (x : Int) (hS : ∀ c ∈ S, c % 256 ≠ 0)
    (hx : 0 < x ∧ x ≤ 255) : ∀ c ∈ append sg S x, c % 256 ≠ 0 := by
  intro c hc
  simp only [append, List.mem_append, List.mem_singleton] at hc
  rcases hc with hc | rfl
  · exact hS c hc
  · rw [toChar_mod]
    omega

theorem result_nz (sg : Bool) (S : List Int) (hS : ∀ c ∈ S, c % 256 ≠ 0) :
    ∃ body, append sg S 0 = body ++ [0] ∧ ∀ c ∈ body, c ≠ 0 := by
  refine ⟨S, by simp [append, toChar_zero], ?_⟩
  intro c hc h0
  exact hS c hc (by simp [h0])

/-- Every iteration of the parser loop keeps the invariant, and the buffer
returned at the end of input holds no NUL before the terminator. -/
theorem vstep_nulfree {σ : Type} (sg : Bool) (pick : σ → Int → Int × σ) (hp : inRange pick)
    (v : View σ) (hI : NulFreeInv v) :
    match vstep sg pick v with
    | .again v1 => NulFreeInv v1
    | .done o => ∀ r, o.result = some r → ∃ body, r = body ++ [0] ∧ ∀ c ∈ body, c ≠ 0 := by
  obtain ⟨t1, t2, hJ, hpend, -⟩ := vnext_nulfree v hI
  unfold vstep
  generalize (vnext v).1 = tok at t1 t2
  generalize (vnext v).2 = w at hJ hpend
  rcases w with ⟨state, first, count, pend, rest, msg, range, salt, rng, calls⟩
  rcases tok with ⟨ty, val⟩
  obtain ⟨i1, i2, i3, i4, i5, i6⟩ := hJ
  simp only at i1 i2 i3 i4 i5 i6 t1 t2 hpend
  subst hpend
  have hn := normTok_ok ⟨ty, val⟩ t1 t2
  cases state
  case STATE_START =>
    cases ty <;> simp at t1 t2 ⊢
    all_goals first
      | exact result_nz sg salt i4
      | exact ⟨i1, i2, by simp, i4, by simp, by simp⟩
      | exact ⟨i1, i2, by simp, append_nz sg salt val i4 t2, by simp, by simp⟩
  case STATE_IN_GENERATOR =>
    cases ty <;> simp at t1 t2 ⊢
    all_goals first
      | exact ⟨i1, i2, by simp, i4, i5, fun _ => t2⟩
      | exact ⟨i1, i2, by simp, i4, i5, by simp⟩
  case STATE_SAW_FIRST =>
    have hf := i6 (Or.inl rfl)
    cases ty <;> simp at t1 t2 ⊢
    all_goals first
      | exact ⟨i1, i2, hn, i4, append_nz sg range first i5 hf, by simp⟩
      | exact ⟨i1, i2, by simp, i4, i5, fun _ => hf⟩
  case STATE_SAW_THROUGH =>
    have hf := i6 (Or.inr rfl)
    cases ty <;> simp at t1 t2 ⊢
    all_goals
      split_ifs
      · simp
      · exact ⟨i1, i2, by simp, i4, appendRange_nz sg range first val i5 hf.1 t2.2, by simp⟩
  case STATE_SAW_GENERATOR =>
    cases ty <;> simp at t1 t2 ⊢
    all_goals first
      | exact ⟨i1, i2, hn, i4, i5, by simp⟩
      | exact ⟨i1, i2, by simp, i4, i5, by simp⟩
  case STATE_IN_COUNT =>
    cases ty <;> simp at t1 t2 ⊢
    all_goals first
      | exact ⟨i1, i2, by simp, i4, i5, by simp⟩
      | (split_ifs
         · exact ⟨i1, i2, by simp, i4, i5, by simp⟩
         · simp)
  case STATE_SAW_COUNT =>
    cases ty <;> simp at t1 t2 ⊢
    all_goals
      split_ifs with hl
      · exact ⟨i1, i2, hn, emit_nz sg pick hp range hl i5 _ salt rng calls i4, by simp, by simp⟩
      · exact ⟨i1, i2, hn, i4, by simp, by simp⟩
  all_goals simp [t1]

set_option maxRecDepth 100000 in
/-- Why the amended C10 asks for positive characters: where `char` is
signed, a range that starts at a character with the high bit set runs
through 0.  `"[\351-a]{24}"` written with the raw byte 0xE9 (the `char` value
-23) has the set `-23..97`, whose 24th member is NUL. -/
theorem signed_range_holds_nul :
    isTemplate true [91, -23, 45, 97, 93, 123, 50, 52, 125]
      ∧ noNulToken 9 [91, -23, 45, 97, 93, 123, 50, 52, 125]
      ∧ (gensalt true genchar (some [91, -23, 45, 97, 93, 123, 50, 52, 125])
            (globals0 (0 : Nat))).map (fun o => o.result.map (fun r => r.getD 23 1))
          = some (some 0) := by
  refine ⟨by decide, by decide, by decide⟩

/-- The empty set `[]` with the count `{ds}`, followed by `r`: nothing is
emitted and the selector is not called. -/
theorem renders_empty_count {σ : Type} (sg : Bool) (pick : σ → Int → Int × σ)
    (ds r : List Int) (sel : σ) {o : Obs σ} (hds : ∀ d ∈ ds, 48 ≤ d ∧ d ≤ 57)
    (h : Renders sg pick (startView r sel) o) :
    Renders sg pick (startView (91 :: 93 :: 123 :: (ds ++ 125 :: r)) sel) o := by
  have h1 := renders_emit_nil r (countVal 0 ds) [] sel [] h
  have e : frameObs [] [] o = o := by
    rcases o with ⟨res, m, s, c⟩
    cases res <;> simp [frameObs]
  rw [e] at h1
  exact renders_open _ "" [] sel [] (renders_close _ "" [] [] sel []
    (renders_count_open _ "" [] [] sel [] (renders_digits ds 0 _ "" [] [] sel [] _ hds
      (renders_count_close r _ "" [] [] sel [] h1))))

/-- The empty set `[]` with no count, followed by `r` that does not start
with `{`. -/
theorem renders_empty_nocount {σ : Type} (sg : Bool) (pick : σ → Int → Int × σ)
    (r : List Int) (sel : σ) {o : Obs σ} (hr : (scanTok r).1.type ≠ TOK_COUNT_START)
    (h : Renders sg pick (startView r sel) o) :
    Renders sg pick (startView (91 :: 93 :: r) sel) o := by
  have h1 := renders_emit_nil r 1 [] sel [] h
  have e : frameObs [] [] o = o := by
    rcases o with ⟨res, m, s, c⟩
    cases res <;> simp [frameObs]
  rw [e] at h1
  exact renders_open _ "" [] sel [] (renders_close _ "" [] [] sel []
    (renders_nocount r "" [] [] sel [] hr h1))

theorem scanTok_through (r : List Int) (h : (scanTok r).1.type = TOK_THROUGH) :
    scanTok r = (⟨TOK_THROUGH, 45⟩, 1) := by
  rcases r with _ | ⟨c, _ | ⟨d, r2⟩⟩
  · simp [scanTok] at h
  · simp only [scanTok] at h ⊢
    split_ifs at h ⊢
    all_goals simp_all
  · simp only [scanTok] at h ⊢
    split_ifs at h ⊢
    all_goals simp_all

/-- A single set member, read from any unread input. -/
theorem renders_member {σ : Type} {sg : Bool} {pick : σ → Int → Int × σ} (r : List Int)
    (m : String) (R S : List Int) (s : σ) (C : List Int) {o : Obs σ}
    (hty : isFirstTok (scanTok r).1.type)
    (hnext : (scanTok (r.drop (scanTok r).2)).1.type ≠ TOK_THROUGH)
    (h : Renders sg pick
      ⟨STATE_IN_GENERATOR, 0, 0, none, r.drop (scanTok r).2, m,
        R ++ [toChar sg (scanTok r).1.val], S, s, C⟩ o) :
    Renders sg pick ⟨STATE_IN_GENERATOR, 0, 0, none, r, m, R, S, s, C⟩ o := by
  have h2 := renders_congr (vstep_unscan sg pick STATE_IN_GENERATOR 0 0 (r.drop (scanTok r).2) m
    (R ++ [toChar sg (scanTok r).1.val]) S s C) h
  have h1 : Renders sg pick
      ⟨STATE_SAW_FIRST, (scanTok r).1.val, 0, none, r.drop (scanTok r).2, m, R, S, s, C⟩ o := by
    refine renders_step ?_ h2
    simp [vstep, vnext, hnext, append, (scanTok_spec (r.drop (scanTok r).2)).2.1]
  refine renders_step ?_ h1
  simp only [isFirstTok] at hty
  rcases hty with e | e | e | e | e <;> simp [vstep, vnext, e]

/-- A complete ascending range, read from any unread input. -/
theorem renders_range {σ : Type} {sg : Bool} {pick : σ → Int → Int × σ} (r : List Int)
    (m : String) (R S : List Int) (s : σ) (C : List Int) {o : Obs σ}
    (hty : isFirstTok (scanTok r).1.type)
    (hthr : (scanTok (r.drop (scanTok r).2)).1.type = TOK_THROUGH)
    (hty2 : (scanTok ((r.drop (scanTok r).2).drop 1)).1.type ≠ TOK_EOF
      ∧ (scanTok ((r.drop (scanTok r).2).drop 1)).1.type ≠ TOK_GEN_END)
    (hle : (scanTok r).1.val ≤ (scanTok ((r.drop (scanTok r).2).drop 1)).1.val)
    (h : Renders sg pick
      ⟨STATE_IN_GENERATOR, 0, 0, none,
        ((r.drop (scanTok r).2).drop 1).drop (scanTok ((r.drop (scanTok r).2).drop 1)).2, m,
        appendRange sg R (scanTok r).1.val (scanTok ((r.drop (scanTok r).2).drop 1)).1.val,
        S, s, C⟩ o) :
    Renders sg pick ⟨STATE_IN_GENERATOR, 0, 0, none, r, m, R, S, s, C⟩ o := by
  generalize hr2 : (r.drop (scanTok r).2).drop 1 = r2 at hty2 hle h
  have hr2a : List.drop ((scanTok r).2 + 1) r = r2 := by simpa using hr2
  have h2 : Renders sg pick
      ⟨STATE_SAW_THROUGH, (scanTok r).1.val, 0, none, r2, m, R, S, s, C⟩ o := by
    refine renders_step ?_ h
    simp [vstep, vnext, hty2, not_lt.mpr hle, (scanTok_spec r2).2.1]
  have h1 : Renders sg pick
      ⟨STATE_SAW_FIRST, (scanTok r).1.val, 0, none, r.drop (scanTok r).2, m, R, S, s, C⟩ o := by
    refine renders_step ?_ h2
    simp [vstep, vnext, scanTok_through _ hthr, hr2a]
  refine renders_step ?_ h1
  simp only [isFirstTok] at hty
  rcases hty with e | e | e | e | e <;> simp [vstep, vnext, e]

/-- End of input where a set member or `]` is expected. -/
theorem renders_open_body {σ : Type} {sg : Bool} {pick : σ → Int → Int × σ} (n : Nat) :
    ∀ (r : List Int) (R S : List Int) (s : σ) (C : List Int), openBody n r →
      Renders sg pick ⟨STATE_IN_GENERATOR, 0, 0, none, r, "", R, S, s, C⟩
        ⟨none, "expected literal or ']'", s, C⟩ := by
  induction n with
  | zero => intro r R S s C h; simp [openBody] at h
  | succ n ih =>
    intro r R S s C h
    simp only [openBody] at h
    rcases h with he | ⟨hty, hrest⟩
    · apply renders_done
      simp [vstep, vnext, he]
    · split_ifs at hrest with hthr
      · obtain ⟨a, b, c, d⟩ := hrest
        exact renders_range r "" R S s C hty hthr ⟨a, b⟩ c (ih _ _ S s C d)
      · exact renders_member r "" R S s C hty hthr (ih _ _ S s C hrest)

/-- Top-level text with no `[` and no backslash before a template: the text
is copied and the template renders as it does alone. -/
theorem renders_after_text {σ : Type} (sg : Bool) (pick : σ → Int → Int × σ) (P : List Int) :
    ∀ (t : List Int) (s : σ) (o : Obs σ), (∀ c ∈ P, c ≠ 0 ∧ c ≠ 91 ∧ c ≠ 92) →
      Renders sg pick (startView t s) o →
      Renders sg pick (startView (P ++ t) s) (frameObs (P.map (toChar sg)) [] o) := by
  induction P with
  | nil =>
    intro t s o _ h
    rcases o with ⟨res, m, rg, c⟩
    cases res <;> simpa [frameObs] using h
  | cons c P ih =>
    intro t s o hP h
    obtain ⟨h0, h1, h2⟩ := hP c (by simp)
    obtain ⟨tk, hscan, hval, hty⟩ := scanTok_plain c (P ++ t) h0 h1 h2
    have h3 := renders_prefix sg pick [c] (P ++ t) tk s (by simpa using hscan) hty
      (ih t s o (fun x hx => hP x (by simp [hx])) h)
    rcases o with ⟨res, m, rg, cl⟩
    cases res <;> simpa [frameObs, hval] using h3

theorem scanTok_endpoint (a : Int) (r : List Int) (h : isEndpoint a) :
    ∃ tk, scanTok (a :: r) = (tk, 1) ∧ tk.val = a ∧ isFirstTok tk.type
      ∧ tk.type ≠ TOK_THROUGH ∧ tk.type ≠ TOK_EOF ∧ tk.type ≠ TOK_GEN_END := by
  obtain ⟨h0, h1, h2, h3⟩ := h
  simp only [scanTok, h0, h1, h2, h3, if_false]
  split_ifs
  all_goals simp_all [isFirstTok]

/-- A run of plain characters inside a set, before text that does not start
with `-`: each is a set member. -/
theorem renders_members_before {σ : Type} {sg : Bool} {pick : σ → Int → Int × σ}
    (s : List Int) : ∀ (r : List Int) (m : String) (R S : List Int) (sel : σ) (C : List Int)
      (o : Obs σ), (∀ x ∈ s, isPlain x) → (scanTok r).1.type ≠ TOK_THROUGH →
      Renders sg pick
        ⟨STATE_IN_GENERATOR, 0, 0, none, r, m, R ++ s.map (toChar sg), S, sel, C⟩ o →
      Renders sg pick ⟨STATE_IN_GENERATOR, 0, 0, none, s ++ r, m, R, S, sel, C⟩ o := by
  induction s with
  | nil => intro r m R S sel C o _ _ h; simpa using h
  | cons c s ih =>
    intro r m R S sel C o hs hr h
    have hc := hs c (by simp)
    have hs1 : ∀ x ∈ s, isPlain x := fun x hx => hs x (by simp [hx])
    have h1 := ih r m (R ++ [toChar sg c]) S sel C o hs1 hr (by simpa using h)
    have hnext : (scanTok (s ++ r)).1.type ≠ TOK_THROUGH := by
      cases s with
      | nil => simpa using hr
      | cons x s => simp [scanTok_isPlain x _ (hs1 x (by simp))]
    exact renders_item_one [c] (s ++ r) ⟨TOK_LITERAL, c⟩ m R S sel C
      (by simpa using scanTok_isPlain c _ hc) (Or.inl rfl) hnext h1

/-- A `-` inside a set that is followed by `]` or by the end of input. -/
theorem renders_dangling {σ : Type} (sg : Bool) (pick : σ → Int → Int × σ) (s : List Int)
    (a : Int) (t : List Int) (sel : σ) (hs : ∀ x ∈ s, isPlain x) (ha : isEndpoint a)
    (ht : (scanTok t).1.type = TOK_EOF ∨ (scanTok t).1.type = TOK_GEN_END) :
    Renders sg pick (startView (91 :: (s ++ a :: 45 :: t)) sel)
      ⟨none, "expected end of range", sel, []⟩ := by
  obtain ⟨tk, hscan, hval, hty, hnt, -, -⟩ := scanTok_endpoint a (45 :: t) ha
  have h3 : Renders sg pick
      ⟨STATE_SAW_THROUGH, a, 0, none, t, "", [] ++ s.map (toChar sg), [], sel, []⟩
      ⟨none, "expected end of range", sel, []⟩ :=
    renders_done (by simp [vstep, vnext, ht, (scanTok_spec t).2.1])
  have h2 : Renders sg pick
      ⟨STATE_SAW_FIRST, a, 0, none, 45 :: t, "", [] ++ s.map (toChar sg), [], sel, []⟩
      ⟨none, "expected end of range", sel, []⟩ :=
    renders_step (by simp [vstep, vnext, scanTok]) h3
  have h1 : Renders sg pick
      ⟨STATE_IN_GENERATOR, 0, 0, none, a :: 45 :: t, "", [] ++ s.map (toChar sg), [], sel, []⟩
      ⟨none, "expected end of range", sel, []⟩ := by
    refine renders_step ?_ h2
    rcases tk with ⟨ty, val⟩
    simp only at hval hty hnt
    subst hval
    simp only [isFirstTok] at hty
    rcases hty with e | e | e | e | e <;> subst e <;> simp [vstep, vnext, hscan] at hnt ⊢
  exact renders_open _ "" [] sel [] (renders_members_before s _ "" [] [] sel [] _ hs
    (by rw [hscan]; exact hnt) h1)

theorem scanTok_last (c : Int) (r : List Int) (h0 : c ≠ 0) (h1 : c ≠ 92) (h2 : c ≠ 93) :
    ∃ tk, scanTok (c :: r) = (tk, 1) ∧ tk.val = c ∧ tk.type ≠ TOK_EOF
      ∧ tk.type ≠ TOK_GEN_END := by
  simp only [scanTok, h0, h1, h2, if_false]
  split_ifs
  all_goals simp_all

/-- The template `[s x-y]` for plain characters `s` and tokens `x`, `y` given
by the characters `X`, `Y`, followed by `r` that does not start with `{`. -/
theorem renders_members_range_nocount {σ : Type} (sg : Bool) (pick : σ → Int → Int × σ)
    (s X Y r : List Int) (tk1 tk2 : token) (sel : σ) {o : Obs σ}
    (hs : ∀ x ∈ s, isPlain x)
    (hscan1 : ∀ t, scanTok (X ++ 45 :: (Y ++ t)) = (tk1, X.length))
    (hty1 : isFirstTok tk1.type ∧ tk1.type ≠ TOK_THROUGH)
    (hscan2 : ∀ t, scanTok (Y ++ t) = (tk2, Y.length))
    (hty2 : tk2.type ≠ TOK_EOF ∧ tk2.type ≠ TOK_GEN_END) (hle : tk1.val ≤ tk2.val)
    (hr : (scanTok r).1.type ≠ TOK_COUNT_START)
    (h : Renders sg pick
      (startView r
        (rngAfter pick (appendRange sg (s.map (toChar sg)) tk1.val tk2.val).length 1 sel)) o) :
    Renders sg pick (startView (91 :: (s ++ (X ++ 45 :: (Y ++ 93 :: r)))) sel)
      (frameObs
        ((picks pick (appendRange sg (s.map (toChar sg)) tk1.val tk2.val).length 1 sel).map
          (fun k => toChar sg
            (if 0 ≤ k then
              (appendRange sg (s.map (toChar sg)) tk1.val tk2.val).getD k.toNat 0 else 0)))
        (List.replicate 1 ((appendRange sg (s.map (toChar sg)) tk1.val tk2.val).length : Int))
        o) := by
  have hR : appendRange sg (s.map (toChar sg)) tk1.val tk2.val ≠ [] := by
    rw [appendRange_eq]
    have : (tk2.val - tk1.val + 1).toNat = (tk2.val - tk1.val).toNat + 1 := by omega
    simp [this, List.range_succ]
  have h1 := renders_emit r 1 (appendRange sg ([] ++ s.map (toChar sg)) tk1.val tk2.val) []
    sel [] (by simpa only [List.nil_append] using hR)
    (by simpa only [List.nil_append] using h)
  have h2 := renders_item_range X Y _ tk1 tk2 "" ([] ++ s.map (toChar sg)) [] sel []
    (hscan1 _) hty1.1 (hscan2 _) hty2 hle
    (renders_close _ "" _ [] sel [] (renders_nocount r "" _ [] sel [] hr h1))
  have h3 := renders_open _ "" [] sel [] (renders_members_before s _ "" [] [] sel [] _ hs
    (by rw [hscan1]; exact hty1.2) h2)
  simpa only [List.nil_append] using h3

/-- A range after plain set members whose last character is below its first. -/
theorem renders_members_backwards {σ : Type} (sg : Bool) (pick : σ → Int → Int × σ)
    (s X Y t : List Int) (tk1 tk2 : token) (sel : σ) (hs : ∀ x ∈ s, isPlain x)
    (hscan1 : scanTok (X ++ 45 :: (Y ++ t)) = (tk1, X.length))
    (hty1 : isFirstTok tk1.type ∧ tk1.type ≠ TOK_THROUGH)
    (hscan2 : scanTok (Y ++ t) = (tk2, Y.length))
    (hty2 : tk2.type ≠ TOK_EOF ∧ tk2.type ≠ TOK_GEN_END) (hlt : tk2.val < tk1.val) :
    Renders sg pick (startView (91 :: (s ++ (X ++ 45 :: (Y ++ t)))) sel)
      ⟨none, "backwards range", sel, []⟩ := by
  have h3 : Renders sg pick
      ⟨STATE_SAW_THROUGH, tk1.val, 0, none, Y ++ t, "", [] ++ s.map (toChar sg), [], sel, []⟩
      ⟨none, "backwards range", sel, []⟩ := by
    apply renders_done
    have := (scanTok_spec (Y ++ t)).2.1
    rw [hscan2] at this
    simp [vstep, vnext, hscan2, hty2, hlt, this]
  have h2 : Renders sg pick
      ⟨STATE_SAW_FIRST, tk1.val, 0, none, 45 :: (Y ++ t), "", [] ++ s.map (toChar sg), [], sel,
        []⟩ ⟨none, "backwards range", sel, []⟩ :=
    renders_step (by simp [vstep, vnext, scanTok]) h3
  have h1 : Renders sg pick
      ⟨STATE_IN_GENERATOR, 0, 0, none, X ++ 45 :: (Y ++ t), "", [] ++ s.map (toChar sg), [],
        sel, []⟩ ⟨none, "backwards range", sel, []⟩ := by
    refine renders_step ?_ h2
    rcases tk1 with ⟨ty, val⟩
    obtain ⟨hty, -⟩ := hty1
    simp only [isFirstTok] at hty
    rcases hty with e | e | e | e | e <;> subst e <;> simp [vstep, vnext, hscan1]
  exact renders_open _ "" [] sel [] (renders_members_before s _ "" [] [] sel [] _ hs
    (by rw [hscan1]; exact hty1.2) h1)

theorem appendRange_after_chars {sg : Bool} {s : List Int} {a b : Int}
    (hs : ∀ x ∈ s, isChar sg x) (ha : isChar sg a) (hb : isChar sg b) :
    appendRange sg (s.map (toChar sg)) a b
      = s ++ (List.range (b - a + 1).toNat).map (fun (i : Nat) => a + (i : Int)) := by
  rw [appendRange_eq, map_toChar_chars s hs, ← appendRange_chars ha hb, appendRange_eq,
    List.nil_append]

theorem set_range_chars {sg : Bool} {s : List Int} {a b : Int}
    (hs : ∀ x ∈ s, isChar sg x) (ha : isChar sg a) (hb : isChar sg b) :
    ∀ x ∈ s ++ (List.range (b - a + 1).toNat).map (fun (i : Nat) => a + (i : Int)),
      isChar sg x := by
  intro x hx
  rw [List.mem_append] at hx
  rcases hx with hx | hx
  · exact hs x hx
  · simp only [List.mem_map, List.mem_range] at hx
    obtain ⟨i, hi, rfl⟩ := hx
    exact isChar_between ha hb (by omega) (by omega)

theorem scanTok_single (a : Int) (r : List Int) (h0 : a ≠ 0) (h1 : a ≠ 92) :
    scanTok (a :: r) = ((scanTok [a]).1, 1) := by
  simp only [scanTok, h0, h1, if_false]
  split_ifs
  all_goals rfl

/-- A token in the count that is neither a digit nor `}`. -/
theorem renders_count_bad {σ : Type} {sg : Bool} {pick : σ → Int → Int × σ} (r : List Int)
    (c : Int) (m : String) (R S : List Int) (s : σ) (C : List Int) (hx : badCountTok r) :
    Renders sg pick ⟨STATE_IN_COUNT, 0, c, none, r, m, R, S, s, C⟩
      ⟨none, "expected digit or '\x7d'", s, C⟩ := by
  apply renders_done
  obtain ⟨h1, h2⟩ := hx
  simp only [vstep, vnext, (scanTok_spec r).2.1, h1, if_false]
  rw [if_neg h2]

/-- The template `[s]{ds` for plain characters `s` and ASCII digits `ds`,
followed by a token that is neither a digit nor `}`. -/
theorem renders_set_count_bad {σ : Type} (sg : Bool) (pick : σ → Int → Int × σ)
    (s ds r : List Int) (sel : σ) (hs : ∀ x ∈ s, isPlain x)
    (hds : ∀ d ∈ ds, 48 ≤ d ∧ d ≤ 57) (hx : badCountTok r) :
    Renders sg pick (startView (91 :: (s ++ 93 :: 123 :: (ds ++ r))) sel)
      ⟨none, "expected digit or '\x7d'", sel, []⟩ :=
  renders_open _ "" [] sel [] (renders_members_plain s _ "" [] [] sel [] _ hs
    (renders_count_open _ "" _ [] sel [] (renders_digits ds 0 _ "" _ [] sel [] _ hds
      (renders_count_bad r _ "" _ [] sel [] hx))))

/-- The template `[x]` for one token `x` given by the characters `X`,
followed by `r` that does not start with `{`. -/
theorem renders_one_nocount {σ : Type} (sg : Bool) (pick : σ → Int → Int × σ)
    (X r : List Int) (tk : token) (sel : σ) {o : Obs σ}
    (hscan : ∀ t, scanTok (X ++ t) = (tk, X.length)) (hty : isFirstTok tk.type)
    (hr : (scanTok r).1.type ≠ TOK_COUNT_START)
    (h : Renders sg pick (startView r (rngAfter pick 1 1 sel)) o) :
    Renders sg pick (startView (91 :: (X ++ 93 :: r)) sel)
      (frameObs
        ((picks pick 1 1 sel).map
          (fun k => toChar sg (if 0 ≤ k then [toChar sg tk.val].getD k.toNat 0 else 0)))
        [1] o) := by
  have h1 := renders_emit r 1 ([] ++ [toChar sg tk.val]) [] sel [] (by simp)
    (by simpa using h)
  have h2 := renders_open _ "" [] sel [] (renders_item_one X _ tk "" [] [] sel [] (hscan _) hty
    (by simp [scanTok]) (renders_close _ "" _ [] sel [] (renders_nocount r "" _ [] sel [] hr h1)))
  simpa using h2

theorem scanTok_octDigit (d : Int) (t : List Int) (hd : 48 ≤ d ∧ d ≤ 57) :
    scanTok (octDigit d ++ t) = (⟨TOK_LITERAL, d⟩, (octDigit d).length) := by
  have h := scanTok_octal3 0 (d / 8) (d % 8) t (by omega) (by omega) (by omega)
  have e : 64 * 0 + 8 * (d / 8) + d % 8 = d := by omega
  rw [e] at h
  simpa [octDigit] using h

/-- A run of digits in the count, each written plainly or as an octal escape. -/
theorem renders_written_digits {σ : Type} {sg : Bool} {pick : σ → Int → Int × σ}
    (w : List (Int × Bool)) :
    ∀ (c : Int) (r : List Int) (m : String) (R S : List Int) (s : σ) (C : List Int)
      (o : Obs σ), (∀ p ∈ w, 48 ≤ p.1 ∧ p.1 ≤ 57) →
      Renders sg pick ⟨STATE_IN_COUNT, 0, countVal c (w.map Prod.fst), none, r, m, R, S, s, C⟩ o →
      Renders sg pick ⟨STATE_IN_COUNT, 0, c, none, writeDigits w ++ r, m, R, S, s, C⟩ o := by
  induction w with
  | nil => intro c r m R S s C o _ h; simpa [countVal, writeDigits] using h
  | cons p w ih =>
    intro c r m R S s C o hw h
    obtain ⟨d, b⟩ := p
    have hd : 48 ≤ d ∧ d ≤ 57 := hw (d, b) (by simp)
    have h1 := ih (toInt (c * 10 + d - 48)) r m R S s C o (fun x hx => hw x (by simp [hx]))
      (by simpa [countVal] using h)
    cases b with
    | false =>
      exact renders_count_digit [d] (writeDigits w ++ r) d c m R S s C
        (by simpa using scanTok_digit d (writeDigits w ++ r) hd) hd h1
    | true =>
      have h2 := renders_count_digit (octDigit d) (writeDigits w ++ r) d c m R S s C
        (scanTok_octDigit d _ hd) hd h1
      simpa [writeDigits] using h2

/-- The template `[s]{w}` for plain characters `s` and digits written as `w`,
followed by `r`. -/
theorem renders_set_count_written {σ : Type} (sg : Bool) (pick : σ → Int → Int × σ)
    (s : List Int) (w : List (Int × Bool)) (r : List Int) (sel : σ) {o : Obs σ}
    (hs : ∀ x ∈ s, isPlain x) (hne : s ≠ [])
    (hw : ∀ p ∈ w, 48 ≤ p.1 ∧ p.1 ≤ 57)
    (h : Renders sg pick (startView r
      (rngAfter pick (s.map (toChar sg)).length (countVal 0 (w.map Prod.fst)).toNat sel)) o) :
    Renders sg pick (startView (91 :: (s ++ 93 :: 123 :: (writeDigits w ++ 125 :: r))) sel)
      (frameObs
        ((picks pick (s.map (toChar sg)).length (countVal 0 (w.map Prod.fst)).toNat sel).map
          (fun k => toChar sg (if 0 ≤ k then (s.map (toChar sg)).getD k.toNat 0 else 0)))
        (List.replicate (countVal 0 (w.map Prod.fst)).toNat ((s.map (toChar sg)).length : Int))
        o) := by
  have hR : s.map (toChar sg) ≠ [] := by simpa using hne
  have h1 := renders_emit r (countVal 0 (w.map Prod.fst)) (s.map (toChar sg)) [] sel [] hR h
  simp only [List.nil_append] at h1
  exact renders_open _ "" [] sel [] (renders_members_plain s _ "" [] [] sel [] _ hs
    (renders_count_open _ "" _ [] sel [] (renders_written_digits w 0 _ "" _ [] sel [] _ hw
      (renders_count_close r _ "" _ [] sel [] h1))))

theorem vstep_sane {σ : Type} (sg : Bool) (pick : σ → Int → Int × σ) (v : View σ)
    (hI : Sane v) :
    match vstep sg pick v with
    | .again v1 => Sane v1
    | .done o => (o.result ≠ none ∧ o.msg = "") ∨ (o.result = none ∧ syntaxDiag o.msg) := by
  rcases v with ⟨state, first, count, pend, rest, msg, range, salt, rng, calls⟩
  obtain ⟨hm, hst, hp⟩ := hI
  simp only at hm hp hst
  subst hm
  cases pend with
  | none =>
    obtain ⟨h1, h2, -, -, -⟩ := scanTok_spec rest
    generalize hs : scanTok rest = sc at h1 h2
    rcases sc with ⟨⟨ty, val⟩, k⟩
    simp only at h1 h2
    cases state <;> cases ty <;>
      simp [vstep, vnext, hs, normTok, Sane, parserState, syntaxDiag] at h1 h2 hst ⊢
    all_goals (split_ifs <;> simp [Sane, parserState, syntaxDiag])
  | some t =>
    rcases t with ⟨ty, val⟩
    have := hp _ rfl
    simp only at this
    cases state <;> cases ty <;>
      simp [vstep, vnext, normTok, Sane, parserState, syntaxDiag] at this hst ⊢
    all_goals (split_ifs <;> simp [Sane, parserState, syntaxDiag])

theorem sane_view_iff {σ : Type} (l : Locals) (g : Globals σ) :
    Sane (view l g) ↔ g.msg = "" ∧ parserState l.state ∧ g.pushback.type ≠ TOK_ERR := by
  rcases g with ⟨⟨pty, pval⟩, input, ptr, msg, range, salt, rng, calls⟩
  cases pty <;> simp [Sane, view, normTok]

theorem sane_init {σ : Type} (template : Option (List Int)) (g : Globals σ) :
    Sane (view locals0 (gensaltInit template g)) := by
  rw [sane_view_iff]
  simp [gensaltInit, locals0, parserState]

theorem gensaltIter_sane {σ : Type} (sg : Bool) (pick : σ → Int → Int × σ) (n : Nat) :
    ∀ (l : Locals) (g : Globals σ) (l1 : Locals) (g1 : Globals σ), Sane (view l g) →
      gensaltIter sg pick n l g = some (l1, g1) → Sane (view l1 g1) := by
  induction n with
  | zero =>
    intro l g l1 g1 hI h
    simp only [gensaltIter, Option.some.injEq, Prod.mk.injEq] at h
    rw [← h.1, ← h.2]
    exact hI
  | succ n ih =>
    intro l g l1 g1 hI h
    have hb := body_view sg pick l g
    have hs := vstep_sane sg pick _ hI
    rw [gensaltIter] at h
    cases hc : gensaltBody sg pick l g with
    | none => simp [hc] at h
    | some it =>
      cases it with
      | done out => simp [hc] at h
      | again l2 g2 =>
        simp only [hc, Option.map_some', iterView, Option.some.injEq] at hb h
        rw [← hb] at hs
        exact ih l2 g2 l1 g1 hs h

/-- The loop, run for `n` iterations and then for `m` more. -/
theorem gensaltLoop_iter {σ : Type} (sg : Bool) (pick : σ → Int → Int × σ) (n : Nat) :
    ∀ (m : Nat) (l : Locals) (g : Globals σ) (l1 : Locals) (g1 : Globals σ),
      gensaltIter sg pick n l g = some (l1, g1) →
      gensaltLoop sg pick (n + m) l g = gensaltLoop sg pick m l1 g1 := by
  induction n with
  | zero =>
    intro m l g l1 g1 h
    simp only [gensaltIter, Option.some.injEq, Prod.mk.injEq] at h
    rw [← h.1, ← h.2, Nat.zero_add]
  | succ n ih =>
    intro m l g l1 g1 h
    rw [gensaltIter] at h
    rw [show n + 1 + m = (n + m) + 1 by omega, gensaltLoop]
    cases hc : gensaltBody sg pick l g with
    | none => simp [hc] at h
    | some it =>
      cases it with
      | done out => simp [hc] at h
      | again l2 g2 =>
        simp only [hc] at h ⊢
        exact ih m l2 g2 l1 g1 h

/-- What a call of `gensalt` returns: a result and no message, or `NULL` and
one of the syntax diagnostics. -/
theorem gensalt_outcome {σ : Type} (sg : Bool) (pick : σ → Int → Int × σ)
    (template : Option (List Int)) (g : Globals σ) :
    ∃ out, gensalt sg pick template g = some out
      ∧ ((out.result ≠ none ∧ gensalt_msg out.g = "")
        ∨ (out.result = none ∧ syntaxDiag (gensalt_msg out.g))) := by
  obtain ⟨out, hout⟩ := gensalt_terminates sg pick template g
  refine ⟨out, hout, ?_⟩
  have hv := gensalt_view sg pick template g
  rw [hout] at hv
  exact vrun_invariant sg pick Sane
    (fun o => (o.result ≠ none ∧ o.msg = "") ∨ (o.result = none ∧ syntaxDiag o.msg))
    (vstep_sane sg pick) _ _ (obs out)
    (by simp [startView, Sane, parserState]) hv.symm

/-- The lexer, called with no error token in the pushback slot: it returns a
token other than the error token, leaves the slot empty (so that the next
`ungettok` succeeds) and sets no message. -/
theorem gettok_sane {σ : Type} (t : token) (g : Globals σ) (hp : g.pushback.type ≠ TOK_ERR) :
    ∃ ty tok g1, gettok t g = some (ty, tok, g1) ∧ ty ≠ TOK_ERR ∧ tok.type = ty
      ∧ g1.pushback.type = TOK_EMPTY ∧ g1.msg = g.msg
      ∧ ∀ u, (ungettok u g1).1 = true ∧ (ungettok u g1).2.msg = g.msg := by
  by_cases he : g.pushback.type = TOK_EMPTY
  · refine ⟨_, _, _, gettok_eq_scan t g he, (scanTok_spec _).2.1, ?_, he, rfl, ?_⟩
    · simp only [storedTok]
      split_ifs with h
      · simp [h]
      · rfl
    · intro u
      simp [ungettok, he]
  · have e : gettok t g = some (g.pushback.type, ⟨g.pushback.type, g.pushback.val⟩,
        { g with pushback := { g.pushback with type := TOK_EMPTY } }) := by
      simp only [gettok, ne_eq, he, not_false_eq_true, if_true]
    refine ⟨_, _, _, e, hp, rfl, rfl, rfl, ?_⟩
    intro u
    simp [ungettok]

theorem gensalt_msg_not_start {σ : Type} (sg : Bool) (pick : σ → Int → Int × σ)
    (template : Option (List Int)) (g : Globals σ) :
    ∃ out, gensalt sg pick template g = some out
      ∧ gensalt_msg out.g ≠ "expected literal or '['" := by
  obtain ⟨out, hout, h⟩ := gensalt_outcome sg pick template g
  refine ⟨out, hout, ?_⟩
  rcases h with ⟨-, h⟩ | ⟨-, h | h | h | h⟩ <;> rw [h] <;> decide

/-- The selector calls and the output of one iteration of the parser loop. -/
theorem vstep_calls {σ : Type} (sg : Bool) (pick : σ → Int → Int × σ) (v : View σ) :
    match vstep sg pick v with
    | .again v1 =>
      v1.calls = v.calls ++ List.replicate (emitCount v.state v.range v.count)
          (v.range.length : Int)
        ∧ v1.salt.length = v.salt.length + emitCount v.state v.range v.count
            + (if v.state = STATE_START ∧ v1.state = STATE_START then 1 else 0)
    | .done o => o.calls = v.calls ∧ ∀ r, o.result = some r → r.length = v.salt.length + 1 := by
  rcases v with ⟨state, first, count, pend, rest, msg, range, salt, rng, calls⟩
  cases pend with
  | none =>
    generalize hs : scanTok rest = sc
    rcases sc with ⟨⟨ty, val⟩, k⟩
    cases range <;> cases state <;> cases ty <;>
      simp [vstep, vnext, hs, normTok, emitCount, append, emit_eq, picks_length]
    all_goals (split_ifs <;> simp [emitCount, append, emit_eq, picks_length])
  | some t =>
    rcases t with ⟨ty, val⟩
    cases range <;> cases state <;> cases ty <;>
      simp [vstep, vnext, normTok, emitCount, append, emit_eq, picks_length]
    all_goals (split_ifs <;> simp [emitCount, append, emit_eq, picks_length])

/-- The length of a returned salt: what was in `salt`, the top-level literals
copied since, one character per selector call made since, and the NUL. -/
theorem loop_salt_length {σ : Type} (sg : Bool) (pick : σ → Int → Int × σ) (n : Nat) :
    ∀ (l : Locals) (g : Globals σ) (out : Outcome σ) (r : List Int),
      gensaltLoop sg pick n l g = some out → out.result = some r →
      r.length + g.calls.length
        = g.salt.length + topLiterals sg pick n l g + out.g.calls.length + 1 := by
  induction n with
  | zero => intro l g out r h; simp [gensaltLoop] at h
  | succ n ih =>
    intro l g out r h hr
    have hb := body_view sg pick l g
    have hc := vstep_calls sg pick (view l g)
    rw [gensaltLoop] at h
    rw [topLiterals]
    cases hbody : gensaltBody sg pick l g with
    | none => simp [hbody] at h
    | some it =>
      cases it with
      | done o =>
        simp only [hbody, Option.map_some', iterView, Option.some.injEq] at hb h
        rw [← hb] at hc
        subst h
        simp only [obs, view] at hc
        rw [hc.2 r hr, hc.1]
        dsimp only
        omega
      | again l1 g1 =>
        simp only [hbody, Option.map_some', iterView, Option.some.injEq] at hb h
        rw [← hb] at hc
        simp only [view] at hc
        have := ih l1 g1 out r h hr
        have h1 := congrArg List.length hc.1
        simp only [List.length_append, List.length_replicate] at h1
        have h2 := hc.2
        dsimp only
        omega

/-- The selector is only called with bounds that are at least 1. -/
theorem gensalt_calls_pos {σ : Type} (sg : Bool) (pick : σ → Int → Int × σ)
    (template : Option (List Int)) (g : Globals σ) (out : Outcome σ)
    (hout : gensalt sg pick template g = some out) : ∀ b ∈ out.g.calls, 1 ≤ b := by
  have hv := gensalt_view sg pick template g
  rw [hout] at hv
  refine vrun_invariant sg pick (fun v => ∀ b ∈ v.calls, 1 ≤ b) (fun o => ∀ b ∈ o.calls, 1 ≤ b)
    ?_ _ _ (obs out) (by simp [startView]) hv.symm
  intro v hI
  have hc := vstep_calls sg pick v
  cases hs : vstep sg pick v with
  | done o =>
    simp only [hs] at hc ⊢
    rw [hc.1]
    exact hI
  | again v1 =>
    simp only [hs] at hc ⊢
    rw [hc.1]
    intro b hb
    rcases List.mem_append.mp hb with hb | hb
    · exact hI b hb
    · obtain ⟨hne, rfl⟩ := List.mem_replicate.mp hb
      have : emitCount v.state v.range v.count ≠ 0 := hne
      have hr : v.range ≠ [] := by
        intro h
        simp [emitCount, h] at this
      have := List.length_pos.mpr hr
      omega

/-- The iteration of `STATE_SAW_COUNT` on views: the token is pushed back and
`count` characters are emitted from the range buffer, if it is not empty. -/
theorem vstep_saw_count {σ : Type} (sg : Bool) (pick : σ → Int → Int × σ) (v : View σ)
    (hs : v.state = STATE_SAW_COUNT) (hI : Sane v) :
    ∃ v1, vstep sg pick v = .again v1 ∧ v1.state = STATE_START
      ∧ (v1.salt, v1.rng, v1.calls)
          = emit sg pick v.range (emitCount v.state v.range v.count) (v.salt, v.rng, v.calls) := by
  rcases v with ⟨state, first, count, pend, rest, msg, range, salt, rng, calls⟩
  obtain ⟨-, -, hp⟩ := hI
  simp only at hs hp
  subst hs
  cases pend with
  | none =>
    have h2 := (scanTok_spec rest).2.1
    cases range <;> simp [vstep, vnext, h2, emitCount, emit]
  | some t =>
    have h2 := (hp t rfl).1
    cases range <;> simp [vstep, vnext, h2, emitCount, emit]

theorem body_saw_count {σ : Type} (sg : Bool) (pick : σ → Int → Int × σ) (l : Locals)
    (g : Globals σ) (hs : l.state = STATE_SAW_COUNT) (hI : Sane (view l g)) :
    ∃ l1 g1, gensaltBody sg pick l g = some (.again l1 g1) ∧ l1.state = STATE_START
      ∧ (g1.salt, g1.rng, g1.calls)
          = emit sg pick g.range (emitCount l.state g.range l.count) (g.salt, g.rng, g.calls) := by
  obtain ⟨v1, e1, e2, e3⟩ := vstep_saw_count sg pick (view l g) hs hI
  have hb := body_view sg pick l g
  rw [e1] at hb
  cases hbody : gensaltBody sg pick l g with
  | none => simp [hbody] at hb
  | some it =>
    cases it with
    | done o => simp [hbody, iterView] at hb
    | again l1 g1 =>
      simp only [hbody, Option.map_some', iterView, Option.some.injEq, VIter.again.injEq] at hb
      subst hb
      refine ⟨l1, g1, rfl, e2, ?_⟩
      simpa [view, liveRange, liveCount, hs] using e3

/-- An iteration in a state other than `STATE_SAW_COUNT` does not call the
selector. -/
theorem body_no_calls {σ : Type} (sg : Bool) (pick : σ → Int → Int × σ) (l : Locals)
    (g : Globals σ) (hs : l.state ≠ STATE_SAW_COUNT) :
    ∀ it, gensaltBody sg pick l g = some it →
      match it with
      | .again _ g1 => g1.calls = g.calls
      | .done out => out.g.calls = g.calls := by
  intro it h
  have hb := body_view sg pick l g
  have hc := vstep_calls sg pick (view l g)
  rw [h] at hb
  simp only [Option.map_some', Option.some.injEq] at hb
  rw [← hb] at hc
  cases it with
  | done o => simpa [iterView, obs, view] using hc.1
  | again l1 g1 =>
    have := hc.1
    simpa [iterView, view, emitCount, hs] using this

/-- The lexer's loop count never runs out. -/
theorem gettok_total {σ : Type} (t : token) (g : Globals σ) : ∃ r, gettok t g = some r := by
  by_cases he : g.pushback.type = TOK_EMPTY
  · exact ⟨_, gettok_eq_scan t g he⟩
  · simp [gettok, he]

/-- More iterations allowed do not change what the parser loop returns. -/
theorem gensaltLoop_mono {σ : Type} (sg : Bool) (pick : σ → Int → Int × σ) (n : Nat) :
    ∀ (m : Nat) (l : Locals) (g : Globals σ) (out : Outcome σ), n ≤ m →
      gensaltLoop sg pick n l g = some out → gensaltLoop sg pick m l g = some out := by
  induction n with
  | zero => intro m l g out _ h; simp [gensaltLoop] at h
  | succ n ih =>
    intro m l g out hm h
    obtain ⟨m, rfl⟩ : ∃ k, m = k + 1 := ⟨m - 1, by omega⟩
    rw [gensaltLoop] at h ⊢
    cases hb : gensaltBody sg pick l g with
    | none => simp [hb] at h
    | some it =>
      cases it with
      | done o => simpa [hb] using h
      | again l1 g1 =>
        simp only [hb] at h ⊢
        exact ih m l1 g1 out (by omega) h

/-- The view of an iteration that goes on. -/
theorem body_again_view {σ : Type} {sg : Bool} {pick : σ → Int → Int × σ} {l l1 : Locals}
    {g g1 : Globals σ} (h : gensaltBody sg pick l g = some (.again l1 g1)) :
    vstep sg pick (view l g) = .again (view l1 g1) := by
  have hb := body_view sg pick l g
  rw [h] at hb
  simpa [iterView] using hb.symm

/-- Every iteration that goes on brings the loop nearer to its return. -/
theorem body_pot {σ : Type} (sg : Bool) (pick : σ → Int → Int × σ) (l l1 : Locals)
    (g g1 : Globals σ) (h : gensaltBody sg pick l g = some (.again l1 g1)) :
    pot (view l1 g1) < pot (view l g) := by
  have hp := vstep_pot sg pick (view l g)
  rw [body_again_view h] at hp
  exact hp

/-- The iterations that leave a token in the pushback slot. -/
theorem vstep_pend {σ : Type} (sg : Bool) (pick : σ → Int → Int × σ) (v v1 : View σ)
    (h : vstep sg pick v = .again v1) (hp : v1.pend ≠ none) :
    (v.state = STATE_SAW_FIRST ∧ v1.state = STATE_IN_GENERATOR)
      ∨ (v.state = STATE_SAW_GENERATOR ∧ v1.state = STATE_SAW_COUNT)
      ∨ (v.state = STATE_SAW_COUNT ∧ v1.state = STATE_START) := by
  rcases v with ⟨state, first, count, pend, rest, msg, range, salt, rng, calls⟩
  cases pend with
  | none =>
    generalize hs : scanTok rest = sc
    rcases sc with ⟨⟨ty, val⟩, k⟩
    cases state <;> cases ty <;> simp [vstep, vnext, hs] at h
    all_goals first
      | (subst h; simp at hp ⊢)
      | (split_ifs at h <;> simp at h <;> subst h <;> simp at hp ⊢)
  | some t =>
    rcases t with ⟨ty, val⟩
    cases state <;> cases ty <;> simp [vstep, vnext] at h
    all_goals first
      | (subst h; simp at hp ⊢)
      | (split_ifs at h <;> simp at h <;> subst h <;> simp at hp ⊢)

theorem gensaltIter_succ {σ : Type} {sg : Bool} {pick : σ → Int → Int × σ} {n : Nat}
    {l l2 : Locals} {g g2 : Globals σ} (h : gensaltIter sg pick (n + 1) l g = some (l2, g2)) :
    ∃ l1 g1, gensaltBody sg pick l g = some (.again l1 g1)
      ∧ gensaltIter sg pick n l1 g1 = some (l2, g2) := by
  rw [gensaltIter] at h
  cases hb : gensaltBody sg pick l g with
  | none => simp [hb] at h
  | some it =>
    cases it with
    | done o => simp [hb] at h
    | again l1 g1 => exact ⟨l1, g1, rfl, by simpa [hb] using h⟩

theorem pend_view_none {σ : Type} (l : Locals) (g : Globals σ) :
    (view l g).pend = none ↔ g.pushback.type = TOK_EMPTY := by
  rcases g with ⟨⟨pty, pval⟩, input, ptr, msg, range, salt, rng, calls⟩
  cases pty <;> simp [view, normTok]

/-- No token is pushed back in three iterations running: of any three
iterations, one leaves the pushback slot empty. -/
theorem pushback_twice {σ : Type} (sg : Bool) (pick : σ → Int → Int × σ) (l l3 : Locals)
    (g g3 : Globals σ) (h : gensaltIter sg pick 3 l g = some (l3, g3)) :
    ∃ k l1 g1, 1 ≤ k ∧ k ≤ 3 ∧ gensaltIter sg pick k l g = some (l1, g1)
      ∧ g1.pushback.type = TOK_EMPTY := by
  obtain ⟨la, ga, ha, h2⟩ := gensaltIter_succ h
  obtain ⟨lb, gb, hb, h1⟩ := gensaltIter_succ h2
  obtain ⟨lc, gc, hc, h0⟩ := gensaltIter_succ h1
  by_cases pa : ga.pushback.type = TOK_EMPTY
  · exact ⟨1, la, ga, by omega, by omega, by simp [gensaltIter, ha], pa⟩
  by_cases pb : gb.pushback.type = TOK_EMPTY
  · exact ⟨2, lb, gb, by omega, by omega, by simp [gensaltIter, ha, hb], pb⟩
  refine ⟨3, lc, gc, by omega, by omega, by simp [gensaltIter, ha, hb, hc], ?_⟩
  by_contra pc
  have va := vstep_pend sg pick _ _ (body_again_view ha)
    (fun e => pa ((pend_view_none la ga).mp e))
  have vb := vstep_pend sg pick _ _ (body_again_view hb)
    (fun e => pb ((pend_view_none lb gb).mp e))
  have vc := vstep_pend sg pick _ _ (body_again_view hc)
    (fun e => pc ((pend_view_none lc gc).mp e))
  simp only [view] at va vb vc
  rcases va with ⟨-, e⟩ | ⟨-, e⟩ | ⟨-, e⟩ <;> rcases vb with ⟨f, f2⟩ | ⟨f, f2⟩ | ⟨f, f2⟩ <;>
    rcases vc with ⟨k, -⟩ | ⟨k, -⟩ | ⟨k, -⟩ <;> simp_all

/-- At the end of input the parser loop returns within three iterations. -/
theorem vrun_eof {σ : Type} (sg : Bool) (pick : σ → Int → Int × σ) (v : View σ)
    (hr : v.rest.headD 0 = 0) (hp : v.pend = none ∨ v.pend = some ⟨TOK_EOF, 0⟩) :
    ∃ o, vrun sg pick 3 v = some o := by
  rcases v with ⟨state, first, count, pend, rest, msg, range, salt, rng, calls⟩
  simp only at hr hp
  have hs : scanTok rest = (⟨TOK_EOF, 0⟩, 0) := by
    cases rest with
    | nil => rfl
    | cons c r =>
      simp only [List.headD_cons] at hr
      simp [scanTok, hr]
  rcases hp with rfl | rfl <;> cases state <;> cases range <;>
    simp [vrun, vstep, vnext, hs, normTok]

theorem gensaltLoop_eof {σ : Type} (sg : Bool) (pick : σ → Int → Int × σ) (l : Locals)
    (g : Globals σ) (hr : g.input.getD g.ptr 0 = 0)
    (hp : g.pushback.type = TOK_EMPTY ∨ g.pushback.type = TOK_EOF) :
    ∃ out, gensaltLoop sg pick 3 l g = some out := by
  have hv := loop_view sg pick 3 l g
  obtain ⟨o, ho⟩ := vrun_eof sg pick (view l g)
    (by simpa [view, getD_eq_headD_drop] using hr)
    (by
      rcases g with ⟨⟨pty, pval⟩, input, ptr, msg, range, salt, rng, calls⟩
      simp only at hp
      rcases hp with rfl | rfl <;> simp [view, normTok])
  rw [ho] at hv
  cases hl : gensaltLoop sg pick 3 l g with
  | none => simp [hl] at hv
  | some out => exact ⟨out, rfl⟩

/-- A call of `gensalt` whose loop reaches the configuration `(l, g)` returns
what the loop returns from there. -/
theorem gensalt_of_iter {σ : Type} (sg : Bool) (pick : σ → Int → Int × σ)
    (template : Option (List Int)) (g0 : Globals σ) (n : Nat) (l : Locals) (g : Globals σ)
    (o : Obs σ) (hreach : gensaltIter sg pick n locals0 (gensaltInit template g0) = some (l, g))
    (h : Renders sg pick (view l g) o) :
    ∃ out, gensalt sg pick template g0 = some out ∧ obs out = o := by
  obtain ⟨k, hk⟩ := h
  have hv := loop_view sg pick k l g
  rw [hk] at hv
  cases hl : gensaltLoop sg pick k l g with
  | none => simp [hl] at hv
  | some out1 =>
    simp only [hl, Option.map_some', Option.some.injEq] at hv
    obtain ⟨out, hout⟩ := gensalt_terminates sg pick template g0
    refine ⟨out, hout, ?_⟩
    have e1 := gensaltLoop_iter sg pick n k _ _ l g hreach
    rw [hl] at e1
    unfold gensalt at hout
    have m1 := gensaltLoop_mono sg pick _
      (3 * (gensaltInit template g0).input.length + 4 + (n + k)) _ _ out (by omega) hout
    have m2 := gensaltLoop_mono sg pick _
      (3 * (gensaltInit template g0).input.length + 4 + (n + k)) _ _ out1 (by omega) e1
    rw [m1] at m2
    simp only [Option.some.injEq] at m2
    rw [m2]
    exact hv

/-- From the `[` that opens a bracket construct, a body of complete items that
runs to the end of input ends the call with `"expected literal or ']'"`. -/
theorem gensalt_open_body {σ : Type} (sg : Bool) (pick : σ → Int → Int × σ)
    (template : Option (List Int)) (g0 : Globals σ) (n : Nat) (body : List Int)
    (hopen : opensAt sg pick template g0 n body) (hB : openBody (body.length + 1) body) :
    ∃ out, gensalt sg pick template g0 = some out ∧ out.result = none
      ∧ gensalt_msg out.g = "expected literal or ']'" := by
  unfold opensAt at hopen
  cases hreach : gensaltIter sg pick n locals0 (gensaltInit template g0) with
  | none => simp [hreach] at hopen
  | some c =>
    obtain ⟨l, g⟩ := c
    simp only [hreach] at hopen
    obtain ⟨hst, hopen⟩ := hopen
    have hI := gensaltIter_sane sg pick n _ _ l g (sane_init template g0) hreach
    obtain ⟨hm, -, hp⟩ := (sane_view_iff l g).mp hI
    obtain ⟨ty, tok, g1, h1, h2, h3, h4, h5, -⟩ := gettok_sane l.tok g hp
    simp only [h1] at hopen
    obtain ⟨hty, hbody⟩ := hopen
    have hb : gensaltBody sg pick l g
        = some (.again { { l with tok := tok } with state := STATE_IN_GENERATOR }
            { g1 with range := strclear g1.range }) := by
      rw [hty] at h3
      simp [gensaltBody, h1, ← h3, hst, hty]
    have hv := body_again_view hb
    have hview : view { { l with tok := tok } with state := STATE_IN_GENERATOR }
        { g1 with range := strclear g1.range }
        = ⟨STATE_IN_GENERATOR, 0, 0, none, body, "", [], g1.salt, g1.rng, g1.calls⟩ := by
      simp [view, liveFirst, liveCount, liveRange, normTok, h4, hbody, h5, hm, strclear]
    rw [hview] at hv
    obtain ⟨out, hout, ho⟩ := gensalt_of_iter sg pick template g0 n l g _ hreach
      (renders_step hv (renders_open_body _ body [] g1.salt g1.rng g1.calls hB))
    refine ⟨out, hout, ?_, ?_⟩
    · simpa [obs] using congrArg Obs.result ho
    · simpa [obs] using congrArg Obs.msg ho

/-! ## The claims of the specification -/

/-- C1: a template with no `[` and no backslash renders as itself.  For every
template `t` of `char` values (none NUL) in which neither `[` (91) nor the
backslash (92) occurs, and for every selector, `gensalt` returns the buffer
holding `t` followed by the terminating NUL, leaves the diagnostic empty and
never calls the selector (the call log is empty and its state unchanged). -/
theorem C1_plain_template_renders_itself {σ : Type} (sg : Bool) (pick : σ → Int → Int × σ)
    (t : List Int) (g : Globals σ) (ht : isTemplate sg t) (hb : (91 : Int) ∉ t)
    (hs : (92 : Int) ∉ t) :
    ∃ out, gensalt sg pick (some t) g = some out ∧ out.result = some (t ++ [0])
      ∧ gensalt_msg out.g = "" ∧ out.g.calls = [] ∧ out.g.rng = g.rng :=
  gensalt_of_renders (renders_plain sg pick g.rng t ht hb hs)

/-- C1 at the template `x{1}-]` with the test suite's selector. -/
theorem C1_plain_template_renders_itself_witness :
    isTemplate false [120, 123, 49, 125, 45, 93] ∧
    ∃ out, gensalt false genchar (some [120, 123, 49, 125, 45, 93]) (globals0 (0 : Nat)) = some out
      ∧ out.result = some ([120, 123, 49, 125, 45, 93] ++ [0])
      ∧ gensalt_msg out.g = "" ∧ out.g.calls = [] ∧ out.g.rng = (globals0 (0 : Nat)).rng :=
  ⟨by decide, C1_plain_template_renders_itself false genchar [120, 123, 49, 125, 45, 93]
    (globals0 0) (by decide) (by decide) (by decide)⟩

/-- C5: escaping neutralises special meaning.  For every NUL-free string `s`
of `char` values, `gensalt` on `esc s` (a backslash put before every
`[ ] - { }` and backslash of `s`) returns `s` followed by the terminating
NUL, with an empty diagnostic and without calling the selector, whatever the
selector is. -/
theorem C5_escape_round_trip {σ : Type} (sg : Bool) (pick : σ → Int → Int × σ)
    (s : List Int) (g : Globals σ) (hs : isTemplate sg s) :
    ∃ out, gensalt sg pick (some (esc s)) g = some out ∧ out.result = some (s ++ [0])
      ∧ gensalt_msg out.g = "" ∧ out.g.calls = [] ∧ out.g.rng = g.rng :=
  gensalt_of_renders (renders_esc sg pick g.rng s hs)

/-- C5 at `s = "[a-z]\"`, whose escaped form is `"\[a\-z\]\\"`. -/
theorem C5_escape_round_trip_witness :
    isTemplate false [91, 97, 45, 122, 93, 92]
      ∧ esc [91, 97, 45, 122, 93, 92] = [92, 91, 97, 92, 45, 122, 92, 93, 92, 92]
      ∧ ∃ out, gensalt false genchar (some (esc [91, 97, 45, 122, 93, 92])) (globals0 (0 : Nat))
            = some out ∧ out.result = some ([91, 97, 45, 122, 93, 92] ++ [0])
          ∧ gensalt_msg out.g = "" ∧ out.g.calls = [] ∧ out.g.rng = (globals0 (0 : Nat)).rng :=
  ⟨by decide, by decide,
   C5_escape_round_trip false genchar [91, 97, 45, 122, 93, 92] (globals0 0) (by decide)⟩

/-- C6: octal escapes decode at most three digits, greedily.  For octal
digits `d1` in `0..3` and `d2`, `d3` in `0..7` (written as the characters
`48 + d`): the value `64*d1 + 8*d2 + d3` lies in `0..255`; `gensalt` on
backslash `d1 d2 d3` followed by any text `t` renders the character with that
byte value (`toChar`, which keeps the value modulo 256) followed by the
rendering of `t`, so a fourth digit is an ordinary character of `t`; and when
`t` is empty or starts with a character that is not an octal digit, backslash
`d1` followed by `t` renders the character `d1`, and backslash `d1 d2`
followed by `t` renders the character `8*d1 + d2`, each followed by the
rendering of `t`. -/
theorem C6_octal_escape {σ : Type} (sg : Bool) (pick : σ → Int → Int × σ) (g : Globals σ)
    (d1 d2 d3 : Int) (h1 : 0 ≤ d1 ∧ d1 ≤ 3) (h2 : 0 ≤ d2 ∧ d2 ≤ 7) (h3 : 0 ≤ d3 ∧ d3 ≤ 7) :
    (0 ≤ 64 * d1 + 8 * d2 + d3 ∧ 64 * d1 + 8 * d2 + d3 ≤ 255
      ∧ toChar sg (64 * d1 + 8 * d2 + d3) % 256 = 64 * d1 + 8 * d2 + d3)
    ∧ (∀ t : List Int,
        RendersAfter sg pick g ([92, 48 + d1, 48 + d2, 48 + d3] ++ t)
          (toChar sg (64 * d1 + 8 * d2 + d3)) t)
    ∧ (∀ t : List Int, (t = [] ∨ ∃ c r, t = c :: r ∧ isoct c = false) →
        RendersAfter sg pick g ([92, 48 + d1] ++ t) d1 t
        ∧ RendersAfter sg pick g ([92, 48 + d1, 48 + d2] ++ t) (8 * d1 + d2) t) := by
  refine ⟨⟨by omega, by omega, ?_⟩, ?_, ?_⟩
  · cases sg <;> simp [toChar] <;> omega
  · intro t
    exact rendersAfter_of_scan sg pick g [92, 48 + d1, 48 + d2, 48 + d3] t
      ⟨TOK_LITERAL, 64 * d1 + 8 * d2 + d3⟩ (scanTok_octal3 d1 d2 d3 t h1 h2 h3) (Or.inl rfl)
  · intro t ht
    have c1 : toChar sg d1 = d1 := by cases sg <;> simp [toChar] <;> omega
    have c2 : toChar sg (8 * d1 + d2) = 8 * d1 + d2 := by cases sg <;> simp [toChar] <;> omega
    constructor
    · have := rendersAfter_of_scan sg pick g [92, 48 + d1] t ⟨TOK_LITERAL, d1⟩
        (scanTok_octal1 d1 t h1 ht) (Or.inl rfl)
      simpa [c1] using this
    · have := rendersAfter_of_scan sg pick g [92, 48 + d1, 48 + d2] t ⟨TOK_LITERAL, 8 * d1 + d2⟩
        (scanTok_octal2 d1 d2 t h1 h2 ht) (Or.inl rfl)
      simpa [c2] using this

/-- C6 at `"\1111"` and `"\1a"` with the test suite's selector: the results
are the byte 73 followed by `'1'`, and the byte 1 followed by `'a'`. -/
theorem C6_octal_escape_witness :
    ((0 : Int) ≤ 1 ∧ (1 : Int) ≤ 3) ∧ ((0 : Int) ≤ 1 ∧ (1 : Int) ≤ 7)
      ∧ (∃ out, gensalt false genchar (some [92, 49, 49, 49, 49]) (globals0 (0 : Nat)) = some out
          ∧ out.result = some [73, 49, 0])
      ∧ (∃ out, gensalt false genchar (some [92, 49, 97]) (globals0 (0 : Nat)) = some out
          ∧ out.result = some [1, 97, 0]) := by
  have h := C6_octal_escape false genchar (globals0 (0 : Nat)) 1 1 1 (by decide) (by decide)
    (by decide)
  refine ⟨by decide, by decide, ?_, ?_⟩
  · obtain ⟨ot, o, hot, ho, hres, -⟩ := h.2.1 [49]
    have e : (gensalt false genchar (some [49]) (globals0 (0 : Nat))).map (fun x => x.result)
        = some (some [49, 0]) := by decide
    rw [hot] at e
    simp only [Option.map_some', Option.some.injEq] at e
    exact ⟨o, ho, by rw [hres, e]; decide⟩
  · obtain ⟨ot, o, hot, ho, hres, -⟩ := (h.2.2 [97] (Or.inr ⟨97, [], rfl, by decide⟩)).1
    have e : (gensalt false genchar (some [97]) (globals0 (0 : Nat))).map (fun x => x.result)
        = some (some [97, 0]) := by decide
    rw [hot] at e
    simp only [Option.map_some', Option.some.injEq] at e
    exact ⟨o, ho, by rw [hres, e]; rfl⟩

/-- C7: the diagnostic is empty exactly after a successful render.  For every
template (the `NULL` template included), every selector and whatever the
previous call left in the file-scope variables, `gensalt` returns, and
afterwards `gensalt_msg()` is the empty string if and only if the result is
not `NULL`. -/
theorem C7_msg_empty_iff_success {σ : Type} (sg : Bool) (pick : σ → Int → Int × σ)
    (template : Option (List Int)) (g : Globals σ) :
    ∃ out, gensalt sg pick template g = some out
      ∧ (gensalt_msg out.g = "" ↔ out.result ≠ none) := by
  obtain ⟨out, hout⟩ := gensalt_terminates sg pick template g
  refine ⟨out, hout, ?_⟩
  have hv := gensalt_view sg pick template g
  rw [hout] at hv
  exact vrun_invariant sg pick
    (fun v => v.msg = "" ∧ ∀ t, v.pend = some t → t.type ≠ TOK_ERR)
    (fun o => o.msg = "" ↔ o.result ≠ none) (vstep_msg sg pick) _ _ (obs out)
    (by simp [startView]) hv.symm

/-- C8: an absent template is the default pattern.  `gensalt(NULL, pick)` is
the same call as `gensalt("[A-Za-z0-9./]{2}", pick)`; for an in-range
selector it asks the selector twice, each time with bound 64, and returns the
two characters of `A..Z a..z 0..9 . /` (64 characters, in that order) at the
indices the selector answered, followed by the terminating NUL. -/
theorem C8_null_template {σ : Type} (sg : Bool) (pick : σ → Int → Int × σ) (g : Globals σ)
    (hp : inRange pick) :
    gensalt sg pick none g = gensalt sg pick (some defaultTemplate) g
    ∧ saltAlphabet.length = 64
    ∧ ∃ out, gensalt sg pick none g = some out
        ∧ out.result
            = some ((picks pick 64 2 g.rng).map (fun k => saltAlphabet.getD k.toNat 0) ++ [0])
        ∧ (picks pick 64 2 g.rng).length = 2
        ∧ (∀ k ∈ picks pick 64 2 g.rng, 0 ≤ k ∧ k < 64)
        ∧ out.g.calls = [64, 64] ∧ gensalt_msg out.g = "" := by
  refine ⟨rfl, by decide, ?_⟩
  obtain ⟨out, hout, h1, h2, h3, -⟩ := @gensalt_of_renders σ sg pick defaultTemplate g _ (renders_default sg pick g.rng)
  have hks := picks_inRange hp 64 (by decide) 2 g.rng
  refine ⟨out, hout, ?_, picks_length _ _ _ _, hks, ?_, ?_⟩
  · rw [h1]
    simp only [frameObs, Option.map_some']
    rw [map_picked saltAlphabet _ (saltAlphabet_chars sg) (fun k hk => by
      have := hks k hk
      have hl : ((saltAlphabet.length : Nat) : Int) = 64 := by decide
      omega)]
  · simpa [frameObs] using h3
  · simpa [frameObs] using h2

/-- C8 with the test suite's selector: `gensalt(NULL, genchar)` gives `"AB"`. -/
theorem C8_null_template_witness :
    inRange genchar
      ∧ ∃ out, gensalt false genchar none (globals0 (0 : Nat)) = some out
          ∧ out.result = some [65, 66, 0] ∧ out.g.calls = [64, 64] := by
  refine ⟨genchar_inRange, ?_⟩
  obtain ⟨-, -, out, h0, h1, -, -, h2, -⟩ :=
    C8_null_template false genchar (globals0 (0 : Nat)) genchar_inRange
  refine ⟨out, h0, ?_, h2⟩
  rw [h1]
  decide

/-- C9, as stated, fails: with the test suite's selector the empty template
gives the empty string, while `"[A-Za-z0-9./]{2}"` gives `"AB"`. -/
theorem C9_empty_template_counterexample :
    (gensalt false genchar (some []) (globals0 (0 : Nat))).map (fun o => o.result)
        = some (some [0])
      ∧ (gensalt false genchar (some defaultTemplate) (globals0 (0 : Nat))).map
          (fun o => o.result) = some (some [65, 66, 0])
      ∧ gensalt false genchar (some []) (globals0 (0 : Nat))
          ≠ gensalt false genchar (some defaultTemplate) (globals0 (0 : Nat)) := by
  refine ⟨by decide, by decide, ?_⟩
  intro h
  have h2 : (gensalt false genchar (some []) (globals0 (0 : Nat))).map (fun o => o.result)
      = (gensalt false genchar (some defaultTemplate) (globals0 (0 : Nat))).map
          (fun o => o.result) := by rw [h]
  revert h2
  decide

/-- C9, amended: the empty template does not fall back to the default
pattern.  For every selector, `gensalt` on `""` returns the empty string
(the buffer holding only the terminating NUL) with an empty diagnostic and
without calling the selector; the default pattern is used for the absent
(`NULL`) template only. -/
theorem C9_empty_template_renders_empty {σ : Type} (sg : Bool) (pick : σ → Int → Int × σ)
    (g : Globals σ) :
    (∃ out, gensalt sg pick (some []) g = some out ∧ out.result = some [0]
      ∧ gensalt_msg out.g = "" ∧ out.g.calls = [] ∧ out.g.rng = g.rng)
    ∧ gensalt sg pick none g = gensalt sg pick (some defaultTemplate) g :=
  ⟨gensalt_of_renders (renders_nil sg pick g.rng), rfl⟩

/-- C10, as stated, fails: the template `"\0"` (a backslash and the digit
`0`) is rendered as the single byte 0, whether or not `char` is signed.  The
render succeeds and the buffer returned holds a NUL before the terminating
NUL. -/
theorem C10_nul_free_counterexample :
    isTemplate false [92, 48] ∧ isTemplate true [92, 48] ∧ inRange genchar
      ∧ (gensalt false genchar (some [92, 48]) (globals0 (0 : Nat))).map
          (fun o => (o.result, gensalt_msg o.g)) = some (some ([0] ++ [0]), "")
      ∧ (gensalt true genchar (some [92, 48]) (globals0 (0 : Nat))).map
          (fun o => (o.result, gensalt_msg o.g)) = some (some ([0] ++ [0]), "") :=
  ⟨by decide, by decide, genchar_inRange, by decide, by decide⟩

/-- C10, amended: a render is NUL-free when no escape denotes NUL.  For every
template of positive `char` values (every template where `char` is unsigned,
the 7-bit ones where it is signed) none of whose tokens is an octal escape
of value 0, and for every in-range selector, `gensalt` returns, and when it
succeeds the buffer it returns is a NUL-free sequence followed by the
terminating NUL. -/
theorem C10_nul_free_without_nul_escape {σ : Type} (sg : Bool) (pick : σ → Int → Int × σ)
    (t : List Int) (g : Globals σ) (ht : ∀ c ∈ t, isChar sg c ∧ 0 < c)
    (hesc : noNulToken t.length t) (hp : inRange pick) :
    ∃ out, gensalt sg pick (some t) g = some out
      ∧ ∀ r, out.result = some r → ∃ body, r = body ++ [0] ∧ ∀ c ∈ body, c ≠ 0 := by
  obtain ⟨out, hout⟩ := gensalt_terminates sg pick (some t) g
  refine ⟨out, hout, ?_⟩
  have hv := gensalt_view sg pick (some t) g
  rw [hout] at hv
  have hI : NulFreeInv (startView t g.rng) := by
    refine ⟨?_, hesc, by simp [startView], by simp [startView], by simp [startView],
      by simp [startView]⟩
    intro c hc
    obtain ⟨h1, h2⟩ := ht c hc
    refine ⟨h2, ?_⟩
    cases sg <;> simp [isChar] at h1 <;> omega
  exact vrun_invariant sg pick NulFreeInv
    (fun o => ∀ r, o.result = some r → ∃ body, r = body ++ [0] ∧ ∀ c ∈ body, c ≠ 0)
    (vstep_nulfree sg pick hp) _ _ (obs out) hI hv.symm

/-- C10, amended, at `"\1[a-c]{2}"` with the test suite's selector. -/
theorem C10_nul_free_without_nul_escape_witness :
    (∀ c ∈ ([92, 49, 91, 97, 45, 99, 93, 123, 50, 125] : List Int), isChar false c ∧ 0 < c)
      ∧ noNulToken 10 [92, 49, 91, 97, 45, 99, 93, 123, 50, 125]
      ∧ inRange genchar
      ∧ ∃ out, gensalt false genchar (some [92, 49, 91, 97, 45, 99, 93, 123, 50, 125])
            (globals0 (0 : Nat)) = some out
          ∧ ∀ r, out.result = some r → ∃ body, r = body ++ [0] ∧ ∀ c ∈ body, c ≠ 0 :=
  ⟨by decide, by decide, genchar_inRange,
   C10_nul_free_without_nul_escape false genchar [92, 49, 91, 97, 45, 99, 93, 123, 50, 125]
     (globals0 0) (by decide) (by decide) genchar_inRange⟩

/-- C11: an empty set expands to nothing whatever the count.  For every
count `n`, written as its decimal numeral, and for every selector, `gensalt`
on `"[]{n}"` and on `"[]"` returns the empty string (the buffer holding only
the terminating NUL) with an empty diagnostic, and the selector is never
called (the call log is empty and its state unchanged). -/
theorem C11_empty_set {σ : Type} (sg : Bool) (pick : σ → Int → Int × σ) (n : Nat)
    (g : Globals σ) :
    (∃ out, gensalt sg pick (some ([91, 93, 123] ++ decimal n ++ [125])) g = some out
      ∧ out.result = some [0] ∧ gensalt_msg out.g = "" ∧ out.g.calls = []
      ∧ out.g.rng = g.rng)
    ∧ (∃ out, gensalt sg pick (some [91, 93]) g = some out
      ∧ out.result = some [0] ∧ gensalt_msg out.g = "" ∧ out.g.calls = []
      ∧ out.g.rng = g.rng) := by
  constructor
  · obtain ⟨out, h0, h⟩ := gensalt_of_renders
      (renders_empty_count sg pick (decimal n) [] g.rng (decimal_digits n)
        (renders_nil sg pick g.rng))
    exact ⟨out, by simpa using h0, h⟩
  · exact gensalt_of_renders
      (renders_empty_nocount sg pick [] g.rng (by simp [scanTok]) (renders_nil sg pick g.rng))

/-- C13: a dangling `-` is rejected.  Let `s` be a (possibly empty) string of
plain set members and `a` an endpoint character (not NUL, backslash, `]` or
`-`).  Then `gensalt` on `"[" s a "-]"` followed by any text, and on
`"[" s a "-"` at the end of input, returns `NULL` with the diagnostic
`"expected end of range"`, for every selector.  Any other token after the `-`
is the range's last endpoint `c`: a character written unescaped (a literal or
one of `[`, `-`, `{`, `}`), or the escaped `]`.  If `c < a` the render fails
with `"backwards range"`; if `a ≤ c`, the set closed by `]` is `s` followed by
`a..c`, from which an in-range selector picks the one character returned. -/
theorem C13_dangling_through (sg : Bool) (s : List Int) (a : Int)
    (hs : ∀ x ∈ s, isPlain x ∧ isChar sg x) (ha : isEndpoint a ∧ isChar sg a) :
    (∀ {σ : Type} (pick : σ → Int → Int × σ) (g : Globals σ) (t : List Int),
      (∃ out, gensalt sg pick (some ([91] ++ s ++ [a, 45, 93] ++ t)) g = some out
        ∧ out.result = none ∧ gensalt_msg out.g = "expected end of range")
      ∧ (∃ out, gensalt sg pick (some ([91] ++ s ++ [a, 45])) g = some out
        ∧ out.result = none ∧ gensalt_msg out.g = "expected end of range"))
    ∧ (∀ {σ : Type} (pick : σ → Int → Int × σ) (g : Globals σ) (Y : List Int) (c : Int),
      ((Y = [c] ∧ c ≠ 0 ∧ c ≠ 92 ∧ c ≠ 93) ∨ (Y = [92, 93] ∧ c = 93)) → isChar sg c →
      (c < a → ∀ t : List Int,
        ∃ out, gensalt sg pick (some ([91] ++ s ++ [a, 45] ++ Y ++ t)) g = some out
          ∧ out.result = none ∧ gensalt_msg out.g = "backwards range")
      ∧ (a ≤ c → inRange pick →
        ∃ out, gensalt sg pick (some ([91] ++ s ++ [a, 45] ++ Y ++ [93])) g = some out
          ∧ out.result = some
              [(s ++ (List.range (c - a + 1).toNat).map (fun (i : Nat) => a + (i : Int))).getD
                (pick g.rng (s.length + (c - a + 1))).1.toNat 0, 0]
          ∧ out.g.calls = [(s.length : Int) + (c - a + 1)]
          ∧ gensalt_msg out.g = "")) := by
  have hpl : ∀ x ∈ s, isPlain x := fun x hx => (hs x hx).1
  have hch : ∀ x ∈ s, isChar sg x := fun x hx => (hs x hx).2
  constructor
  · intro σ pick g t
    constructor
    · obtain ⟨out, h0, h1, h2, -⟩ := gensalt_of_renders
        (renders_dangling sg pick s a (93 :: t) g.rng hpl ha.1 (Or.inr (by simp [scanTok])))
      exact ⟨out, by simpa using h0, h1, h2⟩
    · obtain ⟨out, h0, h1, h2, -⟩ := gensalt_of_renders
        (renders_dangling sg pick s a [] g.rng hpl ha.1 (Or.inl (by simp [scanTok])))
      exact ⟨out, by simpa using h0, h1, h2⟩
  · intro σ pick g Y c hY hc
    obtain ⟨tk1, e1, hv1, hf1, ht1, -, -⟩ := scanTok_endpoint a [] ha.1
    have hscan1 : ∀ t, scanTok ([a] ++ 45 :: (Y ++ t)) = (tk1, ([a] : List Int).length) := by
      intro t
      have := scanTok_single a (45 :: (Y ++ t)) ha.1.1 ha.1.2.1
      rw [e1] at this
      simpa using this
    have hscan2 : ∃ tk2, (∀ t, scanTok (Y ++ t) = (tk2, Y.length)) ∧ tk2.val = c
        ∧ tk2.type ≠ TOK_EOF ∧ tk2.type ≠ TOK_GEN_END := by
      rcases hY with ⟨rfl, c0, c1, c2⟩ | ⟨rfl, rfl⟩
      · obtain ⟨tk2, f1, f2, f3, f4⟩ := scanTok_last c [] c0 c1 c2
        refine ⟨tk2, fun t => ?_, f2, f3, f4⟩
        have := scanTok_single c t c0 c1
        rw [f1] at this
        simpa using this
      · exact ⟨⟨TOK_LITERAL, 93⟩, fun t => scanTok_escaped 93 t (by decide) (by decide), rfl,
          by simp, by simp⟩
    obtain ⟨tk2, hsc2, hv2, hty2⟩ := hscan2
    constructor
    · intro hlt t
      obtain ⟨out, h0, h1, h2, -⟩ := gensalt_of_renders
        (renders_members_backwards sg pick s [a] Y t tk1 tk2 g.rng hpl (hscan1 t) ⟨hf1, ht1⟩
          (hsc2 t) hty2 (by rw [hv1, hv2]; exact hlt))
      exact ⟨out, by simpa using h0, h1, h2⟩
    · intro hle hp
      have h := renders_members_range_nocount sg pick s [a] Y [] tk1 tk2 g.rng hpl hscan1
        ⟨hf1, ht1⟩ hsc2 hty2 (by rw [hv1, hv2]; exact hle) (by simp [scanTok])
        (renders_nil sg pick _)
      obtain ⟨out, h0, h1, h2, h3, -⟩ := gensalt_of_renders h
      rw [hv1, hv2, appendRange_after_chars hch ha.2 hc] at h1 h3
      have hlen : (((s ++ (List.range (c - a + 1).toNat).map
          (fun (i : Nat) => a + (i : Int))).length : Nat) : Int) = s.length + (c - a + 1) := by
        simp
        omega
      have hk := hp g.rng (s.length + (c - a + 1)) (by omega)
      refine ⟨out, by simpa using h0, ?_, ?_, ?_⟩
      · rw [h1]
        simp only [frameObs, hlen, Option.map_some', picks, List.map_cons, List.map_nil,
          hk.1, if_true, List.cons_append, List.nil_append]
        rw [toChar_of_isChar (getD_isChar _ (set_range_chars hch ha.2 hc) _ (by
          have := hk.2
          have e : ((s ++ (List.range (c - a + 1).toNat).map
            (fun (i : Nat) => a + (i : Int))).length : Int) = s.length + (c - a + 1) := hlen
          omega))]
      · rw [h3]
        simp only [frameObs, hlen, List.replicate, List.nil_append, List.append_nil]
      · simpa [frameObs] using h2

/-- C13 at `"[x!-]"`, `"[x!-"`, `"[!-[]"` and `"[z-a"` with the test suite's
selector. -/
theorem C13_dangling_through_witness :
    (∀ x ∈ ([120] : List Int), isPlain x ∧ isChar false x) ∧ (isEndpoint 33 ∧ isChar false 33)
      ∧ (∃ out, gensalt false genchar (some [91, 120, 33, 45, 93]) (globals0 (0 : Nat))
            = some out ∧ out.result = none ∧ gensalt_msg out.g = "expected end of range")
      ∧ (∃ out, gensalt false genchar (some [91, 120, 33, 45]) (globals0 (0 : Nat))
            = some out ∧ out.result = none ∧ gensalt_msg out.g = "expected end of range")
      ∧ (∃ out, gensalt false genchar (some [91, 120, 33, 45, 91, 93]) (globals0 (0 : Nat))
            = some out ∧ out.result = some [120, 0] ∧ out.g.calls = [60]) := by
  have h := C13_dangling_through false [120] 33 (by decide) (by decide)
  refine ⟨by decide, by decide, ?_, ?_, ?_⟩
  · exact (h.1 genchar (globals0 0) []).1
  · exact (h.1 genchar (globals0 0) []).2
  · obtain ⟨out, h0, h1, h2, -⟩ := (h.2 genchar (globals0 0) [91] 91
      (Or.inl ⟨rfl, by decide, by decide, by decide⟩) (by decide)).2 (by decide)
      genchar_inRange
    exact ⟨out, h0, by rw [h1]; decide, by rw [h2]; decide⟩

/-- C14: malformed counts are rejected.  Let `s` be a string of plain set
members and `d` a (possibly empty) string of ASCII decimal digits.  For every
text `rest` whose first token is neither `}` nor a literal ASCII decimal
digit (`badCountTok`), and for every selector, `gensalt` on
`"[" s "]{" d rest` returns `NULL` with the diagnostic
`"expected digit or '}'"`, without calling the selector.  Such a `rest` is:
the end of input; a plain character that is not a digit; an escaped `}`; an
unescaped `[`, `]`, `-` or `{`; each followed by any text. -/
theorem C14_malformed_count (sg : Bool) (s d : List Int) (hs : ∀ x ∈ s, isPlain x)
    (hd : ∀ x ∈ d, 48 ≤ x ∧ x ≤ 57) :
    (∀ {σ : Type} (pick : σ → Int → Int × σ) (g : Globals σ) (rest : List Int),
      badCountTok rest →
      ∃ out, gensalt sg pick (some ([91] ++ s ++ [93, 123] ++ d ++ rest)) g = some out
        ∧ out.result = none ∧ gensalt_msg out.g = "expected digit or '\x7d'"
        ∧ out.g.calls = [])
    ∧ (∀ (t : List Int) (c : Int),
      badCountTok [] ∧ badCountTok ([92, 125] ++ t) ∧ badCountTok ([91] ++ t)
        ∧ badCountTok ([93] ++ t) ∧ badCountTok ([45] ++ t) ∧ badCountTok ([123] ++ t)
        ∧ (isPlain c → ¬ (48 ≤ c ∧ c ≤ 57) → badCountTok ([c] ++ t))) := by
  constructor
  · intro σ pick g rest hx
    obtain ⟨out, h0, h1, h2, h3, -⟩ :=
      gensalt_of_renders (renders_set_count_bad sg pick s d rest g.rng hs hd hx)
    exact ⟨out, by simpa using h0, h1, h2, h3⟩
  · intro t c
    refine ⟨by decide, ?_, ?_, ?_, ?_, ?_, ?_⟩
    · simp [badCountTok, scanTok, isdigit]
    · simp [badCountTok, scanTok]
    · simp [badCountTok, scanTok]
    · simp [badCountTok, scanTok]
    · simp [badCountTok, scanTok]
    · intro hc hnd
      simp only [badCountTok, List.singleton_append, scanTok_isPlain c t hc, isdigit]
      simpa using hnd

/-- C14 at `"[x]{"`, `"[x]{a}"` and `"[x]{1\}"` with the test suite's
selector. -/
theorem C14_malformed_count_witness :
    (∀ x ∈ ([120] : List Int), isPlain x) ∧ (∀ x ∈ ([49] : List Int), 48 ≤ x ∧ x ≤ 57)
      ∧ (∃ out, gensalt false genchar (some [91, 120, 93, 123]) (globals0 (0 : Nat)) = some out
          ∧ out.result = none ∧ gensalt_msg out.g = "expected digit or '\x7d'")
      ∧ (∃ out, gensalt false genchar (some [91, 120, 93, 123, 97, 125]) (globals0 (0 : Nat))
            = some out
          ∧ out.result = none ∧ gensalt_msg out.g = "expected digit or '\x7d'")
      ∧ (∃ out, gensalt false genchar (some [91, 120, 93, 123, 49, 92, 125])
            (globals0 (0 : Nat)) = some out
          ∧ out.result = none ∧ gensalt_msg out.g = "expected digit or '\x7d'") := by
  refine ⟨by decide, by decide, ?_, ?_, ?_⟩
  · obtain ⟨out, h0, h1, h2, -⟩ := (C14_malformed_count false [120] [] (by decide)
      (by decide)).1 genchar (globals0 0) [] (by decide)
    exact ⟨out, h0, h1, h2⟩
  · obtain ⟨out, h0, h1, h2, -⟩ := (C14_malformed_count false [120] [] (by decide)
      (by decide)).1 genchar (globals0 0) [97, 125] (by decide)
    exact ⟨out, h0, h1, h2⟩
  · obtain ⟨out, h0, h1, h2, -⟩ := (C14_malformed_count false [120] [49] (by decide)
      (by decide)).1 genchar (globals0 0) [92, 125] (by decide)
    exact ⟨out, h0, h1, h2⟩

/-- C15: special characters are only special in context.  Let `c` be one of
`[`, `-`, `{`, `}`.  Inside a set, written unescaped where a member or a
range's last character is expected, it is a character with its own value:
for every in-range selector `gensalt` on `"[" c "]"` returns exactly the one
character `c` (the selector is asked once, with bound 1), and for every plain
character `a ≤ c`, `gensalt` on `"[" a "-" c "]"` asks the selector once with
bound `c - a + 1` and returns `a + k` for its answer `k`. -/
theorem C15_specials_in_context (sg : Bool) (c : Int)
    (hc : c = 91 ∨ c = 45 ∨ c = 123 ∨ c = 125) :
    (∀ {σ : Type} (pick : σ → Int → Int × σ) (g : Globals σ), inRange pick →
      ∃ out, gensalt sg pick (some [91, c, 93]) g = some out
        ∧ out.result = some [c, 0] ∧ out.g.calls = [1] ∧ gensalt_msg out.g = "")
    ∧ (∀ {σ : Type} (pick : σ → Int → Int × σ) (g : Globals σ) (a : Int),
      isPlain a → isChar sg a → a ≤ c → inRange pick →
      ∃ out, gensalt sg pick (some [91, a, 45, c, 93]) g = some out
        ∧ out.result = some [a + (pick g.rng (c - a + 1)).1, 0]
        ∧ 0 ≤ (pick g.rng (c - a + 1)).1 ∧ (pick g.rng (c - a + 1)).1 < c - a + 1
        ∧ out.g.calls = [c - a + 1] ∧ gensalt_msg out.g = "") := by
  have hch : isChar sg c := by
    rcases hc with rfl | rfl | rfl | rfl <;> cases sg <;> decide
  have h0 : c ≠ 0 := by omega
  have h92 : c ≠ 92 := by omega
  have h93 : c ≠ 93 := by omega
  obtain ⟨tk, e1, hv, hty⟩ : ∃ tk, scanTok [c] = (tk, 1) ∧ tk.val = c ∧ isFirstTok tk.type := by
    rcases hc with rfl | rfl | rfl | rfl <;> simp [scanTok, isFirstTok]
  have hscan : ∀ t, scanTok ([c] ++ t) = (tk, ([c] : List Int).length) := by
    intro t
    have := scanTok_single c t h0 h92
    rw [e1] at this
    simpa using this
  have hty2 : tk.type ≠ TOK_EOF ∧ tk.type ≠ TOK_GEN_END := by
    obtain ⟨tk2, f1, -, f3, f4⟩ := scanTok_last c [] h0 h92 h93
    rw [e1] at f1
    obtain rfl : tk = tk2 := (Prod.mk.inj f1).1
    exact ⟨f3, f4⟩
  constructor
  · intro σ pick g hp
    have h := renders_one_nocount sg pick [c] [] tk g.rng hscan hty (by simp [scanTok])
      (renders_nil sg pick _)
    obtain ⟨out, g0, g1, g2, g3, -⟩ := gensalt_of_renders h
    have hk := hp g.rng 1 (by decide)
    have hk0 : (pick g.rng 1).1 = 0 := by omega
    refine ⟨out, by simpa using g0, ?_, ?_, ?_⟩
    · rw [g1]
      simp [frameObs, picks, hk0, hv, toChar_of_isChar hch]
    · simpa [frameObs] using g3
    · simpa [frameObs] using g2
  · intro σ pick g a hpa hca hle hp
    have h := renders_range_nocount sg pick [a] [c] [] ⟨TOK_LITERAL, a⟩ tk g.rng
      (fun t => by simpa using scanTok_isPlain a _ hpa) (Or.inl rfl) hscan hty2
      (by rw [hv]; exact hle) (by simp [scanTok]) (renders_nil sg pick _)
    obtain ⟨out, g0, g1, g2, g3, -⟩ := gensalt_of_renders h
    simp only [hv] at g1 g3
    have hlen : ((appendRange sg [] a c).length : Int) = c - a + 1 := by
      rw [appendRange_chars hca hch]
      simp
      omega
    have hk := hp g.rng (c - a + 1) (by omega)
    refine ⟨out, by simpa using g0, ?_, hk.1, hk.2, ?_, ?_⟩
    · rw [g1]
      simp only [frameObs, hlen, picks, List.map_cons, List.map_nil, hk.1, if_true,
        Option.map_some', List.cons_append, List.nil_append]
      rw [appendRange_chars hca hch, range_getD a _ _ hk.1 (by omega),
        toChar_of_isChar (isChar_between hca hch (by omega) (by omega))]
    · rw [g3]
      simp only [frameObs, hlen, List.replicate, List.append_nil]
    · simpa [frameObs] using g2

/-- C15 at `"[[]"` and `"[!-[]"` with the test suite's selector: the results
are `"["` and `"!"`. -/
theorem C15_specials_in_context_witness :
    ((91 : Int) = 91 ∨ (91 : Int) = 45 ∨ (91 : Int) = 123 ∨ (91 : Int) = 125)
      ∧ (∃ out, gensalt false genchar (some [91, 91, 93]) (globals0 (0 : Nat)) = some out
          ∧ out.result = some [91, 0])
      ∧ (∃ out, gensalt false genchar (some [91, 33, 45, 91, 93]) (globals0 (0 : Nat))
            = some out ∧ out.result = some [33, 0] ∧ out.g.calls = [59]) := by
  have h := C15_specials_in_context false 91 (by decide)
  refine ⟨by decide, ?_, ?_⟩
  · obtain ⟨out, h0, h1, -⟩ := h.1 genchar (globals0 0) genchar_inRange
    exact ⟨out, h0, h1⟩
  · obtain ⟨out, h0, h1, -, -, h2, -⟩ := h.2 genchar (globals0 0) 33 (by decide) (by decide)
      (by decide) genchar_inRange
    exact ⟨out, h0, by rw [h1]; decide, by rw [h2]; decide⟩

/-- C16: octal-escaped digits count as count digits.  Let `s` be a non-empty
string of plain characters and let `w` be a string of ASCII decimal digits,
each marked as written plainly or as the three-digit octal escape of its code
(backslash `060` .. backslash `071`).  For every selector, `gensalt` on
`"[" s "]{" w "}"` with the digits written as marked and on the same template
with all digits written plainly both return, with the same result, the same
diagnostic, the same selector calls and the same final selector state. -/
theorem C16_octal_digits_in_count {σ : Type} (sg : Bool) (pick : σ → Int → Int × σ)
    (s : List Int) (w : List (Int × Bool)) (g : Globals σ) (hne : s ≠ [])
    (hs : ∀ c ∈ s, isPlain c) (hw : ∀ p ∈ w, 48 ≤ p.1 ∧ p.1 ≤ 57) :
    ∃ out1 out2,
      gensalt sg pick (some ([91] ++ s ++ [93, 123] ++ writeDigits w ++ [125])) g = some out1
        ∧ gensalt sg pick (some ([91] ++ s ++ [93, 123] ++ w.map Prod.fst ++ [125])) g
            = some out2
        ∧ out1.result = out2.result ∧ gensalt_msg out1.g = gensalt_msg out2.g
        ∧ out1.g.calls = out2.g.calls ∧ out1.g.rng = out2.g.rng := by
  have hds : ∀ d ∈ w.map Prod.fst, 48 ≤ d ∧ d ≤ 57 := by
    intro d hd
    obtain ⟨p, hp, rfl⟩ := List.mem_map.mp hd
    exact hw p hp
  obtain ⟨out1, a0, a1, a2, a3, a4⟩ := gensalt_of_renders
    (@renders_set_count_written _ sg pick s w [] g.rng _ hs hne hw (renders_nil sg pick _))
  obtain ⟨out2, b0, b1, b2, b3, b4⟩ := gensalt_of_renders
    (@renders_set_count _ sg pick s (w.map Prod.fst) [] g.rng _ hs hne hds
      (renders_nil sg pick _))
  exact ⟨out1, out2, by simpa using a0, by simpa using b0, a1.trans b1.symm, a2.trans b2.symm,
    a3.trans b3.symm, a4.trans b4.symm⟩

set_option maxRecDepth 100000 in
/-- C16 at `"[x]{\061}"` and `"[x]{\0610}"` (the backslash being part of the
template): they render one `x` and ten, as `"[x]{1}"` and `"[x]{10}"` do. -/
theorem C16_octal_digits_in_count_witness :
    ([120] : List Int) ≠ [] ∧ (∀ c ∈ ([120] : List Int), isPlain c)
      ∧ (∀ p ∈ ([(49, true), (48, false)] : List (Int × Bool)), 48 ≤ p.1 ∧ p.1 ≤ 57)
      ∧ (∃ out, gensalt false genchar (some [91, 120, 93, 123, 92, 48, 54, 49, 125])
            (globals0 (0 : Nat)) = some out ∧ out.result = some [120, 0])
      ∧ (∃ out, gensalt false genchar (some [91, 120, 93, 123, 92, 48, 54, 49, 48, 125])
            (globals0 (0 : Nat)) = some out
          ∧ out.result = some [120, 120, 120, 120, 120, 120, 120, 120, 120, 120, 0]) := by
  refine ⟨by decide, by decide, by decide, ?_, ?_⟩
  · obtain ⟨out1, out2, h1, h2, h3, -⟩ := C16_octal_digits_in_count false genchar [120]
      [(49, true)] (globals0 (0 : Nat)) (by decide) (by decide) (by decide)
    have e : (gensalt false genchar (some [91, 120, 93, 123, 49, 125])
        (globals0 (0 : Nat))).map (fun o => o.result) = some (some [120, 0]) := by decide
    refine ⟨out1, h1, ?_⟩
    have h2b : gensalt false genchar (some [91, 120, 93, 123, 49, 125]) (globals0 (0 : Nat))
        = some out2 := h2
    rw [h2b] at e
    rw [h3]
    simpa using e
  · obtain ⟨out1, out2, h1, h2, h3, -⟩ := C16_octal_digits_in_count false genchar [120]
      [(49, true), (48, false)] (globals0 (0 : Nat)) (by decide) (by decide) (by decide)
    have e : (gensalt false genchar (some [91, 120, 93, 123, 49, 48, 125])
        (globals0 (0 : Nat))).map (fun o => o.result)
          = some (some [120, 120, 120, 120, 120, 120, 120, 120, 120, 120, 0]) := by decide
    refine ⟨out1, h1, ?_⟩
    have h2b : gensalt false genchar (some [91, 120, 93, 123, 49, 48, 125])
        (globals0 (0 : Nat)) = some out2 := h2
    rw [h2b] at e
    rw [h3]
    simpa using e

/-- C17, as stated, fails: no template makes `gensalt` fail with
`"expected literal or '['"`, whatever the signedness of `char`, the selector
(here with a counter as its state) and the state the previous call left.  The
closing constructs at top level are copied to the output instead: `"]"`,
`"a]b"`, `"}{"` and `"-]"` render as themselves. -/
theorem C17_top_level_error_counterexample :
    (¬ ∃ (sg : Bool) (pick : Nat → Int → Int × Nat) (template : Option (List Int))
          (g : Globals Nat) (out : Outcome Nat),
        gensalt sg pick template g = some out
          ∧ gensalt_msg out.g = "expected literal or '['")
      ∧ (gensalt false genchar (some [93]) (globals0 (0 : Nat))).map
          (fun o => (o.result, gensalt_msg o.g)) = some (some [93, 0], "")
      ∧ (gensalt false genchar (some [97, 93, 98]) (globals0 (0 : Nat))).map
          (fun o => (o.result, gensalt_msg o.g)) = some (some [97, 93, 98, 0], "")
      ∧ (gensalt false genchar (some [125, 123]) (globals0 (0 : Nat))).map
          (fun o => (o.result, gensalt_msg o.g)) = some (some [125, 123, 0], "")
      ∧ (gensalt false genchar (some [45, 93]) (globals0 (0 : Nat))).map
          (fun o => (o.result, gensalt_msg o.g)) = some (some [45, 93, 0], "") := by
  refine ⟨?_, by decide, by decide, by decide, by decide⟩
  rintro ⟨sg, pick, template, g, out, hout, hmsg⟩
  obtain ⟨out1, h1, h2⟩ := gensalt_msg_not_start sg pick template g
  rw [hout] at h1
  cases h1
  exact h2 hmsg

/-- C17, amended: the diagnostic `"expected literal or '['"` is never
produced.  For every template (the `NULL` template included) and every
selector, `gensalt` returns and its diagnostic is not
`"expected literal or '['"`; and a `]`, `{`, `}` or `-` anywhere at top level,
between texts `P` and `Q` without `[` and backslash, is copied to the output
like a literal: `gensalt` on `P c Q` returns `P c Q` with an empty diagnostic
and without calling the selector. -/
theorem C17_top_level_closers_are_literals {σ : Type} (sg : Bool)
    (pick : σ → Int → Int × σ) :
    (∀ (template : Option (List Int)) (g : Globals σ),
      ∃ out, gensalt sg pick template g = some out
        ∧ gensalt_msg out.g ≠ "expected literal or '['")
    ∧ (∀ (c : Int) (P Q : List Int) (g : Globals σ),
      c = 93 ∨ c = 123 ∨ c = 125 ∨ c = 45 → isTemplate sg (P ++ Q) → (91 : Int) ∉ P ++ Q →
      (92 : Int) ∉ P ++ Q →
      ∃ out, gensalt sg pick (some (P ++ [c] ++ Q)) g = some out
        ∧ out.result = some (P ++ [c] ++ Q ++ [0]) ∧ gensalt_msg out.g = ""
        ∧ out.g.calls = []) := by
  refine ⟨gensalt_msg_not_start sg pick, ?_⟩
  intro c P Q g hc ht hb hs
  have hcc : isChar sg c ∧ c ≠ 0 ∧ c ≠ 91 ∧ c ≠ 92 := by
    rcases hc with rfl | rfl | rfl | rfl <;> cases sg <;> decide
  have ht2 : isTemplate sg (P ++ [c] ++ Q) := by
    intro x hx
    simp only [List.append_assoc, List.mem_append, List.mem_singleton, List.mem_cons,
      List.singleton_append] at hx
    rcases hx with hx | hx | hx
    · exact ht x (by simp [hx])
    · rw [hx]; exact ⟨hcc.1, hcc.2.1⟩
    · exact ht x (by simp [hx])
  have hb2 : (91 : Int) ∉ P ++ [c] ++ Q := by
    simp only [List.append_assoc, List.mem_append, List.mem_singleton, List.mem_cons,
      List.singleton_append, not_or] at hb ⊢
    exact ⟨hb.1, fun h => hcc.2.2.1 h.symm, hb.2⟩
  have hs2 : (92 : Int) ∉ P ++ [c] ++ Q := by
    simp only [List.append_assoc, List.mem_append, List.mem_singleton, List.mem_cons,
      List.singleton_append, not_or] at hs ⊢
    exact ⟨hs.1, fun h => hcc.2.2.2 h.symm, hs.2⟩
  obtain ⟨out, h0, h1, h2, h3, -⟩ :=
    gensalt_of_renders (renders_plain sg pick g.rng (P ++ [c] ++ Q) ht2 hb2 hs2)
  exact ⟨out, h0, h1, h2, h3⟩

/-- C18: the selector is called once per character emitted by a bracket
construct, with the size of the set as bound.  Take any template (the `NULL`
template included) and any in-range selector.  At every configuration the
parser loop of `gensalt` reaches: in `STATE_SAW_COUNT` the iteration goes on,
it calls the selector `count` times if the range buffer is not empty (not at
all if it is), each time with the length of the range buffer as bound, which
is then at least 1, each answer `k` lies inside the buffer, and the
characters appended to the output are exactly the buffer's `range.buf[k]`, one
per call; in every other state no call is made.  The call returns, every
bound the selector received is at least 1, and the length of a returned salt
is the number of top-level literals copied, plus the number of selector calls,
plus the terminating NUL.  The default selector `rand() % n` is in range. -/
theorem C18_selector_calls {σ : Type} (sg : Bool) (pick : σ → Int → Int × σ)
    (template : Option (List Int)) (g0 : Globals σ) (hp : inRange pick) :
    (∀ (n : Nat) (l : Locals) (g : Globals σ),
      gensaltIter sg pick n locals0 (gensaltInit template g0) = some (l, g) →
      (l.state = STATE_SAW_COUNT →
        ∃ l1 g1, gensaltBody sg pick l g = some (.again l1 g1)
          ∧ g1.calls = g.calls ++ List.replicate (emitCount STATE_SAW_COUNT g.range l.count)
              (g.range.length : Int)
          ∧ g1.salt = g.salt
              ++ (picks pick g.range.length (emitCount STATE_SAW_COUNT g.range l.count) g.rng).map
                  (fun k => toChar sg (g.range.getD k.toNat 0))
          ∧ (picks pick g.range.length (emitCount STATE_SAW_COUNT g.range l.count) g.rng).length
              = emitCount STATE_SAW_COUNT g.range l.count
          ∧ (∀ k ∈ picks pick g.range.length (emitCount STATE_SAW_COUNT g.range l.count) g.rng,
              0 ≤ k ∧ k < g.range.length)
          ∧ (emitCount STATE_SAW_COUNT g.range l.count ≠ 0 → 1 ≤ g.range.length))
      ∧ (l.state ≠ STATE_SAW_COUNT → ∀ it, gensaltBody sg pick l g = some it →
          match it with
          | .again _ g1 => g1.calls = g.calls
          | .done out => out.g.calls = g.calls))
    ∧ (∃ out, gensalt sg pick template g0 = some out
        ∧ (∀ b ∈ out.g.calls, 1 ≤ b)
        ∧ ∀ r, out.result = some r →
            r.length = topLiterals sg pick (3 * (gensaltInit template g0).input.length + 4)
                locals0 (gensaltInit template g0) + out.g.calls.length + 1)
    ∧ ∀ rand : σ → Int × σ, (∀ s, 0 ≤ (rand s).1) → inRange (pick_default rand) := by
  refine ⟨?_, ?_, ?_⟩
  · intro n l g hreach
    have hI := gensaltIter_sane sg pick n _ _ l g (sane_init template g0) hreach
    refine ⟨?_, fun hs => body_no_calls sg pick l g hs⟩
    intro hs
    obtain ⟨l1, g1, e1, -, e3⟩ := body_saw_count sg pick l g hs hI
    rw [emit_eq, hs] at e3
    simp only [Prod.mk.injEq] at e3
    obtain ⟨a1, -, a3⟩ := e3
    have hpos : emitCount STATE_SAW_COUNT g.range l.count ≠ 0 → 1 ≤ g.range.length := by
      intro hne
      have hr : g.range ≠ [] := by
        intro h
        simp [emitCount, h] at hne
      exact List.length_pos.mpr hr
    have hks : ∀ k ∈ picks pick g.range.length (emitCount STATE_SAW_COUNT g.range l.count) g.rng,
        0 ≤ k ∧ k < g.range.length := by
      by_cases hz : emitCount STATE_SAW_COUNT g.range l.count = 0
      · rw [hz]
        intro k hk
        simp [picks] at hk
      · have := hpos hz
        exact picks_inRange hp _ (by omega) _ _
    refine ⟨l1, g1, e1, a3, ?_, picks_length pick _ _ _, hks, hpos⟩
    rw [a1]
    congr 1
    apply List.map_congr_left
    intro k hk
    simp [(hks k hk).1]
  · obtain ⟨out, hout⟩ := gensalt_terminates sg pick template g0
    refine ⟨out, hout, gensalt_calls_pos sg pick template g0 out hout, ?_⟩
    intro r hr
    have := loop_salt_length sg pick _ _ _ out r hout hr
    simp only [gensaltInit, strclear, List.length_nil] at this ⊢
    omega
  · intro rand hrand s n hn
    exact ⟨Int.tmod_nonneg _ (hrand s), Int.tmod_lt_of_pos _ hn⟩

set_option maxRecDepth 100000 in
/-- C18 at `"a[xy]{2}b"` with the test suite's selector: two top-level
literals are copied, and the returned salt has two more characters and the
NUL, one character per selector call. -/
theorem C18_selector_calls_witness :
    inRange genchar
      ∧ topLiterals false genchar 31 locals0
          (gensaltInit (some [97, 91, 120, 121, 93, 123, 50, 125, 98]) (globals0 (0 : Nat))) = 2
      ∧ ∃ out, gensalt false genchar (some [97, 91, 120, 121, 93, 123, 50, 125, 98])
            (globals0 (0 : Nat)) = some out
          ∧ (∀ b ∈ out.g.calls, 1 ≤ b)
          ∧ ∀ r, out.result = some r → r.length = 2 + out.g.calls.length + 1 := by
  have ht : topLiterals false genchar 31 locals0
      (gensaltInit (some [97, 91, 120, 121, 93, 123, 50, 125, 98]) (globals0 (0 : Nat))) = 2 := by
    decide
  refine ⟨genchar_inRange, ht, ?_⟩
  obtain ⟨out, h0, h1, h2⟩ := (C18_selector_calls false genchar
    (some [97, 91, 120, 121, 93, 123, 50, 125, 98]) (globals0 (0 : Nat)) genchar_inRange).2.1
  refine ⟨out, h0, h1, ?_⟩
  intro r hr
  have := h2 r hr
  simp only [gensaltInit, List.length_cons, List.length_nil] at this
  rw [this]
  congr 2

/-- C19: the render always finishes.  For every template (the `NULL` template
included), every selector and whatever the previous call left, `gensalt`
returns within `3 * length + 4` iterations of its loop, with a result and no
message or with `NULL` and a syntax diagnostic, and allowing more iterations
changes nothing.  The reasons: the lexer returns on every call; every
iteration that goes on lowers the bound `pot` (three per unread character and
what the pushed-back token can still take); of any three iterations running,
one leaves the pushback slot empty, so a token is pushed back at most twice
before it is consumed; and once the input is at its end, with the pushback
slot empty or holding the end-of-input token, the loop returns within three
iterations from every state. -/
theorem C19_render_terminates {σ : Type} (sg : Bool) (pick : σ → Int → Int × σ)
    (template : Option (List Int)) (g0 : Globals σ) :
    (∃ out, gensalt sg pick template g0 = some out
      ∧ ((out.result ≠ none ∧ gensalt_msg out.g = "")
        ∨ (out.result = none ∧ syntaxDiag (gensalt_msg out.g)))
      ∧ ∀ n, 3 * (gensaltInit template g0).input.length + 4 ≤ n →
          gensaltLoop sg pick n locals0 (gensaltInit template g0) = some out)
    ∧ (∀ (t : token) (g : Globals σ), ∃ r, gettok t g = some r)
    ∧ (∀ (l l1 : Locals) (g g1 : Globals σ), gensaltBody sg pick l g = some (.again l1 g1) →
        pot (view l1 g1) < pot (view l g))
    ∧ (∀ (l l3 : Locals) (g g3 : Globals σ), gensaltIter sg pick 3 l g = some (l3, g3) →
        ∃ k l1 g1, 1 ≤ k ∧ k ≤ 3 ∧ gensaltIter sg pick k l g = some (l1, g1)
          ∧ g1.pushback.type = TOK_EMPTY)
    ∧ (∀ (l : Locals) (g : Globals σ), g.input.getD g.ptr 0 = 0 →
        g.pushback.type = TOK_EMPTY ∨ g.pushback.type = TOK_EOF →
        ∃ out, gensaltLoop sg pick 3 l g = some out) := by
  refine ⟨?_, gettok_total, body_pot sg pick, pushback_twice sg pick, gensaltLoop_eof sg pick⟩
  obtain ⟨out, hout, h⟩ := gensalt_outcome sg pick template g0
  exact ⟨out, hout, h, fun n hn => gensaltLoop_mono sg pick _ n _ _ out hn hout⟩

/-- C20: the internal-error returns are unreachable.  Take any template (the
`NULL` template included), any selector and whatever the previous call left
in the file-scope variables.  At every configuration the parser loop of
`gensalt` reaches: the state is one of the seven parser states, no message is
set, the pushback slot does not hold the error token, the call of `gettok`
returns a token that is not the error token, without setting a message, and
leaves the pushback slot empty, so that a call of `ungettok` after it
succeeds and sets no message.  The call returns; its diagnostic is none of
`"too many tokens pushed back"`, `"too many chars pushed back"`,
`"gettok: can't happen"` and `"can't happen"`; a failure carries one of the
syntax diagnostics `"expected literal or ']'"`, `"expected end of range"`,
`"backwards range"`, `"expected digit or '}'"`, and a success none. -/
theorem C20_internal_errors_unreachable {σ : Type} (sg : Bool) (pick : σ → Int → Int × σ)
    (template : Option (List Int)) (g0 : Globals σ) :
    (∀ (n : Nat) (l : Locals) (g : Globals σ),
      gensaltIter sg pick n locals0 (gensaltInit template g0) = some (l, g) →
      parserState l.state ∧ g.msg = "" ∧ g.pushback.type ≠ TOK_ERR
        ∧ ∃ ty tok g1, gettok l.tok g = some (ty, tok, g1) ∧ ty ≠ TOK_ERR ∧ tok.type = ty
            ∧ g1.pushback.type = TOK_EMPTY ∧ g1.msg = ""
            ∧ ∀ u, (ungettok u g1).1 = true ∧ (ungettok u g1).2.msg = "")
    ∧ ∃ out, gensalt sg pick template g0 = some out
        ∧ ¬ internalDiag (gensalt_msg out.g)
        ∧ (out.result = none → syntaxDiag (gensalt_msg out.g))
        ∧ (out.result ≠ none → gensalt_msg out.g = "") := by
  constructor
  · intro n l g hreach
    have hI := gensaltIter_sane sg pick n _ _ l g (sane_init template g0) hreach
    obtain ⟨hm, hst, hp⟩ := (sane_view_iff l g).mp hI
    obtain ⟨ty, tok, g1, h1, h2, h3, h4, h5, h6⟩ := gettok_sane l.tok g hp
    rw [hm] at h5 h6
    exact ⟨hst, hm, hp, ty, tok, g1, h1, h2, h3, h4, h5, h6⟩
  · obtain ⟨out, hout, h⟩ := gensalt_outcome sg pick template g0
    refine ⟨out, hout, ?_, ?_, ?_⟩
    · rcases h with ⟨-, h⟩ | ⟨-, h | h | h | h⟩ <;> rw [h] <;> decide
    · intro hn
      rcases h with ⟨h, -⟩ | ⟨-, h⟩
      · exact absurd hn h
      · exact h
    · intro hn
      rcases h with ⟨-, h⟩ | ⟨h, -⟩
      · exact h
      · exact absurd h hn

end Gensalt
